import Mathlib

/-!
# A shallow embedding of `ext::vector` and `ext::dynamic_array`

Sources: `Data_Structures/Vector/Vector.hpp` and
`Data_Structures/DynamicArray/DynamicArray.hpp`.

Conventions of the embedding.

* `size_t` is the 64-bit unsigned type: sums and products of element counts,
  capacities, sizes and offsets are reduced modulo `2 ^ 64` (`size_t_wrap`), a
  decrement of `0` gives `SIZE_MAX`. The counters that walk over an argument pack
  or over the dimensions are bounded by its length and stay natural numbers.
* A buffer obtained from `::operator new` is a map from slot offsets to slot
  contents. A slot holds `some v` when an object with value `v` was constructed
  there and `none` when it holds no determinate value (never constructed,
  destroyed, or moved from). The number of allocated slots is what the
  container records in its size field; a store past it is undefined behaviour
  in C++ and is recorded in the map so that the bookkeeping stays visible.
* A `throw std::runtime_error(...)` is `Except.error (Fault.raised kind)`,
  a read outside an allocation or of a slot without a value is
  `Except.error Fault.undefined`.
* The compile-time queries on the element type are the three booleans of
  `Traits`; every `enable_if` pair of overloads is one function that branches
  on the corresponding boolean.
* A reference parameter of a public member of `ext::vector` is a `reference`:
  bound to an object outside the vector or to one of the vector's own elements.
  The content is read where the code reads it, that is in the placement
  construction, after the buffer has been grown, the elements shifted and the
  target slot destroyed; a read through a reference into a buffer that has been
  deleted since the call has no determinate result, and a construction from
  `std::move(...)` leaves an element it moves from without a determinate value.
-/

namespace ext

/-! ## Shared vocabulary -/

/-- Error kinds, one per `std::runtime_error` message of the two headers. -/
inductive ErrorKind
  | DimensionCountError      -- "too few dimensions"
  | DimensionSizeError       -- "dimension size must be bigger than 0"
  | TooManySizes             -- "too many dimension sizes"
  | TooManyIndices           -- "too many indices"
  | IndexOutOfRange          -- "Index must less than dim_size", "val out of range", "invalid index"
  | TooManyInitialElements   -- "Too many iterator/list elements..."
  deriving DecidableEq, Repr

/-- Abnormal outcomes of a call: an exception of some kind, or undefined behaviour. -/
inductive Fault
  | raised (e : ErrorKind)
  | undefined
  deriving DecidableEq, Repr

/-- The largest `size_t` value. -/
def SIZE_MAX : Nat := 2 ^ 64 - 1

/-- Reduction of an arithmetic result to `size_t`. -/
def size_t_wrap (x : Nat) : Nat := x % 2 ^ 64

/-- The `size_t` decrement `--x`. -/
def size_t_decr (x : Nat) : Nat := if x = 0 then SIZE_MAX else x - 1

/-- The loop `for (size_t i = lo; i < hi; ++i) body(i)` with `fuel = hi - lo` iterations,
for a bound `hi` the body does not change. -/
def forUp {σ : Type} (body : Nat → σ → σ) : Nat → Nat → σ → σ
  | 0, _, s => s
  | fuel + 1, i, s => forUp body fuel (i + 1) (body i s)

/-- The loop `for (size_t i = hi; i > lo; --i) body(i)` with `fuel = hi - lo` iterations. -/
def forDown {σ : Type} (body : Nat → σ → σ) : Nat → Nat → σ → σ
  | 0, _, s => s
  | fuel + 1, i, s => forDown body fuel (i - 1) (body i s)

/-! ## Double precision arithmetic of the growth factor -/

/-- The number of low bits of `N` beyond its 53 most significant ones; `fuel` bounds the
number of halvings and `N` itself is always enough. -/
def excess_bits : Nat → Nat → Nat
  | 0, _ => 0
  | fuel + 1, N => if N < 2 ^ 53 then 0 else excess_bits fuel (N / 2) + 1

/-- Round to nearest, ties to even, of a natural number to 53 significant bits: the
value an IEEE-754 binary64 operation returns for an exact result `N` (scaling by a
power of two does not change the significand). -/
def rne53 (N : Nat) : Nat :=
  let s := excess_bits N N
  let q := N / 2 ^ s
  let r := N % 2 ^ s
  if 2 * r > 2 ^ s ∨ (2 * r = 2 ^ s ∧ q % 2 = 1) then (q + 1) * 2 ^ s else q * 2 ^ s

/-- The binary64 number nearest to 1.6 is `growth_factor_significand / 2 ^ 52`
(bit pattern `0x3FF999999999999A`). -/
def growth_factor_significand : Nat := 7205759403792794

/-- The expression `buffer_size * 1.6` passed to a `size_t` parameter: `buffer_size` is
converted to binary64, multiplied by the binary64 constant 1.6, and the product is
truncated towards zero. The conversion back is defined in C++ for products below
`2 ^ 64` only, where the final reduction is the identity. -/
def growth (buffer_size : Nat) : Nat :=
  size_t_wrap (rne53 (rne53 buffer_size * growth_factor_significand) / 2 ^ 52)

/-! ## `ext::vector` -/

/-- The compile-time properties of the element type the overloads are selected on. -/
structure Traits where
  is_nothrow_move_constructible : Bool
  is_nothrow_destructible : Bool
  is_trivially_destructible : Bool
  deriving DecidableEq, Repr

/-- The properties of a scalar element type such as `int`. -/
def Traits.scalar : Traits :=
  { is_nothrow_move_constructible := true, is_nothrow_destructible := true,
    is_trivially_destructible := true }

/-- The private state of `ext::vector<T>`. -/
structure vector (T : Type) where
  buffer_size : Nat
  item_counter : Nat
  buffer : Nat → Option T

/-- The macro `EXT_VECTOR_SIZE(x)`, `(2>x?2:x)`. -/
def EXT_VECTOR_SIZE (x : Nat) : Nat := if 2 > x then 2 else x

/-- The macro `EXT_VECTOR_BUFFER_INIT(size)`: fresh raw memory, no slot holds a value. -/
def EXT_VECTOR_BUFFER_INIT {T : Type} (_size : Nat) : Nat → Option T := fun _ => none

/-- Placement construction `new(buffer + i) T(v)`. -/
def construct_at {T : Type} (buffer : Nat → Option T) (i : Nat) (v : Option T) : Nat → Option T :=
  fun j => if j = i then v else buffer j

/-- The destructor call `buffer[i].~T()`. -/
def destroy_at {T : Type} (buffer : Nat → Option T) (i : Nat) : Nat → Option T :=
  fun j => if j = i then none else buffer j

/-- The state of a slot after `T(std::move(buffer[i]))`: the object stays, its value is
no longer determinate. -/
def moved_from_at {T : Type} (buffer : Nat → Option T) (i : Nat) : Nat → Option T :=
  fun j => if j = i then none else buffer j

/-- What a reference parameter of a member (`const T &item`, `T &&item`,
`Args &&... args`) is bound to: an object that is no element of the vector, with its
content (for `Args &&... args` the constructor arguments, with the content of
`T(args...)`), or the element in slot `k` of the buffer the vector has when the member is
called, as in `v.insert(0, v[k])`. -/
inductive reference (T : Type) where
  | external (content : Option T)
  | element (k : Nat)

namespace vector

variable {T : Type}

/-- The content read through a reference parameter while the vector is in the state
`self`. `released` tells that the buffer the vector had at the call has been deleted since:
a reference to one of its elements then dangles and the read has no determinate result. -/
def read_through (self : vector T) (released : Bool) : reference T → Option T
  | .external content => content
  | .element k => if released then none else self.buffer k

/-- The vector after `T(std::move(item))` or `T(std::move(args)...)` has moved from the
object behind a reference parameter: an element of the current buffer is left without a
determinate value. -/
def moved_through (self : vector T) (released : Bool) : reference T → vector T
  | .external _ => self
  | .element k =>
    if released then self else { self with buffer := moved_from_at self.buffer k }

/-- The default constructor `vector()`. -/
def ctor_default : vector T :=
  { buffer_size := 2, item_counter := 0, buffer := EXT_VECTOR_BUFFER_INIT 2 }

/-- The constructor `vector(size_t size)`. -/
def ctor_size (size : Nat) : vector T :=
  { buffer_size := EXT_VECTOR_SIZE size, item_counter := 0,
    buffer := EXT_VECTOR_BUFFER_INIT (EXT_VECTOR_SIZE size) }

/-- The member `swap(vector<T> &vec)`: the pair is (this, vec) afterwards. -/
def swap (self vec : vector T) : vector T × vector T := (vec, self)

/-- The member `internal_push_back(const T &item)`; `item` is the content its only
statement reads through the reference. -/
def internal_push_back (self : vector T) (item : Option T) : vector T :=
  { self with
    buffer := construct_at self.buffer self.item_counter item
    item_counter := size_t_wrap (self.item_counter + 1) }

/-- The member `internal_move_back(T &&item)`; `item` is the content its only statement
reads through the reference, what becomes of the object moved from is up to the caller. -/
def internal_move_back (self : vector T) (item : Option T) : vector T :=
  { self with
    buffer := construct_at self.buffer self.item_counter item
    item_counter := size_t_wrap (self.item_counter + 1) }

/-- The member `internal_emplace_back(Args &&... args)`; `item` is the content of
`T(std::move(args)...)`, what becomes of the objects moved from is up to the caller. -/
def internal_emplace_back (self : vector T) (item : Option T) : vector T :=
  { self with
    buffer := construct_at self.buffer self.item_counter item
    item_counter := size_t_wrap (self.item_counter + 1) }

/-- Both overloads of `internal_move_or_copy(size_t ori, size_t dst)`: a copy leaves the
origin as it is, a move leaves it without a determinate value. -/
def internal_move_or_copy (X : Traits) (self : vector T) (ori dst : Nat) : vector T :=
  if X.is_nothrow_move_constructible then
    { self with buffer := moved_from_at (construct_at self.buffer dst (self.buffer ori)) ori }
  else
    { self with buffer := construct_at self.buffer dst (self.buffer ori) }

/-- Both overloads of `internal_simple_copy(vector<T> &dst)`: the pair is (this, dst)
afterwards. -/
def internal_simple_copy (X : Traits) (self dst : vector T) : vector T × vector T :=
  forUp
    (fun i (p : vector T × vector T) =>
      if X.is_nothrow_move_constructible then
        ({ p.1 with buffer := moved_from_at p.1.buffer i },
          internal_move_back p.2 (p.1.buffer i))
      else
        (p.1, internal_push_back p.2 (p.1.buffer i)))
    self.item_counter 0 (self, dst)

/-- Both overloads of `internal_clear_items()`. -/
def internal_clear_items (X : Traits) (self : vector T) : vector T :=
  if X.is_trivially_destructible then
    { self with item_counter := 0 }
  else
    { forUp (fun i (v : vector T) => { v with buffer := destroy_at v.buffer i })
        self.item_counter 0 self with item_counter := 0 }

/-- The member `internal_resize(size_t newSize)`; the temporary that holds the old buffer
after the swap is destroyed on return. -/
def internal_resize (X : Traits) (self : vector T) (newSize : Nat) : vector T :=
  let temp : vector T := ctor_size newSize
  let p := internal_simple_copy X self temp
  (swap p.2 p.1).2

/-- The member `internal_resize_on_demand()`. -/
def internal_resize_on_demand (X : Traits) (self : vector T) : vector T :=
  if self.item_counter ≥ self.buffer_size then internal_resize X self (growth self.buffer_size)
  else self

/-- Whether `internal_resize_on_demand()` gives the vector a new buffer and deletes the
one it had. -/
def internal_resize_on_demand_releases (self : vector T) : Bool :=
  decide (self.item_counter ≥ self.buffer_size)

/-- The member `push_back(const T &item)`: the reference is read by `internal_push_back`,
after `internal_resize_on_demand()`. -/
def push_back (X : Traits) (self : vector T) (item : reference T) : vector T :=
  let s := internal_resize_on_demand X self
  internal_push_back s (read_through s (internal_resize_on_demand_releases self) item)

/-- The member `push_back(T &&item)`: the reference is read and the object moved from by
`internal_move_back`, after `internal_resize_on_demand()`. -/
def push_back_move (X : Traits) (self : vector T) (item : reference T) : vector T :=
  let s := internal_resize_on_demand X self
  moved_through
    (internal_move_back s (read_through s (internal_resize_on_demand_releases self) item))
    (internal_resize_on_demand_releases self) item

/-- The member `emplace_back(Args &&... args)`: `std::move(args)...` makes an rvalue of
every argument, also of an lvalue such as `v[k]`, and `internal_emplace_back` moves from
it after `internal_resize_on_demand()`. -/
def emplace_back (X : Traits) (self : vector T) (item : reference T) : vector T :=
  let s := internal_resize_on_demand X self
  moved_through
    (internal_emplace_back s (read_through s (internal_resize_on_demand_releases self) item))
    (internal_resize_on_demand_releases self) item

/-- The member `reserve(size_t newSize)`. -/
def reserve (X : Traits) (self : vector T) (newSize : Nat) : vector T :=
  if newSize > self.buffer_size then internal_resize X self newSize else self

/-- Whether `reserve(newSize)` gives the vector a new buffer and deletes the one it had. -/
def reserve_releases (self : vector T) (newSize : Nat) : Bool :=
  decide (newSize > self.buffer_size)

/-- The member `shrink_to_fit()`. -/
def shrink_to_fit (X : Traits) (self : vector T) : vector T :=
  let temp : vector T := ctor_size (EXT_VECTOR_SIZE self.item_counter)
  let p := internal_simple_copy X self temp
  (swap p.2 p.1).2

/-- The copy constructor `vector(const vector<T> &vec)`; the elements of `vec` are no
elements of the vector under construction. -/
def ctor_copy (X : Traits) (vec : vector T) : vector T :=
  forUp (fun i (self : vector T) => push_back X self (.external (vec.buffer i)))
    vec.item_counter 0
    { buffer_size := vec.buffer_size, item_counter := 0,
      buffer := EXT_VECTOR_BUFFER_INIT vec.buffer_size }

/-- The move constructor `vector(vector<T> &&vec)`: the pair is (the new vector, vec)
afterwards; the null buffer has no slot. -/
def ctor_move (vec : vector T) : vector T × vector T :=
  let self : vector T := { buffer_size := 0, item_counter := 0, buffer := fun _ => none }
  let p := swap vec self
  (p.2, p.1)

/-- The constructor `vector(std::initializer_list<T> list)`. -/
def ctor_list (list : List T) : vector T :=
  list.foldl (fun (self : vector T) item => internal_push_back self (some item))
    { buffer_size := EXT_VECTOR_SIZE list.length, item_counter := 0,
      buffer := EXT_VECTOR_BUFFER_INIT (EXT_VECTOR_SIZE list.length) }

/-- Both overloads of `internal_copy_assign(const vector<X> &vec)`, selected on
`is_nothrow_destructible`. -/
def internal_copy_assign (X : Traits) (self vec : vector T) : vector T :=
  if X.is_nothrow_destructible then
    if self.buffer_size ≤ vec.item_counter then
      forUp (fun i (s : vector T) => internal_push_back s (vec.buffer i)) vec.item_counter 0
        (internal_clear_items X self)
    else
      let temp := ctor_copy X vec
      (swap temp self).2
  else
    let temp := ctor_copy X vec
    (swap temp self).2

/-- The copy assignment `operator=(const vector<T> &vec)` for `this != &vec`. -/
def assign_copy (X : Traits) (self vec : vector T) : vector T :=
  internal_copy_assign X self vec

/-- The move assignment `operator=(vector<T> &&vec)` for `this != &vec`: the pair is
(this, vec) afterwards. -/
def assign_move (self vec : vector T) : vector T × vector T :=
  let p := swap vec self
  (p.2, p.1)

/-- The assignment `operator=(std::initializer_list<T> list)`; the loop variable `item` is
a copy of the list element. -/
def assign_list (X : Traits) (self : vector T) (list : List T) : vector T :=
  list.foldl (fun (s : vector T) item => push_back X s (.external (some item)))
    (internal_clear_items X self)

/-- Both overloads of `internal_shift_left(size_t index)`. -/
def internal_shift_left (X : Traits) (self : vector T) (index : Nat) : vector T :=
  let s0 : vector T := { self with item_counter := size_t_decr self.item_counter }
  if X.is_trivially_destructible then
    forUp (fun i (s : vector T) => internal_move_or_copy X s (i + 1) i)
      (s0.item_counter - index) index s0
  else
    let s1 :=
      forUp
        (fun i (s : vector T) =>
          internal_move_or_copy X { s with buffer := destroy_at s.buffer i } (i + 1) i)
        (s0.item_counter - index) index s0
    { s1 with buffer := destroy_at s1.buffer s1.item_counter }

/-- Both overloads of `internal_shift_right(size_t index)`. -/
def internal_shift_right (X : Traits) (self : vector T) (index : Nat) : vector T :=
  let s0 := reserve X self (size_t_wrap (self.item_counter + 1))
  if X.is_trivially_destructible then
    forDown (fun i (s : vector T) => internal_move_or_copy X s (i - 1) i)
      (s0.item_counter - index) s0.item_counter s0
  else
    forDown
      (fun i (s : vector T) =>
        let s1 := internal_move_or_copy X s (i - 1) i
        { s1 with buffer := destroy_at s1.buffer (i - 1) })
      (s0.item_counter - index) s0.item_counter s0

/-- Both overloads of `internal_copy_insert(size_t index, const T &item)`: the reference
is read by the placement construction, after `internal_shift_right` (whose `reserve` may
have deleted the buffer the reference points into) and after the destructor call. -/
def internal_copy_insert (X : Traits) (self : vector T) (index : Nat) (item : reference T) :
    vector T :=
  let released := reserve_releases self (size_t_wrap (self.item_counter + 1))
  let s0 := internal_shift_right X self index
  let b := if X.is_trivially_destructible then s0.buffer else destroy_at s0.buffer index
  { s0 with buffer := construct_at b index (read_through { s0 with buffer := b } released item)
            item_counter := size_t_wrap (s0.item_counter + 1) }

/-- Both overloads of `internal_move_insert(size_t index, T &&item)`: as
`internal_copy_insert`, and the placement construction moves from the referenced object. -/
def internal_move_insert (X : Traits) (self : vector T) (index : Nat) (item : reference T) :
    vector T :=
  let released := reserve_releases self (size_t_wrap (self.item_counter + 1))
  let s0 := internal_shift_right X self index
  let b := if X.is_trivially_destructible then s0.buffer else destroy_at s0.buffer index
  let s1 : vector T :=
    { s0 with buffer := construct_at b index (read_through { s0 with buffer := b } released item) }
  let s2 := moved_through s1 released item
  { s2 with item_counter := size_t_wrap (s2.item_counter + 1) }

/-- Both overloads of `internal_emplace(size_t index, Args &&... args)`: as
`internal_move_insert`, the construction being `T(std::move(args)...)`. -/
def internal_emplace (X : Traits) (self : vector T) (index : Nat) (item : reference T) :
    vector T :=
  let released := reserve_releases self (size_t_wrap (self.item_counter + 1))
  let s0 := internal_shift_right X self index
  let b := if X.is_trivially_destructible then s0.buffer else destroy_at s0.buffer index
  let s1 : vector T :=
    { s0 with buffer := construct_at b index (read_through { s0 with buffer := b } released item) }
  let s2 := moved_through s1 released item
  { s2 with item_counter := size_t_wrap (s2.item_counter + 1) }

/-- Both overloads of `internal_pop_back()`. -/
def internal_pop_back (X : Traits) (self : vector T) : vector T :=
  let s0 : vector T := { self with item_counter := size_t_decr self.item_counter }
  if X.is_trivially_destructible then s0
  else { s0 with buffer := destroy_at s0.buffer s0.item_counter }

/-- Both overloads of `internal_copy_replace(size_t i, const T &item)`: the reference is
read by the placement construction, after the destructor call. -/
def internal_copy_replace (X : Traits) (self : vector T) (i : Nat) (item : reference T) :
    vector T :=
  let b := if X.is_trivially_destructible then self.buffer else destroy_at self.buffer i
  { self with buffer := construct_at b i (read_through { self with buffer := b } false item) }

/-- Both overloads of `internal_move_replace(size_t i, T &&item)`: as
`internal_copy_replace`, and the placement construction moves from the referenced object. -/
def internal_move_replace (X : Traits) (self : vector T) (i : Nat) (item : reference T) :
    vector T :=
  let b := if X.is_trivially_destructible then self.buffer else destroy_at self.buffer i
  moved_through
    { self with buffer := construct_at b i (read_through { self with buffer := b } false item) }
    false item

/-- Both overloads of `internal_emplace_replace(size_t i, Args &&... args)`: as
`internal_move_replace`, the construction being `T(std::move(args)...)`. -/
def internal_emplace_replace (X : Traits) (self : vector T) (i : Nat) (item : reference T) :
    vector T :=
  let b := if X.is_trivially_destructible then self.buffer else destroy_at self.buffer i
  moved_through
    { self with buffer := construct_at b i (read_through { self with buffer := b } false item) }
    false item

/-- Both overloads of `internal_swap_items_init(size_t a, size_t b)`, selected on
`is_nothrow_move_constructible`. The argument of the first replace is a reference to the
element `buffer[b]`, the argument of the second replace is the local object `temp`. -/
def internal_swap_items_init (X : Traits) (self : vector T) (a b : Nat) : vector T :=
  if X.is_nothrow_move_constructible then
    let temp := self.buffer a
    let s1 : vector T := { self with buffer := moved_from_at self.buffer a }
    let s2 := internal_move_replace X s1 a (.element b)
    internal_move_replace X s2 b (.external temp)
  else
    let temp := self.buffer a
    let s1 := internal_copy_replace X self a (.element b)
    internal_copy_replace X s1 b (.external temp)

/-- The check `EXT_VECTOR_ASSERT_INDEX(i)` followed by `body`. -/
def EXT_VECTOR_ASSERT_INDEX {α : Type} (self : vector T) (i : Nat) (body : α) :
    Except Fault α :=
  if i ≥ self.item_counter then .error (.raised .IndexOutOfRange) else .ok body

/-- The member `at(size_t i)`, reading the referenced element. -/
def at_ (self : vector T) (i : Nat) : Except Fault T :=
  if i ≥ self.item_counter then .error (.raised .IndexOutOfRange)
  else match self.buffer i with
    | some v => .ok v
    | none => .error .undefined

/-- The member `clear()`. -/
def clear (X : Traits) (self : vector T) : vector T := internal_clear_items X self

/-- The member `erase(size_t i)`. -/
def erase (X : Traits) (self : vector T) (i : Nat) : Except Fault (vector T) :=
  EXT_VECTOR_ASSERT_INDEX self i (internal_shift_left X self i)

/-- The member `insert(size_t i, const T &item)`, which an lvalue argument such as `v[k]`
selects. -/
def insert (X : Traits) (self : vector T) (i : Nat) (item : reference T) :
    Except Fault (vector T) :=
  EXT_VECTOR_ASSERT_INDEX self i (internal_copy_insert X self i item)

/-- The member `insert(size_t i, T &&item)`. -/
def insert_move (X : Traits) (self : vector T) (i : Nat) (item : reference T) :
    Except Fault (vector T) :=
  EXT_VECTOR_ASSERT_INDEX self i (internal_move_insert X self i item)

/-- The member `emplace(size_t i, Args &&... args)`: `std::move(args)...` makes an rvalue
of every argument, also of an lvalue such as `v[k]`. -/
def emplace (X : Traits) (self : vector T) (i : Nat) (item : reference T) :
    Except Fault (vector T) :=
  EXT_VECTOR_ASSERT_INDEX self i (internal_emplace X self i item)

/-- The member `pop_back()`. -/
def pop_back (X : Traits) (self : vector T) : vector T := internal_pop_back X self

/-- The member `swap_items(size_t a, size_t b)`. -/
def swap_items (X : Traits) (self : vector T) (a b : Nat) : Except Fault (vector T) :=
  if a ≥ self.item_counter then .error (.raised .IndexOutOfRange)
  else if b ≥ self.item_counter then .error (.raised .IndexOutOfRange)
  else .ok (internal_swap_items_init X self a b)

/-- The member `resize(size_t size)`. -/
def resize (X : Traits) (self : vector T) (size : Nat) : vector T :=
  forDown (fun _ (s : vector T) => internal_pop_back X s)
    (self.item_counter - size) self.item_counter self

/-- The member `replace(size_t i, const T &item)`, which a const lvalue argument
selects. -/
def replace (X : Traits) (self : vector T) (i : Nat) (item : reference T) :
    Except Fault (vector T) :=
  EXT_VECTOR_ASSERT_INDEX self i (internal_copy_replace X self i item)

/-- The member `replace(size_t i, T &&item)`, which an rvalue argument of type `T`
selects. -/
def replace_move (X : Traits) (self : vector T) (i : Nat) (item : reference T) :
    Except Fault (vector T) :=
  EXT_VECTOR_ASSERT_INDEX self i (internal_move_replace X self i item)

/-- The member `replace(size_t i, Args &&... args)`, which constructor arguments and also
a non-const lvalue argument of type `T` such as `v[k]` select (`Args = T &` is an exact
match); `std::move(args)...` makes an rvalue of every argument. -/
def replace_emplace (X : Traits) (self : vector T) (i : Nat) (item : reference T) :
    Except Fault (vector T) :=
  EXT_VECTOR_ASSERT_INDEX self i (internal_emplace_replace X self i item)

/-- The loop of `operator==`: `fuel` iterations from `i`; a comparison that reads a slot
without a value has no defined result. -/
def operator_eq_loop [DecidableEq T] (self vec : vector T) : Nat → Nat → Except Fault Bool
  | 0, _ => .ok true
  | fuel + 1, i =>
    match self.buffer i, vec.buffer i with
    | some x, some y => if x ≠ y then .ok false else operator_eq_loop self vec fuel (i + 1)
    | _, _ => .error .undefined

/-- The member `operator==(const vector<T> &vec)`. -/
def operator_eq [DecidableEq T] (self vec : vector T) : Except Fault Bool :=
  operator_eq_loop self vec self.item_counter 0

/-- The member `operator!=(const vector<T> &vec)`. -/
def operator_ne [DecidableEq T] (self vec : vector T) : Except Fault Bool :=
  (operator_eq self vec).map (fun r => !r)

/-- The contents of the range `[begin(), end())`, slot by slot. -/
def items (self : vector T) : List (Option T) :=
  (List.range self.item_counter).map self.buffer

/-! ### Object lifetimes in the buffer

The same members with the element values abstracted away, for an element type that is
not trivially destructible (the overloads declared with `..._RETURN(false)` on
`is_trivially_destructible`). A copy and a move construct the destination alike and end
no lifetime, so the choice on `is_nothrow_move_constructible` makes no difference here. -/

/-- The state of `ext::vector<T>` as far as lifetimes go: `live i` tells whether slot `i`
of the buffer holds an object whose lifetime has begun and has not ended, and
`destroyed_dead` lists, in call order, the slots on which a destructor was called while
no object was alive there. -/
structure lifetimes where
  buffer_size : Nat
  item_counter : Nat
  live : Nat → Bool
  destroyed_dead : List Nat

namespace lifetimes

/-- Placement construction `new(buffer + i) T(...)`. -/
def construct_at (self : lifetimes) (i : Nat) : lifetimes :=
  { self with live := fun j => if j = i then true else self.live j }

/-- The destructor call `buffer[i].~T()`. -/
def destroy_at (self : lifetimes) (i : Nat) : lifetimes :=
  if self.live i then { self with live := fun j => if j = i then false else self.live j }
  else { self with destroyed_dead := self.destroyed_dead ++ [i] }

/-- The constructor `vector(size_t size)`: fresh raw memory, no slot holds an object. -/
def ctor_size (size : Nat) : lifetimes :=
  { buffer_size := EXT_VECTOR_SIZE size, item_counter := 0, live := fun _ => false,
    destroyed_dead := [] }

/-- The members `internal_push_back(const T &item)` and `internal_move_back(T &&item)`. -/
def internal_move_back (self : lifetimes) : lifetimes :=
  { construct_at self self.item_counter with
    item_counter := size_t_wrap (self.item_counter + 1) }

/-- The constructor `vector(std::initializer_list<T> list)` for a list of `length` items. -/
def ctor_list (length : Nat) : lifetimes :=
  forUp (fun _ (s : lifetimes) => internal_move_back s) length 0 (ctor_size length)

/-- Both overloads of `internal_simple_copy(vector<T> &dst)`: `dst` afterwards. -/
def internal_simple_copy (self dst : lifetimes) : lifetimes :=
  forUp (fun _ (d : lifetimes) => internal_move_back d) self.item_counter 0 dst

/-- The overload of `internal_clear_items()` that calls the destructors. -/
def internal_clear_items (self : lifetimes) : lifetimes :=
  { forUp (fun i (s : lifetimes) => destroy_at s i) self.item_counter 0 self with
    item_counter := 0 }

/-- The member `internal_resize(size_t newSize)`: after the swap the temporary owns the old
buffer, and its destructor `~vector()` runs `internal_clear_items` on it before the buffer
is deleted; the calls it makes on dead slots are added to the record kept with `this`. -/
def internal_resize (self : lifetimes) (newSize : Nat) : lifetimes :=
  let temp := internal_simple_copy self (ctor_size newSize)
  let old := internal_clear_items self
  { temp with destroyed_dead := old.destroyed_dead }

/-- The member `reserve(size_t newSize)`. -/
def reserve (self : lifetimes) (newSize : Nat) : lifetimes :=
  if newSize > self.buffer_size then internal_resize self newSize else self

/-- Both overloads of `internal_move_or_copy(size_t ori, size_t dst)`. -/
def internal_move_or_copy (self : lifetimes) (_ori dst : Nat) : lifetimes :=
  construct_at self dst

/-- The overload of `internal_shift_right(size_t index)` that calls the destructors. -/
def internal_shift_right (self : lifetimes) (index : Nat) : lifetimes :=
  let s0 := reserve self (size_t_wrap (self.item_counter + 1))
  forDown (fun i (s : lifetimes) => destroy_at (internal_move_or_copy s (i - 1) i) (i - 1))
    (s0.item_counter - index) s0.item_counter s0

/-- The overload of `internal_copy_insert(size_t index, const T &item)` that calls the
destructor. -/
def internal_copy_insert (self : lifetimes) (index : Nat) : lifetimes :=
  let s0 := internal_shift_right self index
  let s1 := construct_at (destroy_at s0 index) index
  { s1 with item_counter := size_t_wrap (s1.item_counter + 1) }

/-- The overload of `internal_move_insert(size_t index, T &&item)` that calls the
destructor. -/
def internal_move_insert (self : lifetimes) (index : Nat) : lifetimes :=
  let s0 := internal_shift_right self index
  let s1 := construct_at (destroy_at s0 index) index
  { s1 with item_counter := size_t_wrap (s1.item_counter + 1) }

/-- The overload of `internal_emplace(size_t index, Args &&... args)` that calls the
destructor. -/
def internal_emplace (self : lifetimes) (index : Nat) : lifetimes :=
  let s0 := internal_shift_right self index
  let s1 := construct_at (destroy_at s0 index) index
  { s1 with item_counter := size_t_wrap (s1.item_counter + 1) }

/-- The member `insert(size_t i, const T &item)`. -/
def insert (self : lifetimes) (i : Nat) : Except Fault lifetimes :=
  if i ≥ self.item_counter then .error (.raised .IndexOutOfRange)
  else .ok (internal_copy_insert self i)

/-- The member `insert(size_t i, T &&item)`. -/
def insert_move (self : lifetimes) (i : Nat) : Except Fault lifetimes :=
  if i ≥ self.item_counter then .error (.raised .IndexOutOfRange)
  else .ok (internal_move_insert self i)

/-- The member `emplace(size_t i, Args &&... args)`. -/
def emplace (self : lifetimes) (i : Nat) : Except Fault lifetimes :=
  if i ≥ self.item_counter then .error (.raised .IndexOutOfRange)
  else .ok (internal_emplace self i)

end lifetimes

end vector

/-! ## `ext::dynamic_array` -/

/-- The private state of `ext::dynamic_array<T>`: `_n` is the block of `_d` dimension
sizes, `buffer` the block of `_size` elements. -/
structure dynamic_array (T : Type) where
  _n : List Nat
  _d : Nat
  _size : Nat
  buffer : Nat → Option T

/-- The macro `EXT_ARRAY_DIMENSION_SIZE_INIT(N)`: a block of `N` sizes; each is written
before it is read. -/
def EXT_ARRAY_DIMENSION_SIZE_INIT (N : Nat) : List Nat := List.replicate N 0

/-- The macro `EXT_ARRAY_BUFFER_INIT(size)`: fresh raw memory, no slot holds a value. -/
def EXT_ARRAY_BUFFER_INIT {T : Type} (_size : Nat) : Nat → Option T := fun _ => none

namespace dynamic_array

variable {T : Type}

/-- The loop over `{indices...}` of `_internal_calculate_index`, started in the state
`(index, init_iter, count)`; it returns the final `index` and `count`. The check
`EXT_ARRAY_ASSERT_INDEX_SIZE(i, count)` reads `_n[count]`. -/
def _internal_calculate_index_loop (_n : List Nat) :
    List Nat → Nat → Bool → Nat → Except Fault (Nat × Nat)
  | [], index, _, count => .ok (index, count)
  | i :: rest, index, init_iter, count =>
    match _n[count]? with
    | none => .error .undefined
    | some dim =>
      if i ≥ dim then .error (.raised .IndexOutOfRange)
      else if !init_iter then
        _internal_calculate_index_loop _n rest (size_t_wrap (size_t_wrap (index * dim) + i))
          init_iter (count + 1)
      else
        _internal_calculate_index_loop _n rest (size_t_wrap (index + i)) false count

/-- The loop `for (; count < this->_d; count += 1) index *= this->_n[count]` of
`_internal_calculate_index`, with `fuel = _d - count` iterations. -/
def _internal_calculate_index_rest (_n : List Nat) : Nat → Nat → Nat → Except Fault Nat
  | 0, index, _ => .ok index
  | fuel + 1, index, count =>
    match _n[count]? with
    | none => .error .undefined
    | some dim => _internal_calculate_index_rest _n fuel (size_t_wrap (index * dim)) (count + 1)

/-- The member `_internal_calculate_index(Args... indices)`. -/
def _internal_calculate_index (self : dynamic_array T) (indices : List Nat) :
    Except Fault Nat :=
  match _internal_calculate_index_loop self._n indices 0 true 1 with
  | .error e => .error e
  | .ok (index, count) => _internal_calculate_index_rest self._n (self._d - count) index count

/-- The member `_internal_init_items()`. -/
def _internal_init_items [Inhabited T] (self : dynamic_array T) : dynamic_array T :=
  { self with
    buffer := forUp (fun i b => construct_at b i (some default)) self._size 0 self.buffer }

/-- The loop over `{n, ns...}` of `_internal_constructor_work`, started with `index`; it
returns the block of sizes and the final `index`. -/
def _internal_constructor_work_loop : List Int → List Nat → Nat → Except Fault (List Nat × Nat)
  | [], _n, index => .ok (_n, index)
  | i :: rest, _n, index =>
    if i < 1 then .error (.raised .DimensionSizeError)
    else _internal_constructor_work_loop rest (_n.set index i.toNat) (index + 1)

/-- The member `_internal_constructor_work(size_t d, N n, Ns... ns)`. -/
def _internal_constructor_work [Inhabited T] (d : Nat) (n : Int) (ns : List Int) :
    Except Fault (dynamic_array T) :=
  let _n0 := EXT_ARRAY_DIMENSION_SIZE_INIT d
  let supplied_dims := ns.length + 1
  if supplied_dims > d then .error (.raised .TooManySizes)
  else
    match _internal_constructor_work_loop (n :: ns) _n0 0 with
    | .error e => .error e
    | .ok (_n1, index) =>
      let _n2 :=
        if supplied_dims < d then
          forUp (fun i (m : List Nat) => m.set i (m.getD (index - 1) 0))
            (d - (index - 1 + 1)) (index - 1 + 1) _n1
        else _n1
      let _size :=
        forUp (fun i (sz : Nat) => size_t_wrap (sz * _n2.getD i 0)) (d - 1) 1 (_n2.getD 0 0)
      .ok (_internal_init_items
        { _n := _n2, _d := d, _size := _size, buffer := EXT_ARRAY_BUFFER_INIT _size })

/-- The constructor `dynamic_array(size_t d, N n, Ns... ns)`. -/
def ctor [Inhabited T] (d : Nat) (n : Int) (ns : List Int) : Except Fault (dynamic_array T) :=
  _internal_constructor_work d n ns

/-- The member `operator[](Args... indices)`: the offset of the referenced slot. -/
def operator_index (self : dynamic_array T) (indices : List Nat) : Except Fault Nat :=
  _internal_calculate_index self indices

/-- The member `at(Args... indices)`: the offset of the referenced slot. -/
def at_ (self : dynamic_array T) (indices : List Nat) : Except Fault Nat :=
  if indices.length > self._d then .error (.raised .TooManyIndices)
  else _internal_calculate_index self indices

/-- The member `dimensions()`. -/
def dimensions (self : dynamic_array T) : Nat := self._d

/-- The member `length_of_dimension(size_t dim)`. -/
def length_of_dimension (self : dynamic_array T) (dim : Nat) : Except Fault Nat :=
  if dim > self._d ∨ dim < 1 then .error (.raised .IndexOutOfRange)
  else match self._n[dim - 1]? with
    | some len => .ok len
    | none => .error .undefined

/-- The member `size()`. -/
def size (self : dynamic_array T) : Nat := self._size

/-- The member `_internal_clear_items()`; the destructor call is made unless the element
type is trivially destructible. -/
def _internal_clear_items [Inhabited T] (X : Traits) (self : dynamic_array T) :
    dynamic_array T :=
  { self with
    buffer :=
      forUp
        (fun i b =>
          construct_at (if X.is_trivially_destructible then b else destroy_at b i) i
            (some default))
        self._size 0 self.buffer }

/-- The member `_internal_clear_items(Args... indices)`: the flattened index of the
indices, the product `offset` of the sizes `_n[i]` for `sizeof...(indices) <= i < _d`, and
the loop `for (size_t i = index; i < index + offset; i += 1)` that destroys and
default-constructs. -/
def _internal_clear_items_at [Inhabited T] (X : Traits) (self : dynamic_array T)
    (indices : List Nat) : Except Fault (dynamic_array T) :=
  match _internal_calculate_index self indices with
  | .error e => .error e
  | .ok index =>
    let offset :=
      forUp (fun i (off : Nat) => size_t_wrap (off * self._n.getD i 0))
        (self._d - indices.length) indices.length 1
    .ok { self with
      buffer :=
        forUp
          (fun i b =>
            construct_at (if X.is_trivially_destructible then b else destroy_at b i) i
              (some default))
          (size_t_wrap (index + offset) - index) index self.buffer }

/-- The member `clear()`. -/
def clear [Inhabited T] (X : Traits) (self : dynamic_array T) : dynamic_array T :=
  _internal_clear_items X self

/-- The member `_internal_assign_from_pointer(T* data, size_t len)`: `data i` is the
content of `data[i]`; the destructor call is made unless the element type is trivially
destructible. -/
def _internal_assign_from_pointer (X : Traits) (self : dynamic_array T)
    (data : Nat → Option T) (len : Nat) : dynamic_array T :=
  { self with
    buffer :=
      forUp
        (fun i b =>
          construct_at (if X.is_trivially_destructible then b else destroy_at b i) i (data i))
        len 0 self.buffer }

/-- The constructor `dynamic_array(T* data, size_t len, size_t d, N n, Ns... ns)`. -/
def ctor_pointer [Inhabited T] (X : Traits) (data : Nat → Option T) (len : Nat) (d : Nat)
    (n : Int) (ns : List Int) : Except Fault (dynamic_array T) :=
  match _internal_constructor_work d n ns with
  | .error e => .error e
  | .ok self =>
    if len > self._size then .error (.raised .TooManyInitialElements)
    else .ok (_internal_assign_from_pointer X self data len)

/-- The member `clear(Args... indices)`. -/
def clear_at [Inhabited T] (X : Traits) (self : dynamic_array T) (indices : List Nat) :
    Except Fault (dynamic_array T) :=
  _internal_clear_items_at X self indices

end dynamic_array

/-! ## Reference definitions taken from the specification -/

/-- The row-major offset of the specification: the sum over the supplied indices `i_j` of
`i_j * (n_(j+1) * ... * n_D)`; dimensions without an index contribute nothing. -/
def row_major_offset : List Nat → List Nat → Nat
  | _ :: ns, i :: is => i * ns.prod + row_major_offset ns is
  | _, _ => 0

/-- The broadcast rule of the specification: the supplied sizes followed by copies of the
last supplied size, `D` sizes in all. -/
def broadcast_sizes (D : Nat) (n : Int) (ns : List Int) : List Nat :=
  (n :: ns).map Int.toNat ++ List.replicate (D - (ns.length + 1)) ((n :: ns).getLast (by simp)).toNat

end ext

/-! ## Loops -/

namespace ext

theorem forUp_preserves {σ : Type} (P : σ → Prop) (body : Nat → σ → σ)
    (h : ∀ i s, P s → P (body i s)) : ∀ fuel i s, P s → P (forUp body fuel i s) := by
  intro fuel
  induction fuel with
  | zero => intro i s hs; exact hs
  | succ k ih => intro i s hs; exact ih (i + 1) (body i s) (h i s hs)

theorem forDown_preserves {σ : Type} (P : σ → Prop) (body : Nat → σ → σ)
    (h : ∀ i s, P s → P (body i s)) : ∀ fuel i s, P s → P (forDown body fuel i s) := by
  intro fuel
  induction fuel with
  | zero => intro i s hs; exact hs
  | succ k ih => intro i s hs; exact ih (i - 1) (body i s) (h i s hs)

theorem foldl_preserves {σ α : Type} (P : σ → Prop) (f : σ → α → σ)
    (h : ∀ s x, P s → P (f s x)) : ∀ (l : List α) s, P s → P (l.foldl f s) := by
  intro l
  induction l with
  | nil => intro s hs; exact hs
  | cons x xs ih => intro s hs; exact ih (f s x) (h s x hs)

/-! ## Capacity of `ext::vector` -/

namespace vector

variable {T : Type}

theorem EXT_VECTOR_SIZE_ge (x : Nat) : 2 ≤ EXT_VECTOR_SIZE x := by
  unfold EXT_VECTOR_SIZE
  split <;> omega

theorem moved_through_capacity (s : vector T) (released : Bool) (item : reference T) :
    (moved_through s released item).buffer_size = s.buffer_size := by
  cases item with
  | external c => rfl
  | element k => cases released <;> rfl

theorem moved_through_item_counter (s : vector T) (released : Bool) (item : reference T) :
    (moved_through s released item).item_counter = s.item_counter := by
  cases item with
  | external c => rfl
  | element k => cases released <;> rfl

theorem moved_through_external (s : vector T) (released : Bool) (c : Option T) :
    moved_through s released (.external c) = s := rfl

theorem read_through_external (s : vector T) (released : Bool) (c : Option T) :
    read_through s released (.external c) = c := rfl

theorem internal_resize_on_demand_of_releases (X : Traits) (self : vector T) :
    (internal_resize_on_demand_releases self = true →
      internal_resize_on_demand X self = internal_resize X self (growth self.buffer_size)) ∧
    (internal_resize_on_demand_releases self = false →
      internal_resize_on_demand X self = self) := by
  unfold internal_resize_on_demand_releases internal_resize_on_demand
  constructor
  · intro h
    rw [if_pos (of_decide_eq_true h)]
  · intro h
    rw [if_neg (of_decide_eq_false h)]

theorem reserve_of_releases (X : Traits) (self : vector T) (newSize : Nat) :
    (reserve_releases self newSize = true →
      reserve X self newSize = internal_resize X self newSize) ∧
    (reserve_releases self newSize = false → reserve X self newSize = self) := by
  unfold reserve_releases reserve
  constructor
  · intro h
    rw [if_pos (of_decide_eq_true h)]
  · intro h
    rw [if_neg (of_decide_eq_false h)]

theorem push_back_shape (X : Traits) (self : vector T) (item : reference T) :
    (push_back X self item).buffer_size = (internal_resize_on_demand X self).buffer_size ∧
    (push_back X self item).item_counter =
      size_t_wrap ((internal_resize_on_demand X self).item_counter + 1) :=
  ⟨rfl, rfl⟩

theorem push_back_move_shape (X : Traits) (self : vector T) (item : reference T) :
    (push_back_move X self item).buffer_size = (internal_resize_on_demand X self).buffer_size ∧
    (push_back_move X self item).item_counter =
      size_t_wrap ((internal_resize_on_demand X self).item_counter + 1) := by
  unfold push_back_move
  dsimp only
  rw [moved_through_capacity, moved_through_item_counter]
  exact ⟨rfl, rfl⟩

theorem emplace_back_shape (X : Traits) (self : vector T) (item : reference T) :
    (emplace_back X self item).buffer_size = (internal_resize_on_demand X self).buffer_size ∧
    (emplace_back X self item).item_counter =
      size_t_wrap ((internal_resize_on_demand X self).item_counter + 1) := by
  unfold emplace_back
  dsimp only
  rw [moved_through_capacity, moved_through_item_counter]
  exact ⟨rfl, rfl⟩

theorem internal_copy_insert_shape (X : Traits) (self : vector T) (index : Nat)
    (item : reference T) :
    (internal_copy_insert X self index item).buffer_size =
      (internal_shift_right X self index).buffer_size ∧
    (internal_copy_insert X self index item).item_counter =
      size_t_wrap ((internal_shift_right X self index).item_counter + 1) :=
  ⟨rfl, rfl⟩

theorem internal_move_insert_shape (X : Traits) (self : vector T) (index : Nat)
    (item : reference T) :
    (internal_move_insert X self index item).buffer_size =
      (internal_shift_right X self index).buffer_size ∧
    (internal_move_insert X self index item).item_counter =
      size_t_wrap ((internal_shift_right X self index).item_counter + 1) := by
  unfold internal_move_insert
  dsimp only
  rw [moved_through_capacity, moved_through_item_counter]
  exact ⟨rfl, rfl⟩

theorem internal_emplace_shape (X : Traits) (self : vector T) (index : Nat)
    (item : reference T) :
    (internal_emplace X self index item).buffer_size =
      (internal_shift_right X self index).buffer_size ∧
    (internal_emplace X self index item).item_counter =
      size_t_wrap ((internal_shift_right X self index).item_counter + 1) := by
  unfold internal_emplace
  dsimp only
  rw [moved_through_capacity, moved_through_item_counter]
  exact ⟨rfl, rfl⟩

theorem internal_copy_replace_shape (X : Traits) (self : vector T) (i : Nat)
    (item : reference T) :
    (internal_copy_replace X self i item).buffer_size = self.buffer_size ∧
    (internal_copy_replace X self i item).item_counter = self.item_counter :=
  ⟨rfl, rfl⟩

theorem internal_move_replace_shape (X : Traits) (self : vector T) (i : Nat)
    (item : reference T) :
    (internal_move_replace X self i item).buffer_size = self.buffer_size ∧
    (internal_move_replace X self i item).item_counter = self.item_counter := by
  unfold internal_move_replace
  dsimp only
  rw [moved_through_capacity, moved_through_item_counter]
  exact ⟨rfl, rfl⟩

theorem internal_emplace_replace_shape (X : Traits) (self : vector T) (i : Nat)
    (item : reference T) :
    (internal_emplace_replace X self i item).buffer_size = self.buffer_size ∧
    (internal_emplace_replace X self i item).item_counter = self.item_counter := by
  unfold internal_emplace_replace
  dsimp only
  rw [moved_through_capacity, moved_through_item_counter]
  exact ⟨rfl, rfl⟩

theorem internal_simple_copy_capacity (X : Traits) (self dst : vector T) :
    (internal_simple_copy X self dst).2.buffer_size = dst.buffer_size := by
  unfold internal_simple_copy
  apply forUp_preserves (fun p : vector T × vector T => p.2.buffer_size = dst.buffer_size)
  · intro i p hp
    by_cases hX : X.is_nothrow_move_constructible = true
    · simpa [hX, internal_move_back] using hp
    · simpa [hX, internal_push_back] using hp
  · rfl

theorem internal_resize_capacity (X : Traits) (self : vector T) (newSize : Nat) :
    (internal_resize X self newSize).buffer_size = EXT_VECTOR_SIZE newSize := by
  simp [internal_resize, swap, internal_simple_copy_capacity, ctor_size]

theorem internal_resize_on_demand_capacity (X : Traits) (self : vector T)
    (h : 2 ≤ self.buffer_size) : 2 ≤ (internal_resize_on_demand X self).buffer_size := by
  unfold internal_resize_on_demand
  split
  · rw [internal_resize_capacity]; exact EXT_VECTOR_SIZE_ge _
  · exact h

theorem push_back_capacity (X : Traits) (self : vector T) (item : reference T)
    (h : 2 ≤ self.buffer_size) : 2 ≤ (push_back X self item).buffer_size :=
  internal_resize_on_demand_capacity X self h

theorem reserve_capacity (X : Traits) (self : vector T) (newSize : Nat)
    (h : 2 ≤ self.buffer_size) : 2 ≤ (reserve X self newSize).buffer_size := by
  unfold reserve
  split
  · rw [internal_resize_capacity]; exact EXT_VECTOR_SIZE_ge _
  · exact h

theorem shrink_to_fit_capacity (X : Traits) (self : vector T) :
    (shrink_to_fit X self).buffer_size = EXT_VECTOR_SIZE (EXT_VECTOR_SIZE self.item_counter) := by
  simp [shrink_to_fit, swap, internal_simple_copy_capacity, ctor_size]

theorem internal_clear_items_capacity (X : Traits) (self : vector T) :
    (internal_clear_items X self).buffer_size = self.buffer_size := by
  unfold internal_clear_items
  split
  · rfl
  · show vector.buffer_size (forUp _ _ _ _) = _
    apply forUp_preserves (fun v : vector T => v.buffer_size = self.buffer_size)
    · intro i v hv; exact hv
    · rfl

theorem ctor_copy_capacity (X : Traits) (vec : vector T) (h : 2 ≤ vec.buffer_size) :
    2 ≤ (ctor_copy X vec).buffer_size := by
  unfold ctor_copy
  apply forUp_preserves (fun v : vector T => 2 ≤ v.buffer_size)
  · intro i v hv; exact push_back_capacity X v _ hv
  · exact h

theorem ctor_list_capacity (list : List T) : 2 ≤ (ctor_list list).buffer_size := by
  unfold ctor_list
  apply foldl_preserves (fun v : vector T => 2 ≤ v.buffer_size)
  · intro v x hv; exact hv
  · exact EXT_VECTOR_SIZE_ge _

theorem internal_copy_assign_capacity (X : Traits) (self vec : vector T)
    (hs : 2 ≤ self.buffer_size) (hv : 2 ≤ vec.buffer_size) :
    2 ≤ (internal_copy_assign X self vec).buffer_size := by
  unfold internal_copy_assign
  split
  · split
    · apply forUp_preserves (fun v : vector T => 2 ≤ v.buffer_size)
      · intro i v hv; exact hv
      · show 2 ≤ (internal_clear_items X self).buffer_size
        rw [internal_clear_items_capacity]; exact hs
    · exact ctor_copy_capacity X vec hv
  · exact ctor_copy_capacity X vec hv

theorem assign_list_capacity (X : Traits) (self : vector T) (list : List T)
    (h : 2 ≤ self.buffer_size) : 2 ≤ (assign_list X self list).buffer_size := by
  unfold assign_list
  apply foldl_preserves (fun v : vector T => 2 ≤ v.buffer_size)
  · intro v x hv; exact push_back_capacity X v _ hv
  · show 2 ≤ (internal_clear_items X self).buffer_size
    rw [internal_clear_items_capacity]; exact h

theorem internal_move_or_copy_capacity (X : Traits) (self : vector T) (ori dst : Nat) :
    (internal_move_or_copy X self ori dst).buffer_size = self.buffer_size := by
  unfold internal_move_or_copy
  split <;> rfl

theorem internal_shift_left_capacity (X : Traits) (self : vector T) (index : Nat) :
    (internal_shift_left X self index).buffer_size = self.buffer_size := by
  unfold internal_shift_left
  split
  · apply forUp_preserves (fun v : vector T => v.buffer_size = self.buffer_size)
    · intro i v hv
      show (internal_move_or_copy X v (i + 1) i).buffer_size = _
      rw [internal_move_or_copy_capacity]; exact hv
    · rfl
  · show vector.buffer_size (forUp _ _ _ _) = _
    apply forUp_preserves (fun v : vector T => v.buffer_size = self.buffer_size)
    · intro i v hv
      show (internal_move_or_copy X _ (i + 1) i).buffer_size = _
      rw [internal_move_or_copy_capacity]; exact hv
    · rfl

theorem internal_shift_right_capacity (X : Traits) (self : vector T) (index : Nat)
    (h : 2 ≤ self.buffer_size) : 2 ≤ (internal_shift_right X self index).buffer_size := by
  unfold internal_shift_right
  split
  · apply forDown_preserves (fun v : vector T => 2 ≤ v.buffer_size)
    · intro i v hv
      show 2 ≤ (internal_move_or_copy X v (i - 1) i).buffer_size
      rw [internal_move_or_copy_capacity]; exact hv
    · exact reserve_capacity X self _ h
  · apply forDown_preserves (fun v : vector T => 2 ≤ v.buffer_size)
    · intro i v hv
      show 2 ≤ (internal_move_or_copy X v (i - 1) i).buffer_size
      rw [internal_move_or_copy_capacity]; exact hv
    · exact reserve_capacity X self _ h

theorem resize_capacity (X : Traits) (self : vector T) (size : Nat) :
    (resize X self size).buffer_size = self.buffer_size := by
  unfold resize
  apply forDown_preserves (fun v : vector T => v.buffer_size = self.buffer_size)
  · intro i v hv
    show (internal_pop_back X v).buffer_size = _
    unfold internal_pop_back
    split <;> exact hv
  · rfl

theorem internal_swap_items_init_capacity (X : Traits) (self : vector T) (a b : Nat) :
    (internal_swap_items_init X self a b).buffer_size = self.buffer_size := by
  unfold internal_swap_items_init
  split
  · dsimp only
    rw [(internal_move_replace_shape X _ b _).1, (internal_move_replace_shape X _ a _).1]
  · rfl

theorem assert_index_ok {α : Type} (self : vector T) (i : Nat) (body r : α)
    (h : EXT_VECTOR_ASSERT_INDEX self i body = .ok r) : r = body := by
  unfold EXT_VECTOR_ASSERT_INDEX at h
  split at h
  · cases h
  · cases h; rfl

end vector

end ext

/-! ## The growth factor in double precision -/

namespace ext

theorem excess_bits_spec :
    ∀ (fuel N : Nat), N ≤ fuel →
      N / 2 ^ excess_bits fuel N < 2 ^ 53 ∧
      (0 < excess_bits fuel N → 2 ^ 52 ≤ N / 2 ^ excess_bits fuel N) := by
  intro fuel
  induction fuel with
  | zero =>
    intro N hN
    have : N = 0 := by omega
    subst this
    simp [excess_bits]
  | succ k ih =>
    intro N hN
    unfold excess_bits
    by_cases hlt : N < 2 ^ 53
    · rw [if_pos hlt]
      exact ⟨by simpa using hlt, fun h => absurd h (Nat.lt_irrefl 0)⟩
    · simp only [hlt, if_false]
      have hhalf : N / 2 ≤ k := by omega
      obtain ⟨h1, h2⟩ := ih (N / 2) hhalf
      have hdiv : N / 2 ^ (excess_bits k (N / 2) + 1) = N / 2 / 2 ^ excess_bits k (N / 2) := by
        rw [Nat.pow_succ, Nat.mul_comm, Nat.div_div_eq_div_mul]
      rw [hdiv]
      refine ⟨h1, fun _ => ?_⟩
      by_cases he : 0 < excess_bits k (N / 2)
      · exact h2 he
      · have : excess_bits k (N / 2) = 0 := by omega
        rw [this, Nat.pow_zero, Nat.div_one]
        omega

theorem rne53_bounds (N : Nat) :
    N * (2 ^ 53 - 1) ≤ rne53 N * 2 ^ 53 ∧ rne53 N * 2 ^ 53 ≤ N * (2 ^ 53 + 1) := by
  obtain ⟨_, hlow⟩ := excess_bits_spec N N (Nat.le_refl N)
  unfold rne53
  simp only []
  generalize excess_bits N N = s at hlow
  by_cases hs : s = 0
  · subst hs
    simp only [Nat.pow_zero, Nat.div_one, Nat.mod_one, Nat.mul_one]
    rw [if_neg (by omega)]
    omega
  · have hq : 2 ^ 52 ≤ N / 2 ^ s := hlow (by omega)
    have hB : 2 ^ 52 * 2 ^ s ≤ N / 2 ^ s * 2 ^ s := Nat.mul_le_mul_right _ hq
    have hsplit : N / 2 ^ s * 2 ^ s + N % 2 ^ s = N := by
      rw [Nat.mul_comm]; exact Nat.div_add_mod N (2 ^ s)
    have hadd : (N / 2 ^ s + 1) * 2 ^ s = N / 2 ^ s * 2 ^ s + 2 ^ s := by ring
    have hr : N % 2 ^ s < 2 ^ s := Nat.mod_lt _ (Nat.pow_pos (by decide))
    rw [hadd]
    clear hadd hq hlow
    generalize N / 2 ^ s * 2 ^ s = Bq at hB hsplit ⊢
    generalize N % 2 ^ s = r at hsplit hr ⊢
    generalize N / 2 ^ s = q
    generalize 2 ^ s = B at hB hr ⊢
    split
    · rename_i hup
      have : B ≤ 2 * r := by omega
      omega
    · rename_i hdown
      have : 2 * r ≤ B := by omega
      omega

theorem growth_bounds (n : Nat) (h2 : 2 ≤ n) (hn : n < 2 ^ 62) :
    n + 1 ≤ growth n ∧ growth n < 2 ^ 63 := by
  obtain ⟨hL1, hU1⟩ := rne53_bounds n
  obtain ⟨hL2, hU2⟩ := rne53_bounds (rne53 n * growth_factor_significand)
  unfold growth size_t_wrap
  unfold growth_factor_significand at hL2 hU2 ⊢
  generalize rne53 (rne53 n * 7205759403792794) = y at hL2 hU2
  generalize rne53 n = x at hL1 hU1 hL2 hU2
  have hy_lo : (n + 1) * 2 ^ 52 ≤ y := by omega
  have hy_hi : y < 2 ^ 63 * 2 ^ 52 := by omega
  have hg_lo : n + 1 ≤ y / 2 ^ 52 := (Nat.le_div_iff_mul_le (by decide)).2 hy_lo
  have hg_hi : y / 2 ^ 52 < 2 ^ 63 := (Nat.div_lt_iff_lt_mul (by decide)).2 hy_hi
  rw [Nat.mod_eq_of_lt (by omega)]
  exact ⟨hg_lo, hg_hi⟩

end ext

/-! ## Counts of `ext::vector` -/

namespace ext

theorem forUp_count {σ : Type} (f : σ → Nat) (body : Nat → σ → σ)
    (h : ∀ i s, f (body i s) = size_t_wrap (f s + 1)) :
    ∀ fuel i s, f s + fuel < 2 ^ 64 → f (forUp body fuel i s) = f s + fuel := by
  intro fuel
  induction fuel with
  | zero => intro i s _; rfl
  | succ k ih =>
    intro i s hlt
    have hstep : f (body i s) = f s + 1 := by
      rw [h, size_t_wrap, Nat.mod_eq_of_lt (by omega)]
    show f (forUp body k (i + 1) (body i s)) = _
    rw [ih (i + 1) (body i s) (by omega), hstep]
    omega

theorem foldl_count {σ α : Type} (f : σ → Nat) (g : σ → α → σ)
    (h : ∀ s x, f (g s x) = size_t_wrap (f s + 1)) :
    ∀ (l : List α) s, f s + l.length < 2 ^ 64 → f (l.foldl g s) = f s + l.length := by
  intro l
  induction l with
  | nil => intro s _; rfl
  | cons x xs ih =>
    intro s hlt
    simp only [List.length_cons] at hlt
    have hstep : f (g s x) = f s + 1 := by
      rw [h, size_t_wrap, Nat.mod_eq_of_lt (by omega)]
    show f (xs.foldl g (g s x)) = _
    rw [ih (g s x) (by omega), hstep, List.length_cons]
    omega

theorem forDown_count {σ : Type} (f : σ → Nat) (body : Nat → σ → σ)
    (h : ∀ i s, f (body i s) = size_t_decr (f s)) :
    ∀ fuel i s, fuel ≤ f s → f (forDown body fuel i s) = f s - fuel := by
  intro fuel
  induction fuel with
  | zero => intro i s _; rfl
  | succ k ih =>
    intro i s hle
    have hstep : f (body i s) = f s - 1 := by
      rw [h, size_t_decr, if_neg (by omega)]
    show f (forDown body k (i - 1) (body i s)) = _
    rw [ih (i - 1) (body i s) (by omega), hstep]
    omega

namespace vector

variable {T : Type}

theorem EXT_VECTOR_SIZE_ge_self (x : Nat) : x ≤ EXT_VECTOR_SIZE x := by
  unfold EXT_VECTOR_SIZE
  split <;> omega

theorem assert_index_lt {α : Type} (self : vector T) (i : Nat) (body r : α)
    (h : EXT_VECTOR_ASSERT_INDEX self i body = .ok r) : i < self.item_counter := by
  unfold EXT_VECTOR_ASSERT_INDEX at h
  split at h
  · cases h
  · omega

theorem internal_simple_copy_count (X : Traits) (self dst : vector T)
    (h : dst.item_counter + self.item_counter < 2 ^ 64) :
    (internal_simple_copy X self dst).2.item_counter = dst.item_counter + self.item_counter := by
  unfold internal_simple_copy
  refine forUp_count (fun p : vector T × vector T => p.2.item_counter) _ ?_ _ _ _ h
  intro i p
  by_cases hX : X.is_nothrow_move_constructible = true
  · simp [hX, internal_move_back]
  · simp [hX, internal_push_back]

theorem internal_resize_count (X : Traits) (self : vector T) (newSize : Nat)
    (h : self.item_counter < 2 ^ 64) :
    (internal_resize X self newSize).item_counter = self.item_counter := by
  have := internal_simple_copy_count X self (ctor_size newSize)
    (by simpa [ctor_size] using h)
  simpa [internal_resize, swap, ctor_size] using this

theorem push_back_count_le (X : Traits) (self : vector T) (item : reference T)
    (h : self.item_counter ≤ self.buffer_size) (hb : self.buffer_size < 2 ^ 62) :
    (push_back X self item).item_counter ≤ (push_back X self item).buffer_size := by
  rw [(push_back_shape X self item).1, (push_back_shape X self item).2]
  unfold internal_resize_on_demand
  by_cases hfull : self.item_counter ≥ self.buffer_size
  · rw [if_pos hfull]
    show size_t_wrap ((internal_resize X self _).item_counter + 1) ≤
      (internal_resize X self _).buffer_size
    rw [internal_resize_count X self _ (by omega), internal_resize_capacity, size_t_wrap,
      Nat.mod_eq_of_lt (by omega)]
    by_cases h2 : 2 ≤ self.buffer_size
    · have := (growth_bounds self.buffer_size h2 hb).1
      have := EXT_VECTOR_SIZE_ge_self (growth self.buffer_size)
      omega
    · have := EXT_VECTOR_SIZE_ge (growth self.buffer_size)
      omega
  · rw [if_neg hfull]
    show size_t_wrap (self.item_counter + 1) ≤ self.buffer_size
    rw [size_t_wrap, Nat.mod_eq_of_lt (by omega)]
    omega

theorem ctor_copy_loop (X : Traits) (vec : vector T) (hb : vec.buffer_size < 2 ^ 62) :
    ∀ (fuel i : Nat) (s : vector T), s.buffer_size = vec.buffer_size → s.item_counter = i →
      i + fuel ≤ vec.buffer_size →
      (forUp (fun i (self : vector T) => push_back X self (.external (vec.buffer i))) fuel i s).buffer_size =
        vec.buffer_size ∧
      (forUp (fun i (self : vector T) => push_back X self (.external (vec.buffer i))) fuel i s).item_counter =
        i + fuel := by
  intro fuel
  induction fuel with
  | zero => intro i s hc hi _; exact ⟨hc, hi⟩
  | succ k ih =>
    intro i s hc hi hle
    have hstep : push_back X s (.external (vec.buffer i)) =
        internal_push_back s (vec.buffer i) := by
      unfold push_back internal_resize_on_demand
      rw [if_neg (by omega)]
      rfl
    have := ih (i + 1) (push_back X s (.external (vec.buffer i))) (by rw [hstep]; exact hc)
      (by rw [hstep]; show size_t_wrap (s.item_counter + 1) = i + 1
          rw [size_t_wrap, Nat.mod_eq_of_lt (by omega), hi]) (by omega)
    refine ⟨this.1, ?_⟩
    show (forUp _ k (i + 1) (push_back X s (.external (vec.buffer i)))).item_counter = _
    rw [this.2]
    omega

theorem ctor_copy_count_le (X : Traits) (vec : vector T)
    (h : vec.item_counter ≤ vec.buffer_size) (hb : vec.buffer_size < 2 ^ 62) :
    (ctor_copy X vec).buffer_size = vec.buffer_size ∧
    (ctor_copy X vec).item_counter = vec.item_counter := by
  have := ctor_copy_loop X vec hb vec.item_counter 0
    { buffer_size := vec.buffer_size, item_counter := 0,
      buffer := EXT_VECTOR_BUFFER_INIT vec.buffer_size } rfl rfl (by omega)
  simpa [ctor_copy] using this

theorem ctor_list_count_le (list : List T) (hl : list.length < 2 ^ 64) :
    (ctor_list list).item_counter ≤ (ctor_list list).buffer_size := by
  have hcap : (ctor_list list).buffer_size = EXT_VECTOR_SIZE list.length := by
    unfold ctor_list
    apply foldl_preserves (fun v : vector T => v.buffer_size = EXT_VECTOR_SIZE list.length)
    · intro v x hv; exact hv
    · rfl
  have hcount : (ctor_list list).item_counter = list.length := by
    unfold ctor_list
    have := foldl_count (fun v : vector T => v.item_counter)
      (fun (self : vector T) item => internal_push_back self (some item)) (fun s x => rfl) list
      { buffer_size := EXT_VECTOR_SIZE list.length, item_counter := 0,
        buffer := EXT_VECTOR_BUFFER_INIT (EXT_VECTOR_SIZE list.length) } (by simpa using hl)
    simpa using this
  rw [hcap, hcount]
  exact EXT_VECTOR_SIZE_ge_self _

theorem internal_clear_items_count (X : Traits) (self : vector T) :
    (internal_clear_items X self).item_counter = 0 := by
  unfold internal_clear_items
  split <;> rfl

theorem internal_copy_assign_count_le (X : Traits) (self vec : vector T)
    (hv : vec.item_counter ≤ vec.buffer_size) (hvb : vec.buffer_size < 2 ^ 62)
    (hfit : X.is_nothrow_destructible = true → vec.item_counter ≤ self.buffer_size) :
    (internal_copy_assign X self vec).item_counter ≤
      (internal_copy_assign X self vec).buffer_size := by
  have hcopy := ctor_copy_count_le X vec hv hvb
  unfold internal_copy_assign
  split
  · rename_i hX
    split
    · rename_i hle
      have hcap : (forUp (fun i (s : vector T) => internal_push_back s (vec.buffer i))
          vec.item_counter 0 (internal_clear_items X self)).buffer_size = self.buffer_size := by
        apply forUp_preserves (fun v : vector T => v.buffer_size = self.buffer_size)
        · intro i v hv; exact hv
        · exact internal_clear_items_capacity X self
      have hcount : (forUp (fun i (s : vector T) => internal_push_back s (vec.buffer i))
          vec.item_counter 0 (internal_clear_items X self)).item_counter =
          (internal_clear_items X self).item_counter + vec.item_counter :=
        forUp_count (fun v : vector T => v.item_counter)
          (fun i (s : vector T) => internal_push_back s (vec.buffer i)) (fun i s => rfl)
          vec.item_counter 0 (internal_clear_items X self)
          (by show (internal_clear_items X self).item_counter + _ < _
              rw [internal_clear_items_count]; omega)
      rw [hcap, hcount, internal_clear_items_count]
      have := hfit hX
      omega
    · show (ctor_copy X vec).item_counter ≤ (ctor_copy X vec).buffer_size
      rw [hcopy.1, hcopy.2]; exact hv
  · show (ctor_copy X vec).item_counter ≤ (ctor_copy X vec).buffer_size
    rw [hcopy.1, hcopy.2]; exact hv

theorem internal_move_or_copy_count (X : Traits) (self : vector T) (ori dst : Nat) :
    (internal_move_or_copy X self ori dst).item_counter = self.item_counter := by
  unfold internal_move_or_copy
  split <;> rfl

theorem internal_shift_left_count (X : Traits) (self : vector T) (index : Nat) :
    (internal_shift_left X self index).item_counter = size_t_decr self.item_counter := by
  unfold internal_shift_left
  split
  · apply forUp_preserves (fun v : vector T => v.item_counter = size_t_decr self.item_counter)
    · intro i v hv
      show (internal_move_or_copy X v (i + 1) i).item_counter = _
      rw [internal_move_or_copy_count]; exact hv
    · rfl
  · show vector.item_counter (forUp _ _ _ _) = _
    apply forUp_preserves (fun v : vector T => v.item_counter = size_t_decr self.item_counter)
    · intro i v hv
      show (internal_move_or_copy X _ (i + 1) i).item_counter = _
      rw [internal_move_or_copy_count]; exact hv
    · rfl

theorem reserve_count_le (X : Traits) (self : vector T) (newSize : Nat)
    (h : self.item_counter ≤ self.buffer_size) (hb : self.buffer_size < 2 ^ 62) :
    (reserve X self newSize).item_counter = self.item_counter ∧
    self.buffer_size ≤ (reserve X self newSize).buffer_size ∧
    newSize ≤ (reserve X self newSize).buffer_size := by
  unfold reserve
  split
  · rw [internal_resize_count X self _ (by omega), internal_resize_capacity]
    have := EXT_VECTOR_SIZE_ge_self newSize
    exact ⟨rfl, by omega, this⟩
  · exact ⟨rfl, Nat.le_refl _, by omega⟩

theorem internal_shift_right_count_le (X : Traits) (self : vector T) (index : Nat)
    (h : self.item_counter ≤ self.buffer_size) (hb : self.buffer_size < 2 ^ 62) :
    (internal_shift_right X self index).item_counter = self.item_counter ∧
    self.item_counter + 1 ≤ (internal_shift_right X self index).buffer_size := by
  obtain ⟨hc, _, hn⟩ := reserve_count_le X self (size_t_wrap (self.item_counter + 1)) h hb
  rw [size_t_wrap, Nat.mod_eq_of_lt (by omega)] at hn
  unfold internal_shift_right
  split
  · apply forDown_preserves (fun v : vector T =>
      v.item_counter = self.item_counter ∧ self.item_counter + 1 ≤ v.buffer_size)
    · intro i v hv
      show (internal_move_or_copy X v (i - 1) i).item_counter = _ ∧
        _ ≤ (internal_move_or_copy X v (i - 1) i).buffer_size
      rw [internal_move_or_copy_count, internal_move_or_copy_capacity]; exact hv
    · exact ⟨hc, by rw [size_t_wrap, Nat.mod_eq_of_lt (by omega)]; exact hn⟩
  · apply forDown_preserves (fun v : vector T =>
      v.item_counter = self.item_counter ∧ self.item_counter + 1 ≤ v.buffer_size)
    · intro i v hv
      show (internal_move_or_copy X v (i - 1) i).item_counter = _ ∧
        _ ≤ (internal_move_or_copy X v (i - 1) i).buffer_size
      rw [internal_move_or_copy_count, internal_move_or_copy_capacity]; exact hv
    · exact ⟨hc, by rw [size_t_wrap, Nat.mod_eq_of_lt (by omega)]; exact hn⟩

theorem shrink_to_fit_count (X : Traits) (self : vector T) (h : self.item_counter < 2 ^ 64) :
    (shrink_to_fit X self).item_counter = self.item_counter := by
  have := internal_simple_copy_count X self (ctor_size (EXT_VECTOR_SIZE self.item_counter))
    (by simpa [ctor_size] using h)
  simpa [shrink_to_fit, swap, ctor_size] using this

theorem internal_pop_back_count (X : Traits) (self : vector T) :
    (internal_pop_back X self).item_counter = size_t_decr self.item_counter := by
  unfold internal_pop_back
  split <;> rfl

theorem resize_count (X : Traits) (self : vector T) (size : Nat) :
    (resize X self size).item_counter = self.item_counter - (self.item_counter - size) := by
  unfold resize
  exact forDown_count (fun v : vector T => v.item_counter) _
    (fun i s => internal_pop_back_count X s) _ _ _ (Nat.sub_le _ _)

theorem internal_swap_items_init_count (X : Traits) (self : vector T) (a b : Nat) :
    (internal_swap_items_init X self a b).item_counter = self.item_counter := by
  unfold internal_swap_items_init
  split <;> rfl

/-- The operations that construct or change a vector keep `item_counter <= buffer_size` on
vectors whose capacity is below `2 ^ 62`; copy assignment does so unless the element type
is nothrow destructible and the source holds more elements than the target has slots. -/
theorem count_le_capacity_preserved (X : Traits) (a b : vector T)
    (ha : a.item_counter ≤ a.buffer_size) (hb : b.item_counter ≤ b.buffer_size)
    (hab : a.buffer_size < 2 ^ 62) (hbb : b.buffer_size < 2 ^ 62) :
    (∀ size, (ctor_size size : vector T).item_counter ≤ (ctor_size size : vector T).buffer_size) ∧
    (ctor_copy X a).item_counter ≤ (ctor_copy X a).buffer_size ∧
    (∀ list : List T, list.length < 2 ^ 64 →
      (ctor_list list).item_counter ≤ (ctor_list list).buffer_size) ∧
    ((X.is_nothrow_destructible = true → b.item_counter ≤ a.buffer_size) →
      (assign_copy X a b).item_counter ≤ (assign_copy X a b).buffer_size) ∧
    ((assign_move a b).1.item_counter ≤ (assign_move a b).1.buffer_size ∧
      (assign_move a b).2.item_counter ≤ (assign_move a b).2.buffer_size) ∧
    (∀ item, (push_back X a item).item_counter ≤ (push_back X a item).buffer_size) ∧
    (∀ i item r, insert X a i item = .ok r → r.item_counter ≤ r.buffer_size) ∧
    (∀ i r, erase X a i = .ok r → r.item_counter ≤ r.buffer_size) ∧
    (0 < a.item_counter → (pop_back X a).item_counter ≤ (pop_back X a).buffer_size) ∧
    (∀ i item r, replace X a i item = .ok r → r.item_counter ≤ r.buffer_size) ∧
    (∀ newSize, (reserve X a newSize).item_counter ≤ (reserve X a newSize).buffer_size) ∧
    (shrink_to_fit X a).item_counter ≤ (shrink_to_fit X a).buffer_size ∧
    (∀ size, (resize X a size).item_counter ≤ (resize X a size).buffer_size) ∧
    (clear X a).item_counter ≤ (clear X a).buffer_size ∧
    ((swap a b).1.item_counter ≤ (swap a b).1.buffer_size ∧
      (swap a b).2.item_counter ≤ (swap a b).2.buffer_size) := by
  refine ⟨fun size => Nat.zero_le _, ?_, fun list hl => ctor_list_count_le list hl,
    fun hfit => internal_copy_assign_count_le X a b hb hbb hfit, ⟨hb, ha⟩,
    fun item => push_back_count_le X a item ha hab, ?_, ?_, ?_, ?_, ?_, ?_, ?_, ?_, ⟨hb, ha⟩⟩
  · obtain ⟨h1, h2⟩ := ctor_copy_count_le X a ha hab
    rw [h1, h2]; exact ha
  · intro i item r h
    rw [assert_index_ok a i _ r h]
    obtain ⟨h1, h2⟩ := internal_shift_right_count_le X a i ha hab
    show size_t_wrap ((internal_shift_right X a i).item_counter + 1) ≤
      (internal_shift_right X a i).buffer_size
    rw [h1, size_t_wrap, Nat.mod_eq_of_lt (by omega)]
    exact h2
  · intro i r h
    have hlt := assert_index_lt a i _ r h
    rw [assert_index_ok a i _ r h, internal_shift_left_count, internal_shift_left_capacity,
      size_t_decr, if_neg (by omega)]
    omega
  · intro hpos
    show (internal_pop_back X a).item_counter ≤ (internal_pop_back X a).buffer_size
    have hcap : (internal_pop_back X a).buffer_size = a.buffer_size := by
      unfold internal_pop_back; split <;> rfl
    rw [internal_pop_back_count, hcap, size_t_decr, if_neg (by omega)]
    omega
  · intro i item r h
    rw [assert_index_ok a i _ r h]; exact ha
  · intro newSize
    obtain ⟨h1, h2, _⟩ := reserve_count_le X a newSize ha hab
    omega
  · rw [shrink_to_fit_count X a (by omega), shrink_to_fit_capacity]
    have := EXT_VECTOR_SIZE_ge_self a.item_counter
    have := EXT_VECTOR_SIZE_ge_self (EXT_VECTOR_SIZE a.item_counter)
    omega
  · intro size
    rw [resize_count, resize_capacity]
    omega
  · show (internal_clear_items X a).item_counter ≤ _
    rw [internal_clear_items_count]; exact Nat.zero_le _

end vector

end ext

/-! ## Equality of `ext::vector` -/

namespace ext
namespace vector
variable {T : Type}

theorem operator_eq_loop_spec [DecidableEq T] (self vec : vector T) :
    ∀ (fuel i : Nat),
      (∀ j, i ≤ j → j < i + fuel → (self.buffer j).isSome ∧ (vec.buffer j).isSome) →
      ∃ r, operator_eq_loop self vec fuel i = .ok r ∧
        (r = true ↔ ∀ j, i ≤ j → j < i + fuel → self.buffer j = vec.buffer j) := by
  intro fuel
  induction fuel with
  | zero =>
    intro i _
    refine ⟨true, rfl, ⟨fun _ j h1 h2 => ?_, fun _ => rfl⟩⟩
    omega
  | succ k ih =>
    intro i hsome
    obtain ⟨h1, h2⟩ := hsome i (Nat.le_refl i) (by omega)
    obtain ⟨x, hx⟩ := Option.isSome_iff_exists.1 h1
    obtain ⟨y, hy⟩ := Option.isSome_iff_exists.1 h2
    unfold operator_eq_loop
    simp only [hx, hy]
    by_cases hxy : x = y
    · subst hxy
      simp only [ne_eq, not_true_eq_false, if_false]
      obtain ⟨r, hr, hiff⟩ := ih (i + 1) (fun j hj1 hj2 => hsome j (by omega) (by omega))
      refine ⟨r, hr, hiff.trans ⟨fun h j hj1 hj2 => ?_, fun h j hj1 hj2 => h j (by omega) (by omega)⟩⟩
      by_cases hji : j = i
      · subst hji; rw [hx, hy]
      · exact h j (by omega) (by omega)
    · simp only [ne_eq, hxy, not_false_eq_true, if_true]
      refine ⟨false, rfl, ⟨fun h => (by cases h), fun h => ?_⟩⟩
      have := h i (Nat.le_refl i) (by omega)
      rw [hx, hy] at this
      exact absurd (Option.some.inj this) hxy

/-- What `operator==` computes when the compared slots hold values: it returns true exactly
when the first `item_counter` slots of the left operand agree with the same slots of the
right operand; the count of the right operand plays no part. -/
theorem operator_eq_spec [DecidableEq T] (self vec : vector T)
    (h : ∀ j, j < self.item_counter → (self.buffer j).isSome ∧ (vec.buffer j).isSome) :
    ∃ r, operator_eq self vec = .ok r ∧
      (r = true ↔ ∀ j, j < self.item_counter → self.buffer j = vec.buffer j) := by
  obtain ⟨r, hr, hiff⟩ := operator_eq_loop_spec self vec self.item_counter 0
    (fun j _ hj => h j (by omega))
  refine ⟨r, hr, hiff.trans ⟨fun hh j hj => hh j (Nat.zero_le j) (by omega),
    fun hh j _ hj => hh j (by omega)⟩⟩

end vector
end ext

/-! ## Claims on `ext::vector` -/

namespace ext

open vector

/-- C1, evaluated on the code: `operator==` compares the first `item_counter` slots of the
left operand and never looks at the two counts, so the one-element vector `{1}` and the
two-element vector `{1, 2}` compare equal, and `!=` returns false for them. -/
theorem operator_eq_ignores_count :
    (ctor_list [1] : vector Nat).item_counter = 1 ∧
    (ctor_list [1, 2] : vector Nat).item_counter = 2 ∧
    operator_eq (ctor_list [1] : vector Nat) (ctor_list [1, 2]) = .ok true ∧
    operator_ne (ctor_list [1] : vector Nat) (ctor_list [1, 2]) = .ok false :=
  ⟨rfl, rfl, rfl, rfl⟩

/-- C2, evaluated on the code: for a nothrow-destructible element type copy assignment
keeps the buffer of the target when `buffer_size <= vec.item_counter`; both operands of
`a = {1, 2, 3}` with a default-constructed `a` satisfy count <= capacity, and afterwards `a`
has count 3 and capacity 2. -/
theorem assign_copy_count_exceeds_capacity :
    (ctor_default : vector Nat).item_counter ≤ (ctor_default : vector Nat).buffer_size ∧
    (ctor_list [1, 2, 3] : vector Nat).item_counter ≤ (ctor_list [1, 2, 3] : vector Nat).buffer_size ∧
    (assign_copy Traits.scalar (ctor_default : vector Nat) (ctor_list [1, 2, 3])).item_counter = 3 ∧
    (assign_copy Traits.scalar (ctor_default : vector Nat) (ctor_list [1, 2, 3])).buffer_size = 2 := by
  decide

/-- C3 as stated fails: the source of a move construction is left with capacity 0. -/
theorem ctor_move_source_capacity_zero :
    ¬ 2 ≤ (ctor_move (ctor_default : vector Nat)).2.buffer_size := by
  decide

/-- C3, amended: the default, sized and initializer-list constructors produce a capacity of
at least 2; a copy of a vector with capacity at least 2 has capacity at least 2; a move
construction gives the new vector the capacity of its source and leaves the source with
capacity 0; and every other public operation applied to operands with capacity at least 2
leaves every operand with capacity at least 2. -/
theorem capacity_ge_two_preserved {T : Type} (X : Traits) (a b : vector T)
    (ha : 2 ≤ a.buffer_size) (hb : 2 ≤ b.buffer_size) :
    2 ≤ (ctor_default : vector T).buffer_size ∧
    (∀ size, 2 ≤ (ctor_size size : vector T).buffer_size) ∧
    (∀ list : List T, 2 ≤ (ctor_list list).buffer_size) ∧
    2 ≤ (ctor_copy X a).buffer_size ∧
    ((ctor_move a).1.buffer_size = a.buffer_size ∧ (ctor_move a).2.buffer_size = 0) ∧
    2 ≤ (assign_copy X a b).buffer_size ∧
    (2 ≤ (assign_move a b).1.buffer_size ∧ 2 ≤ (assign_move a b).2.buffer_size) ∧
    (∀ list : List T, 2 ≤ (assign_list X a list).buffer_size) ∧
    (∀ newSize, 2 ≤ (reserve X a newSize).buffer_size) ∧
    2 ≤ (shrink_to_fit X a).buffer_size ∧
    2 ≤ (clear X a).buffer_size ∧
    (∀ i r, erase X a i = .ok r → 2 ≤ r.buffer_size) ∧
    (∀ i item r, insert X a i item = .ok r → 2 ≤ r.buffer_size) ∧
    (∀ i item r, insert_move X a i item = .ok r → 2 ≤ r.buffer_size) ∧
    (∀ i item r, emplace X a i item = .ok r → 2 ≤ r.buffer_size) ∧
    (∀ item, 2 ≤ (push_back X a item).buffer_size) ∧
    (∀ item, 2 ≤ (push_back_move X a item).buffer_size) ∧
    (∀ item, 2 ≤ (emplace_back X a item).buffer_size) ∧
    2 ≤ (pop_back X a).buffer_size ∧
    (2 ≤ (swap a b).1.buffer_size ∧ 2 ≤ (swap a b).2.buffer_size) ∧
    (∀ i j r, swap_items X a i j = .ok r → 2 ≤ r.buffer_size) ∧
    (∀ size, 2 ≤ (resize X a size).buffer_size) ∧
    (∀ i item r, replace X a i item = .ok r → 2 ≤ r.buffer_size) ∧
    (∀ i item r, replace_move X a i item = .ok r → 2 ≤ r.buffer_size) ∧
    (∀ i item r, replace_emplace X a i item = .ok r → 2 ≤ r.buffer_size) := by
  refine ⟨Nat.le_refl 2, fun size => EXT_VECTOR_SIZE_ge _, fun list => ctor_list_capacity list,
    ctor_copy_capacity X a ha, ⟨rfl, rfl⟩, internal_copy_assign_capacity X a b ha hb,
    ⟨hb, ha⟩, fun list => assign_list_capacity X a list ha,
    fun newSize => reserve_capacity X a newSize ha, ?_, ?_, ?_, ?_, ?_, ?_,
    fun item => push_back_capacity X a item ha,
    fun item => by
      rw [(push_back_move_shape X a item).1]
      exact internal_resize_on_demand_capacity X a ha,
    fun item => by
      rw [(emplace_back_shape X a item).1]
      exact internal_resize_on_demand_capacity X a ha, ?_, ⟨hb, ha⟩, ?_, ?_, ?_, ?_, ?_⟩
  · rw [shrink_to_fit_capacity]; exact EXT_VECTOR_SIZE_ge _
  · show 2 ≤ (internal_clear_items X a).buffer_size
    rw [internal_clear_items_capacity]; exact ha
  · intro i r h
    rw [assert_index_ok a i _ r h, internal_shift_left_capacity]; exact ha
  · intro i item r h
    rw [assert_index_ok a i _ r h, (internal_copy_insert_shape X a i item).1]
    exact internal_shift_right_capacity X a i ha
  · intro i item r h
    rw [assert_index_ok a i _ r h, (internal_move_insert_shape X a i item).1]
    exact internal_shift_right_capacity X a i ha
  · intro i item r h
    rw [assert_index_ok a i _ r h, (internal_emplace_shape X a i item).1]
    exact internal_shift_right_capacity X a i ha
  · show 2 ≤ (internal_pop_back X a).buffer_size
    unfold internal_pop_back
    split <;> exact ha
  · intro i j r h
    unfold swap_items at h
    split at h
    · cases h
    · split at h
      · cases h
      · cases h; rw [internal_swap_items_init_capacity]; exact ha
  · intro size
    rw [resize_capacity]; exact ha
  · intro i item r h
    rw [assert_index_ok a i _ r h, (internal_copy_replace_shape X a i item).1]; exact ha
  · intro i item r h
    rw [assert_index_ok a i _ r h, (internal_move_replace_shape X a i item).1]; exact ha
  · intro i item r h
    rw [assert_index_ok a i _ r h, (internal_emplace_replace_shape X a i item).1]; exact ha

/-- C3, amended, at work on the vectors `{1, 2, 3}` and `{4}`. -/
theorem capacity_ge_two_preserved_witness :
    2 ≤ (ctor_copy Traits.scalar (ctor_list [1, 2, 3] : vector Nat)).buffer_size ∧
    (ctor_move (ctor_list [1, 2, 3] : vector Nat)).2.buffer_size = 0 ∧
    2 ≤ (assign_copy Traits.scalar (ctor_list [1, 2, 3] : vector Nat) (ctor_list [4])).buffer_size ∧
    2 ≤ (shrink_to_fit Traits.scalar (ctor_list [1, 2, 3] : vector Nat)).buffer_size :=
  have h := capacity_ge_two_preserved Traits.scalar (ctor_list [1, 2, 3] : vector Nat)
    (ctor_list [4]) (by decide) (by decide)
  ⟨h.2.2.2.1, h.2.2.2.2.1.2, h.2.2.2.2.2.1, h.2.2.2.2.2.2.2.2.2.1⟩

end ext

/-! ## Construction of `ext::dynamic_array` -/

namespace ext

namespace dynamic_array

variable {T : Type}

theorem constructor_work_loop_error (sizes : List Int) (h : ∃ s ∈ sizes, s < 1) :
    ∀ (_n : List Nat) (index : Nat),
      _internal_constructor_work_loop sizes _n index = .error (.raised .DimensionSizeError) := by
  induction sizes with
  | nil => obtain ⟨s, hs, _⟩ := h; cases hs
  | cons i rest ih =>
    intro _n index
    unfold _internal_constructor_work_loop
    by_cases hi : i < 1
    · simp [hi]
    · simp only [hi, if_false]
      apply ih
      obtain ⟨s, hs, hlt⟩ := h
      rcases List.mem_cons.1 hs with rfl | hmem
      · exact absurd hlt hi
      · exact ⟨s, hmem, hlt⟩

theorem constructor_work_loop_ok (sizes : List Int) (h : ∀ s ∈ sizes, 1 ≤ s) :
    ∀ (pre suf : List Nat), sizes.length ≤ suf.length →
      _internal_constructor_work_loop sizes (pre ++ suf) pre.length =
        .ok (pre ++ sizes.map Int.toNat ++ suf.drop sizes.length, pre.length + sizes.length) := by
  induction sizes with
  | nil => intro pre suf _; simp [_internal_constructor_work_loop]
  | cons i rest ih =>
    intro pre suf hlen
    have hi : ¬ i < 1 := by have := h i (List.mem_cons_self _ _); omega
    cases suf with
    | nil => simp at hlen
    | cons x suf =>
      unfold _internal_constructor_work_loop
      simp only [hi, if_false]
      have hset : (pre ++ x :: suf).set pre.length i.toNat = (pre ++ [i.toNat]) ++ suf := by
        simp
      rw [hset]
      have := ih (fun s hs => h s (List.mem_cons_of_mem _ hs)) (pre ++ [i.toNat]) suf
        (by simpa using hlen)
      simp only [List.length_append, List.length_singleton] at this
      rw [this]
      simp [Nat.add_assoc, Nat.add_comm 1]

theorem fill_loop (S : List Nat) (idx last : Nat) (hidx : idx < S.length)
    (hlast : S.getD idx 0 = last) :
    ∀ (fuel a : Nat),
      forUp (fun i (m : List Nat) => m.set i (m.getD idx 0)) fuel (S.length + a)
        (S ++ List.replicate a last ++ List.replicate fuel 0) =
      S ++ List.replicate (a + fuel) last := by
  intro fuel
  induction fuel with
  | zero => intro a; simp [forUp]
  | succ k ih =>
    intro a
    unfold forUp
    have hget : (S ++ List.replicate a last ++ List.replicate (k + 1) 0).getD idx 0 = last := by
      rw [List.append_assoc, List.getD_append _ _ _ _ hidx]; exact hlast
    have hset : (S ++ List.replicate a last ++ List.replicate (k + 1) 0).set (S.length + a) last =
        S ++ List.replicate (a + 1) last ++ List.replicate k 0 := by
      have hl : (S ++ List.replicate a last).length = S.length + a := by simp
      rw [List.replicate_succ, ← hl, List.set_append_right _ _ (Nat.le_refl _)]
      simp [List.replicate_succ', List.append_assoc]
    simp only [hget, hset]
    have := ih (a + 1)
    rw [← Nat.add_assoc] at this
    rw [this]
    congr 2
    omega

end dynamic_array

end ext

namespace ext
namespace dynamic_array
variable {T : Type}

theorem broadcast_last (n : Int) (ns : List Int) :
    ((n :: ns).map Int.toNat).getD (ns.length + 1 - 1) 0 =
      ((n :: ns).getLast (by simp)).toNat := by
  rw [List.getLast_eq_getElem]
  simp only [List.length_cons, Nat.add_sub_cancel]
  rw [List.getD_eq_getElem _ _ (by simp)]
  exact List.getElem_map _

theorem sizes_block_eq (d : Nat) (n : Int) (ns : List Int) (hk : ns.length + 1 ≤ d) :
    (if ns.length + 1 < d then
      forUp (fun i (m : List Nat) => m.set i (m.getD (ns.length + 1 - 1) 0))
        (d - (ns.length + 1 - 1 + 1)) (ns.length + 1 - 1 + 1)
        (List.map Int.toNat (n :: ns) ++ List.drop (ns.length + 1) (List.replicate d 0))
    else List.map Int.toNat (n :: ns) ++ List.drop (ns.length + 1) (List.replicate d 0)) =
    broadcast_sizes d n ns := by
  have hdrop : List.drop (ns.length + 1) (List.replicate d 0) =
      List.replicate (d - (ns.length + 1)) 0 := by simp
  rw [hdrop]
  unfold broadcast_sizes
  split
  · have h := fill_loop ((n :: ns).map Int.toNat) (ns.length + 1 - 1)
      (((n :: ns).getLast (by simp)).toNat) (by simp) (broadcast_last n ns)
      (d - (ns.length + 1)) 0
    simp only [List.replicate_zero, List.append_nil, Nat.add_zero, Nat.zero_add,
      List.length_map, List.length_cons] at h
    simpa using h
  · have : d - (ns.length + 1) = 0 := by omega
    simp [this]

theorem ctor_eq [Inhabited T] (d : Nat) (n : Int) (ns : List Int) (hk : ns.length + 1 ≤ d)
    (hpos : ∀ s ∈ n :: ns, 1 ≤ s) :
    (ctor d n ns : Except Fault (dynamic_array T)) =
      .ok (_internal_init_items
        { _n := broadcast_sizes d n ns, _d := d,
          _size := forUp (fun i sz => size_t_wrap (sz * (broadcast_sizes d n ns).getD i 0))
            (d - 1) 1 ((broadcast_sizes d n ns).getD 0 0),
          buffer := fun _ => none }) := by
  have hloop := constructor_work_loop_ok (n :: ns) hpos [] (List.replicate d 0)
    (by simpa using hk)
  simp only [List.nil_append, List.length_nil, Nat.zero_add, List.length_cons] at hloop
  unfold ctor _internal_constructor_work
  simp only [EXT_ARRAY_DIMENSION_SIZE_INIT, hloop, sizes_block_eq d n ns hk,
    EXT_ARRAY_BUFFER_INIT]
  rw [if_neg (by omega)]
  rfl


theorem ctor_too_many_sizes [Inhabited T] (d : Nat) (n : Int) (ns : List Int)
    (hk : d < ns.length + 1) :
    (ctor d n ns : Except Fault (dynamic_array T)) = .error (.raised .TooManySizes) := by
  unfold ctor _internal_constructor_work
  simp only []
  rw [if_pos hk]

theorem ctor_size_error [Inhabited T] (d : Nat) (n : Int) (ns : List Int)
    (hk : ns.length + 1 ≤ d) (hs : ∃ s ∈ n :: ns, s < 1) :
    (ctor d n ns : Except Fault (dynamic_array T)) = .error (.raised .DimensionSizeError) := by
  unfold ctor _internal_constructor_work
  simp only [constructor_work_loop_error (n :: ns) hs]
  rw [if_neg (by omega)]

theorem broadcast_sizes_length (d : Nat) (n : Int) (ns : List Int) (hk : ns.length + 1 ≤ d) :
    (broadcast_sizes d n ns).length = d := by
  simp [broadcast_sizes]; omega

end dynamic_array

open dynamic_array

/-- C8, evaluated on the code: the check `EXT_ARRAY_ASSERT_DIMENSION_COUNT` is never
invoked, and with `d = 0` the check on the number of supplied sizes fires first, so a
construction with zero dimensions fails with `TooManySizes` whatever the sizes are. -/
theorem ctor_zero_dimensions_too_many_sizes {T : Type} [Inhabited T] (n : Int) (ns : List Int) :
    (ctor 0 n ns : Except Fault (dynamic_array T)) = .error (.raised .TooManySizes) ∧
    (ctor 0 n ns : Except Fault (dynamic_array T)) ≠ .error (.raised .DimensionCountError) := by
  have h := ctor_too_many_sizes (T := T) 0 n ns (Nat.succ_pos _)
  refine ⟨h, ?_⟩
  rw [h]
  intro hc
  cases hc

/-- C9: for a dimension count `d >= 1` the construction fails with `TooManySizes` exactly
when more than `d` sizes are supplied, fails with `DimensionSizeError` exactly when at most
`d` sizes are supplied and one of them is below 1, and succeeds exactly when at most `d`
sizes are supplied and all of them are at least 1. -/
theorem ctor_failure_kinds {T : Type} [Inhabited T] (d : Nat) (n : Int) (ns : List Int)
    (_hd : 1 ≤ d) :
    ((ctor d n ns : Except Fault (dynamic_array T)) = .error (.raised .TooManySizes) ↔
      d < ns.length + 1) ∧
    ((ctor d n ns : Except Fault (dynamic_array T)) = .error (.raised .DimensionSizeError) ↔
      ns.length + 1 ≤ d ∧ ∃ s ∈ n :: ns, s < 1) ∧
    ((∃ a : dynamic_array T, ctor d n ns = .ok a) ↔
      ns.length + 1 ≤ d ∧ ∀ s ∈ n :: ns, 1 ≤ s) := by
  by_cases hk : d < ns.length + 1
  · have h := ctor_too_many_sizes (T := T) d n ns hk
    rw [h]
    refine ⟨⟨fun _ => hk, fun _ => rfl⟩, ⟨fun hc => (by cases hc), fun hc => (by omega)⟩,
      ⟨fun hc => ?_, fun hc => (by omega)⟩⟩
    obtain ⟨a, ha⟩ := hc
    cases ha
  · have hk2 : ns.length + 1 ≤ d := by omega
    by_cases hs : ∃ s ∈ n :: ns, s < 1
    · have h := ctor_size_error (T := T) d n ns hk2 hs
      rw [h]
      refine ⟨⟨fun hc => (by cases hc), fun hc => absurd hc hk⟩, ⟨fun _ => ⟨hk2, hs⟩, fun _ => rfl⟩,
        ⟨fun hc => ?_, fun hc => ?_⟩⟩
      · obtain ⟨a, ha⟩ := hc
        cases ha
      · obtain ⟨s, hmem, hlt⟩ := hs
        have := hc.2 s hmem
        omega
    · have hpos : ∀ s ∈ n :: ns, 1 ≤ s := by
        intro s hmem
        by_contra hlt
        exact hs ⟨s, hmem, by omega⟩
      have h := ctor_eq (T := T) d n ns hk2 hpos
      rw [h]
      refine ⟨⟨fun hc => (by cases hc), fun hc => absurd hc hk⟩,
        ⟨fun hc => (by cases hc), fun hc => absurd hc.2 hs⟩, ⟨fun _ => ⟨hk2, hpos⟩, fun _ => ⟨_, rfl⟩⟩⟩

/-- C9 at work: with `d = 2`, three sizes are too many, a size 0 is rejected, and the
sizes `(3, 2)` are accepted. -/
theorem ctor_failure_kinds_witness :
    (1 ≤ 2) ∧
    (ctor 2 3 [1, 1] : Except Fault (dynamic_array Nat)) = .error (.raised .TooManySizes) ∧
    (ctor 2 3 [0] : Except Fault (dynamic_array Nat)) = .error (.raised .DimensionSizeError) ∧
    (∃ a : dynamic_array Nat, ctor 2 3 [2] = .ok a) :=
  ⟨by decide,
    (ctor_failure_kinds (T := Nat) 2 3 [1, 1] (by decide)).1.2 (by decide),
    (ctor_failure_kinds (T := Nat) 2 3 [0] (by decide)).2.1.2 ⟨by decide, 0, by simp, by decide⟩,
    (ctor_failure_kinds (T := Nat) 2 3 [2] (by decide)).2.2.2 ⟨by decide, by decide⟩⟩

/-- C10: a construction with dimension count `d` and `k` sizes, `1 <= k <= d`, all at
least 1, succeeds with `d` dimension sizes, the supplied ones followed by copies of the last
supplied one, and `length_of_dimension(j + 1)` reads the `j`-th of them back for every
`j < d`. -/
theorem ctor_broadcast {T : Type} [Inhabited T] (d : Nat) (n : Int) (ns : List Int)
    (hk : ns.length + 1 ≤ d) (hpos : ∀ s ∈ n :: ns, 1 ≤ s) :
    ∃ a : dynamic_array T, ctor d n ns = .ok a ∧
      a._n = (n :: ns).map Int.toNat ++
        List.replicate (d - (ns.length + 1)) ((n :: ns).getLast (by simp)).toNat ∧
      a._n = broadcast_sizes d n ns ∧
      a._n.length = d ∧
      a.dimensions = d ∧
      ∀ j, j < d → a.length_of_dimension (j + 1) = .ok ((broadcast_sizes d n ns).getD j 0) := by
  refine ⟨_, ctor_eq d n ns hk hpos, rfl, rfl, broadcast_sizes_length d n ns hk, rfl, ?_⟩
  intro j hj
  have hlen := broadcast_sizes_length d n ns hk
  unfold length_of_dimension
  simp only [_internal_init_items]
  rw [if_neg (by omega)]
  simp only [Nat.add_sub_cancel]
  rw [List.getElem?_eq_getElem (by omega), List.getD_eq_getElem _ _ (by omega)]

/-- C10 at work: `d = 3` with the single size 5 gives the sizes `(5, 5, 5)`, and `d = 4`
with the sizes `3, 2` gives `(3, 2, 2, 2)`, read back through `length_of_dimension`. -/
theorem ctor_broadcast_witness :
    (∃ a : dynamic_array Nat, ctor 3 5 [] = .ok a ∧ a._n = [5, 5, 5] ∧
      a.length_of_dimension 1 = .ok 5 ∧ a.length_of_dimension 2 = .ok 5 ∧
      a.length_of_dimension 3 = .ok 5) ∧
    (∃ a : dynamic_array Nat, ctor 4 3 [2] = .ok a ∧ a._n = [3, 2, 2, 2] ∧
      a.length_of_dimension 1 = .ok 3 ∧ a.length_of_dimension 2 = .ok 2 ∧
      a.length_of_dimension 3 = .ok 2 ∧ a.length_of_dimension 4 = .ok 2) := by
  constructor
  · obtain ⟨a, h1, _, h2, _, _, h3⟩ := ctor_broadcast (T := Nat) 3 5 [] (by decide) (by decide)
    exact ⟨a, h1, h2, h3 0 (by decide), h3 1 (by decide), h3 2 (by decide)⟩
  · obtain ⟨a, h1, _, h2, _, _, h3⟩ := ctor_broadcast (T := Nat) 4 3 [2] (by decide) (by decide)
    exact ⟨a, h1, h2, h3 0 (by decide), h3 1 (by decide), h3 2 (by decide), h3 3 (by decide)⟩

end ext

/-! ## Index flattening of `ext::dynamic_array` -/

namespace ext

namespace dynamic_array

variable {T : Type}

theorem row_major_offset_nil (dims : List Nat) : row_major_offset dims [] = 0 := by
  cases dims <;> rfl

theorem getElem?_append_length (pre : List Nat) (m : Nat) (ms : List Nat) :
    (pre ++ m :: ms)[pre.length]? = some m := by
  rw [List.getElem?_append_right (Nat.le_refl _)]
  simp

theorem size_t_wrap_lt (x : Nat) : size_t_wrap x < 2 ^ 64 :=
  Nat.mod_lt _ (by decide)

theorem calculate_index_rest_value :
    ∀ (ms pre : List Nat) (index r : Nat), index < 2 ^ 64 →
      _internal_calculate_index_rest (pre ++ ms) ms.length index pre.length = .ok r →
      r = (index * ms.prod) % 2 ^ 64 := by
  intro ms
  induction ms with
  | nil =>
    intro pre index r hlt h
    simp only [List.length_nil, _internal_calculate_index_rest] at h
    cases h
    rw [List.prod_nil, Nat.mul_one]
    exact (Nat.mod_eq_of_lt hlt).symm
  | cons m ms ih =>
    intro pre index r hlt h
    simp only [List.length_cons, _internal_calculate_index_rest] at h
    have hget := getElem?_append_length pre m ms
    simp only [hget] at h
    have h2 := ih (pre ++ [m]) (size_t_wrap (index * m)) r (size_t_wrap_lt _)
      (by simpa using h)
    rw [h2, List.prod_cons, size_t_wrap, Nat.mod_mul_mod, Nat.mul_assoc]

theorem calculate_index_loop_value :
    ∀ (is ms pre : List Nat) (index v c r : Nat), index < 2 ^ 64 →
      _internal_calculate_index_loop (pre ++ ms) is index false pre.length = .ok (v, c) →
      _internal_calculate_index_rest (pre ++ ms) ((pre ++ ms).length - c) v c = .ok r →
      r = (index * ms.prod + row_major_offset ms is) % 2 ^ 64 := by
  intro is
  induction is with
  | nil =>
    intro ms pre index v c r hlt h hr
    simp only [_internal_calculate_index_loop] at h
    cases h
    have hfuel : (pre ++ ms).length - pre.length = ms.length := by simp
    rw [hfuel] at hr
    rw [calculate_index_rest_value ms pre index r hlt hr, row_major_offset_nil, Nat.add_zero]
  | cons i is ih =>
    intro ms pre index v c r hlt h hr
    cases ms with
    | nil =>
      simp [_internal_calculate_index_loop] at h
    | cons m ms =>
      have hget := getElem?_append_length pre m ms
      simp only [_internal_calculate_index_loop, hget] at h
      by_cases him : i ≥ m
      · simp [him] at h
      · simp only [him, if_false, Bool.not_false, if_true] at h
        have hpre : pre ++ m :: ms = (pre ++ [m]) ++ ms := by simp
        have hlen : pre.length + 1 = (pre ++ [m]).length := by simp
        rw [hpre, hlen] at h
        rw [hpre] at hr
        have h2 := ih ms (pre ++ [m]) _ v c r (size_t_wrap_lt _) h hr
        rw [h2]
        simp only [row_major_offset, List.prod_cons, size_t_wrap]
        have e1 : (((index * m) % 2 ^ 64 + i) % 2 ^ 64 * ms.prod + row_major_offset ms is)
            % 2 ^ 64 = ((index * m + i) * ms.prod + row_major_offset ms is) % 2 ^ 64 := by
          apply Nat.ModEq.add_right
          apply Nat.ModEq.mul_right
          exact (Nat.mod_modEq _ _).trans (Nat.ModEq.add_right _ (Nat.mod_modEq _ _))
        rw [e1]
        congr 1
        ring

theorem calculate_index_value (a : dynamic_array T) (indices : List Nat) (v : Nat)
    (hd : a._n.length = a._d) (h : a._internal_calculate_index indices = .ok v) :
    v = row_major_offset a._n indices % 2 ^ 64 := by
  unfold _internal_calculate_index at h
  cases indices with
  | nil =>
    simp only [_internal_calculate_index_loop] at h
    rw [row_major_offset_nil]
    cases hn : a._n with
    | nil =>
      rw [hn] at hd
      rw [← hd] at h
      simp [_internal_calculate_index_rest] at h
      omega
    | cons n1 ms =>
      rw [hn] at hd h
      have hfuel : a._d - 1 = ms.length := by rw [← hd]; simp
      rw [hfuel] at h
      have := calculate_index_rest_value ms [n1] 0 v (by decide) (by simpa using h)
      simpa using this
  | cons i1 is =>
    cases hn : a._n with
    | nil => simp [hn, _internal_calculate_index_loop] at h
    | cons n1 ms =>
      cases ms with
      | nil => simp [hn, _internal_calculate_index_loop] at h
      | cons m ms =>
        rw [hn] at h hd
        simp only [_internal_calculate_index_loop] at h
        have hget : (n1 :: m :: ms)[1]? = some m := by simp
        simp only [hget] at h
        by_cases him : i1 ≥ m
        · simp [him] at h
        · simp only [him, if_false, Bool.not_true, Nat.zero_add] at h
          cases hloop : _internal_calculate_index_loop (n1 :: m :: ms) is
              (size_t_wrap i1) false 1 with
          | error e => simp [hloop] at h
          | ok p =>
            obtain ⟨v1, c⟩ := p
            simp only [hloop] at h
            rw [← hd] at h
            have := calculate_index_loop_value is (m :: ms) [n1] (size_t_wrap i1) v1 c v
              (size_t_wrap_lt _) (by simpa using hloop) (by simpa using h)
            rw [this]
            simp only [row_major_offset, size_t_wrap]
            exact Nat.ModEq.add_right _ (Nat.ModEq.mul_right _ (Nat.mod_modEq _ _))

theorem row_major_offset_lt :
    ∀ (dims indices : List Nat), (∀ m ∈ dims, 1 ≤ m) →
      (∀ p ∈ indices.zip dims, p.1 < p.2) → indices.length ≤ dims.length →
      row_major_offset dims indices < dims.prod := by
  intro dims
  induction dims with
  | nil =>
    intro indices _ _ hlen
    cases indices with
    | nil => simp [row_major_offset]
    | cons i is => simp at hlen
  | cons n ns ih =>
    intro indices hpos hvalid hlen
    have hprod : 0 < ns.prod := List.prod_pos (fun m hm => hpos m (List.mem_cons_of_mem _ hm))
    cases indices with
    | nil =>
      rw [row_major_offset_nil, List.prod_cons]
      exact Nat.mul_pos (hpos n (List.mem_cons_self _ _)) hprod
    | cons i is =>
      have hi : i < n := hvalid (i, n) (by simp)
      have hrec := ih is (fun m hm => hpos m (List.mem_cons_of_mem _ hm))
        (fun p hp => hvalid p (by simp [hp])) (by simpa using hlen)
      simp only [row_major_offset, List.prod_cons]
      calc i * ns.prod + row_major_offset ns is
          < i * ns.prod + ns.prod := by omega
        _ = (i + 1) * ns.prod := by ring
        _ ≤ n * ns.prod := Nat.mul_le_mul_right _ hi

theorem size_loop_value :
    ∀ (ms pre : List Nat) (acc : Nat), acc < 2 ^ 64 →
      forUp (fun i sz => size_t_wrap (sz * (pre ++ ms).getD i 0)) ms.length pre.length acc =
        (acc * ms.prod) % 2 ^ 64 := by
  intro ms
  induction ms with
  | nil =>
    intro pre acc hlt
    simp only [List.length_nil, forUp, List.prod_nil, Nat.mul_one]
    exact (Nat.mod_eq_of_lt hlt).symm
  | cons m ms ih =>
    intro pre acc hlt
    simp only [List.length_cons, forUp]
    have hget : (pre ++ m :: ms).getD pre.length 0 = m := by
      rw [List.getD_eq_getElem?_getD, getElem?_append_length]
      rfl
    rw [hget]
    have h2 := ih (pre ++ [m]) (size_t_wrap (acc * m)) (size_t_wrap_lt _)
    simp only [List.append_assoc, List.singleton_append, List.length_append,
      List.length_singleton] at h2
    rw [h2, List.prod_cons, size_t_wrap, Nat.mod_mul_mod, Nat.mul_assoc]

theorem broadcast_sizes_pos (d : Nat) (n : Int) (ns : List Int)
    (hpos : ∀ s ∈ n :: ns, 1 ≤ s) : ∀ m ∈ broadcast_sizes d n ns, 1 ≤ m := by
  intro m hm
  unfold broadcast_sizes at hm
  rcases List.mem_append.1 hm with h | h
  · obtain ⟨s, hs, rfl⟩ := List.mem_map.1 h
    have := hpos s hs
    omega
  · have := (List.mem_replicate.1 h).2
    have hl := hpos _ (List.getLast_mem (l := n :: ns) (by simp))
    omega

theorem ctor_ok_inv [Inhabited T] (d : Nat) (n : Int) (ns : List Int) (a : dynamic_array T)
    (h : ctor d n ns = .ok a) :
    ns.length + 1 ≤ d ∧ (∀ s ∈ n :: ns, 1 ≤ s) ∧ a._n = broadcast_sizes d n ns ∧ a._d = d ∧
    a._size = forUp (fun i sz => size_t_wrap (sz * (broadcast_sizes d n ns).getD i 0))
      (d - 1) 1 ((broadcast_sizes d n ns).getD 0 0) := by
  by_cases hk : d < ns.length + 1
  · rw [ctor_too_many_sizes d n ns hk] at h
    cases h
  · have hk2 : ns.length + 1 ≤ d := by omega
    by_cases hs : ∃ s ∈ n :: ns, s < 1
    · rw [ctor_size_error d n ns hk2 hs] at h
      cases h
    · have hpos : ∀ s ∈ n :: ns, 1 ≤ s := by
        intro s hmem
        by_contra hlt
        exact hs ⟨s, hmem, by omega⟩
      rw [ctor_eq d n ns hk2 hpos] at h
      cases h
      exact ⟨hk2, hpos, rfl, rfl, rfl⟩

theorem ctor_size_eq_prod [Inhabited T] (d : Nat) (n : Int) (ns : List Int)
    (a : dynamic_array T) (h : ctor d n ns = .ok a) (hprod : a._n.prod < 2 ^ 64) :
    a._size = a._n.prod := by
  obtain ⟨hk, hpos, hn, hd, hsize⟩ := ctor_ok_inv d n ns a h
  have hlen := broadcast_sizes_length d n ns hk
  have hB := broadcast_sizes_pos d n ns hpos
  rw [hsize, hn]
  rw [hn] at hprod
  cases hb : broadcast_sizes d n ns with
  | nil => rw [hb] at hlen; simp at hlen; omega
  | cons b ms =>
    rw [hb] at hlen hprod hB
    have hfuel : d - 1 = ms.length := by rw [← hlen]; simp
    have hms : 0 < ms.prod := List.prod_pos (fun m hm => hB m (List.mem_cons_of_mem _ hm))
    have hb1 : b < 2 ^ 64 := by
      rw [List.prod_cons] at hprod
      calc b = b * 1 := (Nat.mul_one b).symm
        _ ≤ b * ms.prod := Nat.mul_le_mul_left _ hms
        _ < 2 ^ 64 := hprod
    have := size_loop_value ms [b] b hb1
    simp only [List.singleton_append, List.length_singleton] at this
    rw [hfuel]
    simp only [List.getD_cons_zero]
    rw [this, ← List.prod_cons, Nat.mod_eq_of_lt hprod]

theorem calculate_index_loop_count :
    ∀ (is _n : List Nat) (index count v c : Nat),
      _internal_calculate_index_loop _n is index false count = .ok (v, c) →
      c = count + is.length ∧ (is ≠ [] → c ≤ _n.length) := by
  intro is
  induction is with
  | nil =>
    intro _n index count v c h
    simp only [_internal_calculate_index_loop] at h
    cases h
    simp
  | cons i is ih =>
    intro _n index count v c h
    simp only [_internal_calculate_index_loop] at h
    cases hget : _n[count]? with
    | none => simp [hget] at h
    | some dim =>
      simp only [hget] at h
      by_cases him : i ≥ dim
      · simp [him] at h
      · simp only [him, if_false, Bool.not_false, if_true] at h
        have hc := ih _n _ (count + 1) v c h
        have hlt : count < _n.length := by
          by_contra hge
          rw [List.getElem?_eq_none (by omega)] at hget
          cases hget
        refine ⟨by simp only [List.length_cons]; omega, fun _ => ?_⟩
        cases is with
        | nil => simp only [List.length_nil] at hc; omega
        | cons j js => exact hc.2 (by simp)

theorem calculate_index_loop_append :
    ∀ (is zs _n : List Nat) (index count : Nat),
      _internal_calculate_index_loop _n (is ++ zs) index false count =
        match _internal_calculate_index_loop _n is index false count with
        | .ok (v, c) => _internal_calculate_index_loop _n zs v false c
        | .error e => .error e := by
  intro is
  induction is with
  | nil => intro zs _n index count; simp [_internal_calculate_index_loop]
  | cons i is ih =>
    intro zs _n index count
    simp only [List.cons_append, _internal_calculate_index_loop]
    cases hget : _n[count]? with
    | none => simp
    | some dim =>
      simp only []
      by_cases him : i ≥ dim
      · simp [him]
      · simp only [him, if_false, Bool.not_false, if_true]
        exact ih zs _n _ _

theorem calculate_index_loop_zeros :
    ∀ (ms pre : List Nat) (index r : Nat), (∀ m ∈ ms, 1 ≤ m) →
      _internal_calculate_index_rest (pre ++ ms) ms.length index pre.length = .ok r →
      _internal_calculate_index_loop (pre ++ ms) (List.replicate ms.length 0) index false
        pre.length = .ok (r, pre.length + ms.length) := by
  intro ms
  induction ms with
  | nil =>
    intro pre index r _ h
    simp only [List.length_nil, _internal_calculate_index_rest] at h
    cases h
    simp [_internal_calculate_index_loop]
  | cons m ms ih =>
    intro pre index r hpos h
    have hget := getElem?_append_length pre m ms
    simp only [List.length_cons, _internal_calculate_index_rest, hget] at h
    have hm : ¬ 0 ≥ m := by have := hpos m (List.mem_cons_self _ _); omega
    simp only [List.length_cons, List.replicate_succ, _internal_calculate_index_loop, hget, hm,
      if_false, Bool.not_false, if_true]
    have hw : size_t_wrap (size_t_wrap (index * m) + 0) = size_t_wrap (index * m) := by
      simp [size_t_wrap]
    rw [hw]
    have hpre : pre ++ m :: ms = (pre ++ [m]) ++ ms := by simp
    have hlen : pre.length + 1 = (pre ++ [m]).length := by simp
    rw [hpre, hlen] at h ⊢
    rw [ih (pre ++ [m]) _ r (fun x hx => hpos x (List.mem_cons_of_mem _ hx)) h]
    simp [Nat.add_assoc, Nat.add_comm 1]

theorem calculate_index_padded (a : dynamic_array T) (indices : List Nat) (v : Nat)
    (hd : a._n.length = a._d) (hpos : ∀ m ∈ a._n, 1 ≤ m) (hne : indices ≠ [])
    (h : a._internal_calculate_index indices = .ok v) :
    a._internal_calculate_index (indices ++ List.replicate (a._d - indices.length) 0) =
      .ok v := by
  cases indices with
  | nil => exact absurd rfl hne
  | cons i1 is =>
    rw [List.cons_append]
    unfold _internal_calculate_index at h ⊢
    simp only [_internal_calculate_index_loop] at h ⊢
    cases hget : a._n[1]? with
    | none => simp [hget] at h
    | some dim =>
      simp only [hget] at h ⊢
      by_cases him : i1 ≥ dim
      · simp [him] at h
      · simp only [him, if_false, Bool.not_true, Nat.zero_add, Bool.false_eq_true] at h ⊢
        rw [calculate_index_loop_append]
        cases hloop : _internal_calculate_index_loop a._n is (size_t_wrap i1) false 1 with
        | error e => simp [hloop] at h
        | ok p =>
          obtain ⟨v1, c⟩ := p
          simp only [hloop] at h ⊢
          obtain ⟨hc, hcle⟩ := calculate_index_loop_count is a._n _ 1 v1 c hloop
          have hc_le : c ≤ a._n.length := by
            cases is with
            | nil =>
              simp only [List.length_nil] at hc
              have : 1 < a._n.length := by
                by_contra hge
                rw [List.getElem?_eq_none (by omega)] at hget
                cases hget
              omega
            | cons j js => exact hcle (by simp)
          have hsplit : a._n = a._n.take c ++ a._n.drop c := (List.take_append_drop c a._n).symm
          have htake : (a._n.take c).length = c := by simp; omega
          have hdrop : (a._n.drop c).length = a._d - c := by simp [hd]
          have hz : a._d - (is.length + 1) = (a._n.drop c).length := by rw [hdrop, hc]; omega
          simp only [List.length_cons]
          rw [hz]
          have hrest : _internal_calculate_index_rest (a._n.take c ++ a._n.drop c)
              (a._n.drop c).length v1 (a._n.take c).length = .ok v := by
            rw [← hsplit, hdrop, htake]; exact h
          have hz2 := calculate_index_loop_zeros (a._n.drop c) (a._n.take c) v1 v
            (fun m hm => hpos m (List.mem_of_mem_drop hm)) hrest
          rw [← hsplit, htake] at hz2
          rw [hz2]
          have hfin : a._d - (c + (a._n.drop c).length) = 0 := by rw [hdrop]; omega
          simp only [hfin, _internal_calculate_index_rest]

end dynamic_array

open dynamic_array

/-- C4, evaluated on the code: the first index is checked against `_n[1]`, the size of the
second dimension. On the dimensions `(2, 4)` the call `at(2, 0)` has its first index out of
range (2 is not below 2), yet it returns the offset 8, one past the 8 slots of the buffer,
instead of failing with `IndexOutOfRange`. -/
theorem at_accepts_first_index_out_of_range :
    ∃ a : dynamic_array Nat, ctor 2 2 [4] = .ok a ∧ a._n = [2, 4] ∧ a._size = 8 ∧
      a.at_ [2, 0] = .ok 8 ∧ a.at_ [2, 0] ≠ .error (.raised .IndexOutOfRange) :=
  ⟨_, rfl, rfl, rfl, rfl, fun h => by cases h⟩

/-- C5, evaluated on the code: on the dimensions `(4, 2, 2)` the index tuple `(3, 0, 0)` is
in range and its row-major offset is 12, yet `at(3, 0, 0)` fails with `IndexOutOfRange`
because the first index is checked against `_n[1] = 2`; on a one-dimensional array the
check reads `_n[1]`, outside the block of sizes. -/
theorem at_rejects_valid_first_index :
    (∃ a : dynamic_array Nat, ctor 3 4 [2, 2] = .ok a ∧ a._n = [4, 2, 2] ∧
      (∀ p ∈ [3, 0, 0].zip a._n, p.1 < p.2) ∧ row_major_offset a._n [3, 0, 0] = 12 ∧
      a.at_ [3, 0, 0] = .error (.raised .IndexOutOfRange)) ∧
    (∃ a : dynamic_array Nat, ctor 1 5 [] = .ok a ∧ a._n = [5] ∧
      a.at_ [2] = .error .undefined) :=
  ⟨⟨_, rfl, rfl, by decide, rfl, rfl⟩, ⟨_, rfl, rfl, rfl⟩⟩

/-- C6 as stated fails: on the dimensions `(2 ^ 33, 2 ^ 33)` the index calculation
returns 0 for the tuple `(2 ^ 31, 0)`, whose row-major offset is `2 ^ 64`. -/
theorem calculate_index_wraps :
    ∃ a : dynamic_array Nat, ctor 2 (2 ^ 33) [] = .ok a ∧ a._n = [2 ^ 33, 2 ^ 33] ∧
      a._internal_calculate_index [2 ^ 31, 0] = .ok 0 ∧
      row_major_offset a._n [2 ^ 31, 0] = 2 ^ 64 ∧
      ¬ (∀ v, a._internal_calculate_index [2 ^ 31, 0] = .ok v →
          v = row_major_offset a._n [2 ^ 31, 0]) := by
  refine ⟨_, rfl, by decide, rfl, by decide, ?_⟩
  intro h
  have := h 0 rfl
  revert this
  decide

/-- C6, amended: whenever the index calculation returns a value for `k <= D` supplied
indices, the value is the row-major offset of the tuple reduced modulo `2 ^ 64`, hence the
offset itself when that is below `2 ^ 64`; when all sizes are at least 1 the calculation
returns the same value for the tuple padded with zeros for the omitted dimensions, and the
padded tuple has the same row-major offset. -/
theorem calculate_index_row_major {T : Type} (a : dynamic_array T) (indices : List Nat)
    (v : Nat) (hd : a._n.length = a._d) (_hk : indices.length ≤ a._d)
    (h : a._internal_calculate_index indices = .ok v) :
    v = row_major_offset a._n indices % 2 ^ 64 ∧
    (row_major_offset a._n indices < 2 ^ 64 → v = row_major_offset a._n indices) ∧
    ((∀ m ∈ a._n, 1 ≤ m) → indices ≠ [] →
      a._internal_calculate_index (indices ++ List.replicate (a._d - indices.length) 0) =
        .ok v) ∧
    row_major_offset a._n (indices ++ List.replicate (a._d - indices.length) 0) =
      row_major_offset a._n indices := by
  have hv := calculate_index_value a indices v hd h
  refine ⟨hv, fun hlt => by rw [hv, Nat.mod_eq_of_lt hlt],
    fun hpos hne => calculate_index_padded a indices v hd hpos hne h, ?_⟩
  clear hv h _hk hd
  generalize a._d - indices.length = z
  generalize a._n = dims
  induction indices generalizing dims with
  | nil =>
    rw [row_major_offset_nil, List.nil_append]
    induction z generalizing dims with
    | zero => exact row_major_offset_nil dims
    | succ z ih =>
      cases dims with
      | nil => rfl
      | cons n ns => simp [List.replicate_succ, row_major_offset, ih ns]
  | cons i is ih =>
    cases dims with
    | nil => rfl
    | cons n ns => simp [row_major_offset, ih ns]

/-- C6, amended, at work: on the dimensions `(4, 2, 2)` the index `(1, 0, 1)` gives 5. -/
theorem calculate_index_row_major_witness :
    ∃ a : dynamic_array Nat, ctor 3 4 [2, 2] = .ok a ∧ a._n = [4, 2, 2] ∧
      a._internal_calculate_index [1, 0, 1] = .ok 5 ∧
      5 = row_major_offset a._n [1, 0, 1] := by
  refine ⟨_, rfl, rfl, rfl, ?_⟩
  refine (calculate_index_row_major (T := Nat) _ [1, 0, 1] 5 ?_ ?_ ?_).2.1 ?_
  · rfl
  · decide
  · rfl
  · decide

/-- C7 as stated fails: the dimensions `(2 ^ 32, 2 ^ 32)` are all at least 1, the
construction succeeds with `total_size = 0` because the product wraps, and the valid tuple
`(0, 0)` is flattened to 0, which is not below `total_size`. -/
theorem flattened_index_outside_wrapped_size :
    ∃ a : dynamic_array Nat, ctor 2 (2 ^ 32) [] = .ok a ∧ a._n = [2 ^ 32, 2 ^ 32] ∧
      (∀ p ∈ [0, 0].zip a._n, p.1 < p.2) ∧ a._size = 0 ∧
      a.at_ [0, 0] = .ok 0 ∧ a.operator_index [0, 0] = .ok 0 ∧ ¬ 0 < a._size :=
  ⟨_, rfl, by decide, by decide, by decide, rfl, rfl, by decide⟩

/-- C7, amended: for an array constructed with `D >= 1` dimension sizes, each at least 1,
whose product is below `2 ^ 64`, `total_size` is that product, and every flattened index
that `at` or `operator[]` computes from a valid tuple of `k <= D` indices is the row-major
offset of the tuple and lies below `total_size`. -/
theorem flattened_index_lt_size {T : Type} [Inhabited T] (d : Nat) (n : Int) (ns : List Int)
    (a : dynamic_array T) (indices : List Nat) (v : Nat)
    (hctor : ctor d n ns = .ok a) (hprod : a._n.prod < 2 ^ 64)
    (hk : indices.length ≤ a._d) (hvalid : ∀ p ∈ indices.zip a._n, p.1 < p.2)
    (h : a.at_ indices = .ok v ∨ a.operator_index indices = .ok v) :
    1 ≤ a._d ∧ (∀ m ∈ a._n, 1 ≤ m) ∧ a._size = a._n.prod ∧
    v = row_major_offset a._n indices ∧ v < a._size := by
  obtain ⟨hks, hpos, hn, hd, _⟩ := ctor_ok_inv d n ns a hctor
  have hlen : a._n.length = a._d := by rw [hn, hd]; exact broadcast_sizes_length d n ns hks
  have hB : ∀ m ∈ a._n, 1 ≤ m := by rw [hn]; exact broadcast_sizes_pos d n ns hpos
  have hsize := ctor_size_eq_prod d n ns a hctor hprod
  have hcalc : a._internal_calculate_index indices = .ok v := by
    rcases h with h | h
    · unfold dynamic_array.at_ at h
      rw [if_neg (by omega)] at h
      exact h
    · exact h
  have hlt := row_major_offset_lt a._n indices hB hvalid (by omega)
  have hv := calculate_index_value a indices v hlen hcalc
  rw [Nat.mod_eq_of_lt (Nat.lt_trans hlt hprod)] at hv
  exact ⟨by omega, hB, hsize, hv, by rw [hv, hsize]; exact hlt⟩

/-- C7, amended, at work: on the dimensions `(4, 2, 2)`, with 16 slots, the tuple
`(1, 0, 1)` is flattened to 5. -/
theorem flattened_index_lt_size_witness :
    ∃ a : dynamic_array Nat, ctor 3 4 [2, 2] = .ok a ∧ a._size = 16 ∧
      a.at_ [1, 0, 1] = .ok 5 ∧ 5 < a._size := by
  refine ⟨_, rfl, rfl, rfl, ?_⟩
  refine (flattened_index_lt_size (T := Nat) 3 4 [2, 2] _ [1, 0, 1] 5 ?_ ?_ ?_ ?_ ?_).2.2.2.2
  · rfl
  · decide
  · decide
  · decide
  · exact Or.inl rfl

end ext

/-! ## Slots of `ext::dynamic_array` -/

namespace ext

theorem forUp_fill {T : Type} (body : Nat → (Nat → Option T) → Nat → Option T) (v : Option T)
    (h : ∀ i b j, body i b j = if j = i then v else b j) :
    ∀ (fuel lo : Nat) (b : Nat → Option T) (j : Nat),
      forUp body fuel lo b j = if lo ≤ j ∧ j < lo + fuel then v else b j := by
  intro fuel
  induction fuel with
  | zero =>
    intro lo b j
    have : ¬ (lo ≤ j ∧ j < lo + 0) := by omega
    simp only [forUp, this, if_false]
  | succ k ih =>
    intro lo b j
    show forUp body k (lo + 1) (body lo b) j = _
    rw [ih (lo + 1) (body lo b) j, h lo b j]
    by_cases h1 : lo + 1 ≤ j ∧ j < lo + 1 + k
    · rw [if_pos h1, if_pos (by omega)]
    · rw [if_neg h1]
      by_cases h2 : j = lo
      · rw [if_pos h2, if_pos (by omega)]
      · rw [if_neg h2, if_neg (by omega)]

theorem clear_body_eq {T : Type} (X : Traits) (v : Option T) (i : Nat) (b : Nat → Option T)
    (j : Nat) :
    construct_at (if X.is_trivially_destructible then b else destroy_at b i) i v j =
      if j = i then v else b j := by
  unfold construct_at
  by_cases hj : j = i
  · simp [hj]
  · simp only [hj, if_false]
    split
    · rfl
    · simp [destroy_at, hj]

namespace dynamic_array

variable {T : Type}

theorem ctor_ok_buffer [Inhabited T] (d : Nat) (n : Int) (ns : List Int) (a : dynamic_array T)
    (h : ctor d n ns = .ok a) :
    ∀ j, a.buffer j = if j < a._size then some default else none := by
  obtain ⟨hk, hpos, _, _, _⟩ := ctor_ok_inv d n ns a h
  rw [ctor_eq d n ns hk hpos] at h
  cases h
  intro j
  simp only [_internal_init_items]
  rw [forUp_fill (fun i b => construct_at b i (some default)) (some default)
    (fun i b j => rfl)]
  by_cases hj : j < forUp (fun i sz => size_t_wrap (sz * (broadcast_sizes d n ns).getD i 0))
      (d - 1) 1 ((broadcast_sizes d n ns).getD 0 0)
  · rw [if_pos hj, if_pos (by omega)]
  · rw [if_neg hj, if_neg (by omega)]

theorem ctor_size_mod [Inhabited T] (d : Nat) (n : Int) (ns : List Int) (a : dynamic_array T)
    (h : ctor d n ns = .ok a) (hn : n < 2 ^ 64) : a._size = a._n.prod % 2 ^ 64 := by
  obtain ⟨hk, hpos, hn2, hd, hsize⟩ := ctor_ok_inv d n ns a h
  have hlen := broadcast_sizes_length d n ns hk
  rw [hsize, hn2]
  have hb : broadcast_sizes d n ns =
      n.toNat :: (ns.map Int.toNat ++
        List.replicate (d - (ns.length + 1)) ((n :: ns).getLast (by simp)).toNat) := by
    simp [broadcast_sizes]
  rw [hb] at hlen ⊢
  generalize ns.map Int.toNat ++
    List.replicate (d - (ns.length + 1)) ((n :: ns).getLast (by simp)).toNat = ms at hlen ⊢
  have hfuel : d - 1 = ms.length := by rw [← hlen]; simp
  have hb1 : n.toNat < 2 ^ 64 := by omega
  have := size_loop_value ms [n.toNat] n.toNat hb1
  simp only [List.singleton_append, List.length_singleton] at this
  rw [hfuel]
  simp only [List.getD_cons_zero]
  rw [this, List.prod_cons]

theorem clear_at_block [Inhabited T] (X : Traits) (a : dynamic_array T) (indices : List Nat)
    (o : Nat) (hd : a._n.length = a._d) (hk : indices.length ≤ a._d)
    (hcalc : a._internal_calculate_index indices = .ok o)
    (hfit : o + (a._n.drop indices.length).prod < 2 ^ 64) :
    ∃ r, a.clear_at X indices = .ok r ∧ r._n = a._n ∧ r._d = a._d ∧ r._size = a._size ∧
      ∀ j, r.buffer j =
        if o ≤ j ∧ j < o + (a._n.drop indices.length).prod then some default
        else a.buffer j := by
  have hoff : forUp (fun i (off : Nat) => size_t_wrap (off * a._n.getD i 0))
      (a._d - indices.length) indices.length 1 = (a._n.drop indices.length).prod := by
    have hsplit : a._n = a._n.take indices.length ++ a._n.drop indices.length :=
      (List.take_append_drop _ _).symm
    have htake : (a._n.take indices.length).length = indices.length := by simp; omega
    have hdrop : (a._n.drop indices.length).length = a._d - indices.length := by simp [hd]
    have := size_loop_value (a._n.drop indices.length) (a._n.take indices.length) 1 (by decide)
    rw [← hsplit, htake, hdrop, Nat.one_mul, Nat.mod_eq_of_lt (by omega)] at this
    exact this
  unfold clear_at _internal_clear_items_at
  simp only [hcalc, hoff]
  refine ⟨_, rfl, rfl, rfl, rfl, ?_⟩
  intro j
  simp only []
  rw [forUp_fill _ (some default) (fun i b j => clear_body_eq X (some default) i b j),
    size_t_wrap, Nat.mod_eq_of_lt hfit, Nat.add_sub_cancel_left]

theorem row_major_offset_add_block_le :
    ∀ (dims indices : List Nat), (∀ m ∈ dims, 1 ≤ m) →
      (∀ p ∈ indices.zip dims, p.1 < p.2) → indices.length ≤ dims.length →
      row_major_offset dims indices + (dims.drop indices.length).prod ≤ dims.prod := by
  intro dims
  induction dims with
  | nil =>
    intro indices _ _ hlen
    cases indices with
    | nil => simp [row_major_offset]
    | cons i is => simp at hlen
  | cons n ns ih =>
    intro indices hpos hvalid hlen
    cases indices with
    | nil => simp [row_major_offset_nil]
    | cons i is =>
      have hi : i < n := hvalid (i, n) (by simp)
      have hrec := ih is (fun m hm => hpos m (List.mem_cons_of_mem _ hm))
        (fun p hp => hvalid p (by simp [hp])) (by simpa using hlen)
      simp only [row_major_offset, List.prod_cons, List.length_cons, List.drop_succ_cons]
      calc i * ns.prod + row_major_offset ns is + (ns.drop is.length).prod
          ≤ i * ns.prod + ns.prod := by omega
        _ = (i + 1) * ns.prod := by ring
        _ ≤ n * ns.prod := Nat.mul_le_mul_right _ hi

/-- On an array whose sizes are at least 1 and multiply to less than `2 ^ 64`, a partial
clear whose index calculation accepts a valid prefix of `k < D` indices re-defaults
exactly the block of the product of the sizes `k + 1 .. D` that starts at the row-major
offset of the prefix, and changes neither another slot nor the sizes. -/
theorem clear_at_valid_prefix [Inhabited T] (X : Traits) (a : dynamic_array T)
    (indices : List Nat) (o : Nat) (hd : a._n.length = a._d) (hpos : ∀ m ∈ a._n, 1 ≤ m)
    (hprod : a._n.prod < 2 ^ 64) (hk : indices.length < a._d)
    (hvalid : ∀ p ∈ indices.zip a._n, p.1 < p.2)
    (hcalc : a._internal_calculate_index indices = .ok o) :
    o = row_major_offset a._n indices ∧
    o + (a._n.drop indices.length).prod ≤ a._n.prod ∧
    ∃ r, a.clear_at X indices = .ok r ∧ r._n = a._n ∧ r._d = a._d ∧ r._size = a._size ∧
      ∀ j, r.buffer j =
        if o ≤ j ∧ j < o + (a._n.drop indices.length).prod then some default
        else a.buffer j := by
  have hle := row_major_offset_add_block_le a._n indices hpos hvalid (by omega)
  have hlt := row_major_offset_lt a._n indices hpos hvalid (by omega)
  have hv := calculate_index_value a indices o hd hcalc
  rw [Nat.mod_eq_of_lt (Nat.lt_trans hlt hprod)] at hv
  rw [← hv] at hle
  exact ⟨hv, hle, clear_at_block X a indices o hd (by omega) hcalc (by omega)⟩

theorem clear_all [Inhabited T] (X : Traits) (a : dynamic_array T) :
    (a.clear X)._n = a._n ∧ (a.clear X)._d = a._d ∧ (a.clear X)._size = a._size ∧
    ∀ j, (a.clear X).buffer j = if j < a._size then some default else a.buffer j := by
  refine ⟨rfl, rfl, rfl, fun j => ?_⟩
  show forUp _ a._size 0 a.buffer j = _
  rw [forUp_fill _ (some default) (fun i b j => clear_body_eq X (some default) i b j)]
  by_cases hj : j < a._size
  · rw [if_pos hj, if_pos (by omega)]
  · rw [if_neg hj, if_neg (by omega)]

end dynamic_array

open dynamic_array

/-- C11 as stated fails: the construction with the sizes `(2 ^ 32, 2 ^ 32)` succeeds and
`size()` is 0, while the product of the two sizes is `2 ^ 64`. -/
theorem size_differs_from_product :
    ∃ a : dynamic_array Nat, ctor 2 (2 ^ 32) [] = .ok a ∧ a._n = [2 ^ 32, 2 ^ 32] ∧
      a.size = 0 ∧ a._n.prod = 2 ^ 64 ∧ a.size ≠ a._n.prod :=
  ⟨_, rfl, by decide, by decide, by decide, by decide⟩

/-- C11, amended: after a successful construction with `D >= 1` and sizes that fit a 64-bit
integer, `size()` is the product of the `D` broadcast sizes reduced modulo `2 ^ 64`, hence
the product itself when that is below `2 ^ 64`, and each of the `size()` slots holds the
default value of the element type. -/
theorem ctor_size_and_slots {T : Type} [Inhabited T] (d : Nat) (n : Int) (ns : List Int)
    (a : dynamic_array T) (hctor : ctor d n ns = .ok a) (hn : n < 2 ^ 64) :
    1 ≤ a.dimensions ∧ a._n = broadcast_sizes d n ns ∧ a._n.length = a.dimensions ∧
    a.size = a._n.prod % 2 ^ 64 ∧
    (a._n.prod < 2 ^ 64 → a.size = a._n.prod) ∧
    ∀ j, j < a.size → a.buffer j = some default := by
  obtain ⟨hk, _, hn2, hd, _⟩ := ctor_ok_inv d n ns a hctor
  have hmod := ctor_size_mod d n ns a hctor hn
  refine ⟨?_, hn2, ?_, hmod, fun h => ?_, fun j hj => ?_⟩
  · show 1 ≤ a._d
    omega
  · show a._n.length = a._d
    rw [hn2, hd]; exact broadcast_sizes_length d n ns hk
  · show a._size = _
    rw [hmod, Nat.mod_eq_of_lt h]
  · have hj2 : j < a._size := hj
    rw [ctor_ok_buffer d n ns a hctor j, if_pos hj2]

/-- C11, amended, at work: `D = 3` with the single size 5 gives 125 slots, all default. -/
theorem ctor_size_and_slots_witness :
    ∃ a : dynamic_array Nat, ctor 3 5 [] = .ok a ∧ a.size = 125 ∧
      ∀ j, j < a.size → a.buffer j = some 0 := by
  refine ⟨_, rfl, rfl, ?_⟩
  refine (ctor_size_and_slots (T := Nat) 3 5 [] _ ?_ ?_).2.2.2.2.2
  · rfl
  · decide

/-- C12, evaluated on the code: on the dimensions `(4, 2, 2)` the prefix `(3)` is valid
(3 is below 4 and one index is fewer than three dimensions), yet `clear(3)` fails with
`IndexOutOfRange` and clears nothing, because the first index is checked against
`_n[1] = 2`; the prefix `(1)` passes that check and `clear(1)` re-defaults exactly the
offsets 4 to 7. -/
theorem clear_at_rejects_valid_prefix :
    ∃ a : dynamic_array Nat, ctor 3 4 [2, 2] = .ok a ∧ a._n = [4, 2, 2] ∧
      (∀ p ∈ [3].zip a._n, p.1 < p.2) ∧
      row_major_offset a._n [3] = 12 ∧
      clear_at Traits.scalar { a with buffer := fun j => some (j + 100) } [3] =
        .error (.raised .IndexOutOfRange) ∧
      ∃ r, clear_at Traits.scalar { a with buffer := fun j => some (j + 100) } [1] = .ok r ∧
        r._n = [4, 2, 2] ∧
        ∀ j, j < 16 → r.buffer j = if 4 ≤ j ∧ j < 8 then some 0 else some (j + 100) :=
  ⟨_, rfl, rfl, by decide, rfl, rfl, _, rfl, rfl, by decide⟩

end ext

/-! ## The growth factor in double precision -/

namespace ext

theorem growth_le_double (n : Nat) (hn : n < 2 ^ 62) : growth n ≤ 2 * n := by
  obtain ⟨_, hU1⟩ := rne53_bounds n
  obtain ⟨_, hU2⟩ := rne53_bounds (rne53 n * growth_factor_significand)
  unfold growth size_t_wrap
  unfold growth_factor_significand at hU2 ⊢
  generalize rne53 (rne53 n * 7205759403792794) = y at hU2
  generalize rne53 n = x at hU1 hU2
  have hy : y < (2 * n + 1) * 2 ^ 52 := by omega
  have hg : y / 2 ^ 52 < 2 * n + 1 := (Nat.div_lt_iff_lt_mul (by decide)).2 hy
  rw [Nat.mod_eq_of_lt (by omega)]
  omega

end ext

/-! ## Elements of `ext::vector` -/

namespace ext

theorem forUp_inv {σ : Type} (body : Nat → σ → σ) (P : Nat → σ → Prop) :
    ∀ (fuel lo : Nat) (s : σ), P lo s →
      (∀ i s, lo ≤ i → i < lo + fuel → P i s → P (i + 1) (body i s)) →
      P (lo + fuel) (forUp body fuel lo s) := by
  intro fuel
  induction fuel with
  | zero => intro lo s h _; exact h
  | succ k ih =>
    intro lo s h hstep
    have e : lo + (k + 1) = lo + 1 + k := by omega
    rw [e]
    exact ih (lo + 1) (body lo s) (hstep lo s (Nat.le_refl _) (by omega) h)
      (fun i s h1 h2 hp => hstep i s (by omega) (by omega) hp)

theorem forDown_inv {σ : Type} (body : Nat → σ → σ) (P : Nat → σ → Prop) :
    ∀ (fuel hi : Nat) (s : σ), fuel ≤ hi → P hi s →
      (∀ i s, hi - fuel < i → i ≤ hi → P i s → P (i - 1) (body i s)) →
      P (hi - fuel) (forDown body fuel hi s) := by
  intro fuel
  induction fuel with
  | zero => intro hi s _ h _; exact h
  | succ k ih =>
    intro hi s hle h hstep
    have e : hi - (k + 1) = hi - 1 - k := by omega
    rw [e]
    exact ih (hi - 1) (body hi s) (by omega) (hstep hi s (by omega) (Nat.le_refl _) h)
      (fun i s h1 h2 hp => hstep i s (by omega) (by omega) hp)

namespace vector

variable {T : Type}

theorem items_length (v : vector T) : v.items.length = v.item_counter := by
  simp [items]

theorem items_getElem? (v : vector T) (j : Nat) :
    v.items[j]? = if j < v.item_counter then some (v.buffer j) else none := by
  unfold items
  rw [List.getElem?_map]
  by_cases hj : j < v.item_counter
  · rw [if_pos hj, List.getElem?_range hj]; rfl
  · rw [if_neg hj, List.getElem?_eq_none (by simpa using hj)]; rfl

theorem internal_simple_copy_spec (X : Traits) (self dst : vector T)
    (h : dst.item_counter + self.item_counter < 2 ^ 64) :
    (internal_simple_copy X self dst).2.item_counter = dst.item_counter + self.item_counter ∧
    (internal_simple_copy X self dst).2.buffer_size = dst.buffer_size ∧
    ∀ j, (internal_simple_copy X self dst).2.buffer j =
      if dst.item_counter ≤ j ∧ j < dst.item_counter + self.item_counter then
        self.buffer (j - dst.item_counter)
      else dst.buffer j := by
  have key := forUp_inv
    (fun i (p : vector T × vector T) =>
      if X.is_nothrow_move_constructible then
        ({ p.1 with buffer := moved_from_at p.1.buffer i },
          internal_move_back p.2 (p.1.buffer i))
      else
        (p.1, internal_push_back p.2 (p.1.buffer i)))
    (fun i (p : vector T × vector T) =>
      p.2.item_counter = dst.item_counter + i ∧ p.2.buffer_size = dst.buffer_size ∧
      (∀ j, i ≤ j → p.1.buffer j = self.buffer j) ∧
      ∀ j, p.2.buffer j =
        if dst.item_counter ≤ j ∧ j < dst.item_counter + i then
          self.buffer (j - dst.item_counter)
        else dst.buffer j)
    self.item_counter 0 (self, dst)
    ⟨rfl, rfl, fun j _ => rfl, fun j => by
      have : ¬ (dst.item_counter ≤ j ∧ j < dst.item_counter + 0) := by omega
      simp only [this, if_false]⟩
    (by
      intro i p _ hi ⟨hc, hcap, hsrc, hbuf⟩
      have hread : p.1.buffer i = self.buffer i := hsrc i (Nat.le_refl _)
      have hwrap : size_t_wrap (p.2.item_counter + 1) = dst.item_counter + (i + 1) := by
        rw [size_t_wrap, Nat.mod_eq_of_lt (by omega), hc]; omega
      have hnew : ∀ j, construct_at p.2.buffer p.2.item_counter (p.1.buffer i) j =
          if dst.item_counter ≤ j ∧ j < dst.item_counter + (i + 1) then
            self.buffer (j - dst.item_counter)
          else dst.buffer j := by
        intro j
        unfold construct_at
        by_cases hj : j = p.2.item_counter
        · rw [if_pos hj, if_pos (by omega), hread, hj, hc]
          congr 1
          omega
        · rw [if_neg hj, hbuf j]
          by_cases hj2 : dst.item_counter ≤ j ∧ j < dst.item_counter + i
          · rw [if_pos hj2, if_pos (by omega)]
          · rw [if_neg hj2, if_neg (by omega)]
      by_cases hX : X.is_nothrow_move_constructible = true
      · simp only [hX, if_true]
        refine ⟨hwrap, hcap, fun j hj => ?_, hnew⟩
        show moved_from_at p.1.buffer i j = _
        unfold moved_from_at
        rw [if_neg (by omega)]
        exact hsrc j (by omega)
      · simp only [hX, if_false]
        exact ⟨hwrap, hcap, fun j hj => hsrc j (by omega), hnew⟩)
  simp only [Nat.zero_add] at key
  exact ⟨key.1, key.2.1, key.2.2.2⟩

theorem internal_resize_spec (X : Traits) (self : vector T) (newSize : Nat)
    (h : self.item_counter < 2 ^ 64) :
    (internal_resize X self newSize).item_counter = self.item_counter ∧
    (internal_resize X self newSize).buffer_size = EXT_VECTOR_SIZE newSize ∧
    ∀ j, (internal_resize X self newSize).buffer j =
      if j < self.item_counter then self.buffer j else none := by
  obtain ⟨h1, h2, h3⟩ := internal_simple_copy_spec X self (ctor_size newSize)
    (by simpa [ctor_size] using h)
  refine ⟨by simpa [internal_resize, swap, ctor_size] using h1,
    by simpa [internal_resize, swap, ctor_size] using h2, fun j => ?_⟩
  have := h3 j
  simp only [ctor_size, Nat.zero_add, Nat.zero_le, true_and, Nat.sub_zero,
    EXT_VECTOR_BUFFER_INIT] at this
  exact this

theorem push_back_external (X : Traits) (self : vector T) (item : Option T) :
    push_back X self (.external item) =
      internal_push_back (internal_resize_on_demand X self) item := rfl

theorem push_back_spec (X : Traits) (self : vector T) (item : Option T)
    (h : self.item_counter + 1 < 2 ^ 64) :
    (push_back X self (.external item)).item_counter = self.item_counter + 1 ∧
    (push_back X self (.external item)).buffer_size =
      (if self.item_counter ≥ self.buffer_size then EXT_VECTOR_SIZE (growth self.buffer_size)
       else self.buffer_size) ∧
    (push_back X self (.external item)).buffer self.item_counter = item ∧
    (∀ j, j < self.item_counter → (push_back X self (.external item)).buffer j = self.buffer j) ∧
    (push_back X self (.external item)).items = self.items ++ [item] := by
  have hcore : (push_back X self (.external item)).item_counter = self.item_counter + 1 ∧
      (push_back X self (.external item)).buffer_size =
        (if self.item_counter ≥ self.buffer_size then
          EXT_VECTOR_SIZE (growth self.buffer_size)
         else self.buffer_size) ∧
      (push_back X self (.external item)).buffer self.item_counter = item ∧
      (∀ j, j < self.item_counter → (push_back X self (.external item)).buffer j = self.buffer j) := by
    rw [push_back_external]
    unfold internal_resize_on_demand
    by_cases hfull : self.item_counter ≥ self.buffer_size
    · obtain ⟨h1, h2, h3⟩ := internal_resize_spec X self (growth self.buffer_size) (by omega)
      simp only [hfull, if_true, internal_push_back, h1, h2]
      refine ⟨by rw [size_t_wrap, Nat.mod_eq_of_lt h], trivial, by simp [construct_at],
        fun j hj => ?_⟩
      unfold construct_at
      rw [if_neg (by omega), h3 j, if_pos hj]
    · simp only [hfull, if_false, internal_push_back]
      refine ⟨by rw [size_t_wrap, Nat.mod_eq_of_lt h], trivial, by simp [construct_at],
        fun j hj => ?_⟩
      unfold construct_at
      rw [if_neg (by omega)]
  obtain ⟨h1, h2, h3, h4⟩ := hcore
  refine ⟨h1, h2, h3, h4, ?_⟩
  apply List.ext_getElem?
  intro j
  rw [items_getElem?, List.getElem?_append, items_length, items_getElem?, h1]
  by_cases hj : j < self.item_counter
  · rw [if_pos (by omega), if_pos hj, if_pos hj, h4 j hj]
  · rw [if_neg hj]
    by_cases hj2 : j = self.item_counter
    · subst hj2
      rw [if_pos (by omega), h3]
      simp
    · rw [if_neg (by omega), List.getElem?_eq_none (by simp; omega)]

end vector

end ext

/-! ## Shifting, erasing and inserting -/

namespace ext

namespace vector

variable {T : Type}

theorem destroy_at_ne (b : Nat → Option T) (i j : Nat) (h : j ≠ i) :
    destroy_at b i j = b j := by
  simp [destroy_at, h]

theorem construct_at_eq (b : Nat → Option T) (i : Nat) (v : Option T) :
    construct_at b i v i = v := by
  simp [construct_at]

theorem construct_at_ne (b : Nat → Option T) (i j : Nat) (v : Option T) (h : j ≠ i) :
    construct_at b i v j = b j := by
  simp [construct_at, h]

theorem internal_move_or_copy_buffer (X : Traits) (s : vector T) (ori dst j : Nat)
    (hj : j ≠ ori) :
    (internal_move_or_copy X s ori dst).buffer j =
      if j = dst then s.buffer ori else s.buffer j := by
  unfold internal_move_or_copy
  split
  · simp only [moved_from_at, construct_at, hj, if_false]
  · simp only [construct_at]

theorem internal_shift_left_spec (X : Traits) (a : vector T) (index : Nat)
    (h : index < a.item_counter) :
    (internal_shift_left X a index).item_counter = a.item_counter - 1 ∧
    (internal_shift_left X a index).buffer_size = a.buffer_size ∧
    ∀ j, j < a.item_counter - 1 →
      (internal_shift_left X a index).buffer j =
        if j < index then a.buffer j else a.buffer (j + 1) := by
  have hdecr : size_t_decr a.item_counter = a.item_counter - 1 := by
    rw [size_t_decr, if_neg (by omega)]
  refine ⟨by rw [internal_shift_left_count, hdecr], internal_shift_left_capacity X a index, ?_⟩
  have hend : index + (a.item_counter - 1 - index) = a.item_counter - 1 := by omega
  have key : ∀ (body : Nat → vector T → vector T),
      (∀ i (s : vector T) j, j ≠ i + 1 →
        (body i s).buffer j = if j = i then s.buffer (i + 1) else s.buffer j) →
      ∀ j, j < a.item_counter - 1 →
        (forUp body (size_t_decr a.item_counter - index) index
          { a with item_counter := size_t_decr a.item_counter }).buffer j =
          if j < index then a.buffer j else a.buffer (j + 1) := by
    intro body hbody
    have inv := forUp_inv body
      (fun i (s : vector T) =>
        (∀ j, j < index → s.buffer j = a.buffer j) ∧
        (∀ j, index ≤ j → j < i → s.buffer j = a.buffer (j + 1)) ∧
        (∀ j, i < j → s.buffer j = a.buffer j))
      (size_t_decr a.item_counter - index) index
      { a with item_counter := size_t_decr a.item_counter }
      ⟨fun j _ => rfl, fun j h1 h2 => by omega, fun j _ => rfl⟩
      (by
        intro i s hi1 hi2 ⟨p1, p2, p3⟩
        refine ⟨fun j hj => ?_, fun j hj1 hj2 => ?_, fun j hj => ?_⟩
        · rw [hbody i s j (by omega), if_neg (by omega)]; exact p1 j hj
        · rw [hbody i s j (by omega)]
          by_cases hji : j = i
          · rw [if_pos hji, hji]; exact p3 (i + 1) (by omega)
          · rw [if_neg hji]; exact p2 j hj1 (by omega)
        · rw [hbody i s j (by omega), if_neg (by omega)]; exact p3 j (by omega))
    rw [hdecr, hend] at inv
    rw [hdecr]
    intro j hj
    by_cases hji : j < index
    · rw [if_pos hji]; exact inv.1 j hji
    · rw [if_neg hji]; exact inv.2.1 j (by omega) hj
  intro j hj
  unfold internal_shift_left
  split
  · exact key _ (fun i s j hj => internal_move_or_copy_buffer X s (i + 1) i j hj) j hj
  · have hcnt : (forUp
        (fun i (s : vector T) =>
          internal_move_or_copy X { s with buffer := destroy_at s.buffer i } (i + 1) i)
        (size_t_decr a.item_counter - index) index
        { a with item_counter := size_t_decr a.item_counter }).item_counter =
        size_t_decr a.item_counter := by
      apply forUp_preserves (fun v : vector T => v.item_counter = size_t_decr a.item_counter)
      · intro i v hv
        show (internal_move_or_copy X _ (i + 1) i).item_counter = _
        rw [internal_move_or_copy_count]; exact hv
      · rfl
    have hk := key
      (fun i (s : vector T) =>
        internal_move_or_copy X { s with buffer := destroy_at s.buffer i } (i + 1) i)
      (by
        intro i s j hj
        show (internal_move_or_copy X _ (i + 1) i).buffer j = _
        rw [internal_move_or_copy_buffer X _ (i + 1) i j hj]
        by_cases hji : j = i
        · rw [if_pos hji, if_pos hji]
          simp [destroy_at]
        · rw [if_neg hji, if_neg hji]
          simp [destroy_at, hji]) j hj
    have hne : j ≠ size_t_decr a.item_counter := by rw [hdecr]; omega
    rw [← hcnt] at hne
    dsimp only
    rw [destroy_at_ne _ _ _ hne]
    exact hk

end vector

end ext

namespace ext

namespace vector

variable {T : Type}

theorem erase_spec (X : Traits) (a : vector T) (i : Nat) (h : i < a.item_counter) :
    ∃ r, erase X a i = .ok r ∧ r.item_counter = a.item_counter - 1 ∧
      r.buffer_size = a.buffer_size ∧ r.items = a.items.eraseIdx i ∧
      ∀ j, j < a.item_counter - 1 → r.buffer j = if j < i then a.buffer j else a.buffer (j + 1) := by
  obtain ⟨h1, h2, h3⟩ := internal_shift_left_spec X a i h
  refine ⟨internal_shift_left X a i, ?_, h1, h2, ?_, h3⟩
  · unfold erase EXT_VECTOR_ASSERT_INDEX
    rw [if_neg (by omega)]
  · apply List.ext_getElem?
    intro j
    rw [items_getElem?, List.getElem?_eraseIdx, h1]
    by_cases hj : j < a.item_counter - 1
    · rw [if_pos hj, h3 j hj]
      by_cases hji : j < i
      · rw [if_pos hji, if_pos hji, items_getElem?, if_pos (by omega)]
      · rw [if_neg hji, if_neg hji, items_getElem?, if_pos (by omega)]
    · rw [if_neg hj]
      by_cases hji : j < i
      · omega
      · rw [if_neg hji, items_getElem?, if_neg (by omega)]

theorem erase_out_of_range (X : Traits) (a : vector T) (i : Nat) (h : i ≥ a.item_counter) :
    erase X a i = .error (.raised .IndexOutOfRange) := by
  unfold erase EXT_VECTOR_ASSERT_INDEX
  rw [if_pos h]

theorem reserve_spec (X : Traits) (a : vector T) (newSize : Nat)
    (h : a.item_counter < 2 ^ 64) :
    (reserve X a newSize).item_counter = a.item_counter ∧
    (reserve X a newSize).buffer_size =
      (if newSize > a.buffer_size then EXT_VECTOR_SIZE newSize else a.buffer_size) ∧
    ∀ j, j < a.item_counter → (reserve X a newSize).buffer j = a.buffer j := by
  unfold reserve
  by_cases hn : newSize > a.buffer_size
  · obtain ⟨h1, h2, h3⟩ := internal_resize_spec X a newSize h
    rw [if_pos hn, if_pos hn]
    exact ⟨h1, h2, fun j hj => by rw [h3 j, if_pos hj]⟩
  · rw [if_neg hn, if_neg hn]
    exact ⟨rfl, rfl, fun j _ => rfl⟩

theorem internal_shift_right_spec (X : Traits) (a : vector T) (index : Nat)
    (h : index ≤ a.item_counter) (hc : a.item_counter + 1 < 2 ^ 64) :
    (internal_shift_right X a index).item_counter = a.item_counter ∧
    (internal_shift_right X a index).buffer_size =
      (if a.item_counter + 1 > a.buffer_size then EXT_VECTOR_SIZE (a.item_counter + 1)
       else a.buffer_size) ∧
    (∀ j, j < index → (internal_shift_right X a index).buffer j = a.buffer j) ∧
    ∀ j, index < j → j ≤ a.item_counter →
      (internal_shift_right X a index).buffer j = a.buffer (j - 1) := by
  have hw : size_t_wrap (a.item_counter + 1) = a.item_counter + 1 := by
    rw [size_t_wrap, Nat.mod_eq_of_lt hc]
  obtain ⟨r1, r2, r3⟩ := reserve_spec X a (a.item_counter + 1) (by omega)
  have key : ∀ (body : Nat → vector T → vector T),
      (∀ i (s : vector T), (body i s).item_counter = s.item_counter ∧
        (body i s).buffer_size = s.buffer_size ∧
        ∀ j, j ≠ i - 1 → (body i s).buffer j = if j = i then s.buffer (i - 1) else s.buffer j) →
      (forDown body ((reserve X a (a.item_counter + 1)).item_counter - index)
          (reserve X a (a.item_counter + 1)).item_counter
          (reserve X a (a.item_counter + 1))).item_counter = a.item_counter ∧
      (forDown body ((reserve X a (a.item_counter + 1)).item_counter - index)
          (reserve X a (a.item_counter + 1)).item_counter
          (reserve X a (a.item_counter + 1))).buffer_size =
        (if a.item_counter + 1 > a.buffer_size then EXT_VECTOR_SIZE (a.item_counter + 1)
         else a.buffer_size) ∧
      (∀ j, j < index →
        (forDown body ((reserve X a (a.item_counter + 1)).item_counter - index)
          (reserve X a (a.item_counter + 1)).item_counter
          (reserve X a (a.item_counter + 1))).buffer j = a.buffer j) ∧
      ∀ j, index < j → j ≤ a.item_counter →
        (forDown body ((reserve X a (a.item_counter + 1)).item_counter - index)
          (reserve X a (a.item_counter + 1)).item_counter
          (reserve X a (a.item_counter + 1))).buffer j = a.buffer (j - 1) := by
    intro body hbody
    rw [r1]
    have inv := forDown_inv body
      (fun i (s : vector T) =>
        s.item_counter = a.item_counter ∧
        s.buffer_size = (reserve X a (a.item_counter + 1)).buffer_size ∧
        (∀ j, j < i → s.buffer j = a.buffer j) ∧
        (∀ j, i < j → j ≤ a.item_counter → s.buffer j = a.buffer (j - 1)))
      (a.item_counter - index) a.item_counter (reserve X a (a.item_counter + 1))
      (by omega)
      ⟨r1, rfl, fun j hj => r3 j hj, fun j h1 h2 => by omega⟩
      (by
        intro i s hi1 hi2 ⟨p1, p2, p3, p4⟩
        obtain ⟨b1, b2, b3⟩ := hbody i s
        refine ⟨by rw [b1, p1], by rw [b2, p2], fun j hj => ?_, fun j hj1 hj2 => ?_⟩
        · rw [b3 j (by omega), if_neg (by omega)]; exact p3 j (by omega)
        · rw [b3 j (by omega)]
          by_cases hji : j = i
          · rw [if_pos hji, hji]; exact p3 (i - 1) (by omega)
          · rw [if_neg hji]; exact p4 j (by omega) hj2)
    have hend : a.item_counter - (a.item_counter - index) = index := by omega
    rw [hend] at inv
    obtain ⟨q1, q2, q3, q4⟩ := inv
    exact ⟨q1, by rw [q2, r2], q3, q4⟩
  unfold internal_shift_right
  rw [hw]
  split
  · refine key _ (fun i s => ?_)
    exact ⟨internal_move_or_copy_count X s _ _, internal_move_or_copy_capacity X s _ _,
      fun j hj => internal_move_or_copy_buffer X s (i - 1) i j hj⟩
  · refine key _ (fun i s => ?_)
    refine ⟨internal_move_or_copy_count X s _ _, internal_move_or_copy_capacity X s _ _,
      fun j hj => ?_⟩
    show destroy_at (internal_move_or_copy X s (i - 1) i).buffer (i - 1) j = _
    rw [destroy_at_ne _ _ _ hj, internal_move_or_copy_buffer X s (i - 1) i j hj]

theorem internal_copy_insert_buffer_ne (X : Traits) (a : vector T) (i : Nat)
    (item : reference T) (j : Nat) (hj : j ≠ i) :
    (internal_copy_insert X a i item).buffer j = (internal_shift_right X a i).buffer j := by
  unfold internal_copy_insert
  simp only []
  rw [construct_at_ne _ _ _ _ hj]
  split
  · rfl
  · exact destroy_at_ne _ _ _ hj

theorem insert_reference_spec (X : Traits) (a : vector T) (i : Nat) (item : reference T)
    (h : i < a.item_counter) (hc : a.item_counter + 1 < 2 ^ 64) :
    insert X a i item = .ok (internal_copy_insert X a i item) ∧
    (internal_copy_insert X a i item).item_counter = a.item_counter + 1 ∧
    (internal_copy_insert X a i item).buffer_size =
      (if a.item_counter + 1 > a.buffer_size then EXT_VECTOR_SIZE (a.item_counter + 1)
       else a.buffer_size) ∧
    (internal_copy_insert X a i item).items =
      a.items.take i ++ (internal_copy_insert X a i item).buffer i :: a.items.drop i := by
  obtain ⟨h1, h2, h3, h4⟩ := internal_shift_right_spec X a i (by omega) hc
  have hcount : (internal_copy_insert X a i item).item_counter = a.item_counter + 1 := by
    show size_t_wrap ((internal_shift_right X a i).item_counter + 1) = _
    rw [h1, size_t_wrap, Nat.mod_eq_of_lt hc]
  refine ⟨?_, hcount, h2, ?_⟩
  · unfold insert EXT_VECTOR_ASSERT_INDEX
    rw [if_neg (by omega)]
  · apply List.ext_getElem?
    intro j
    have hlen : (a.items.take i).length = i := by
      rw [List.length_take, items_length]; omega
    rw [items_getElem?, hcount, List.getElem?_append, hlen]
    by_cases hji : j < i
    · rw [if_pos (by omega), if_pos hji, internal_copy_insert_buffer_ne X a i item j (by omega),
        h3 j hji, List.getElem?_take_of_lt hji, items_getElem?, if_pos (by omega)]
    · rw [if_neg hji]
      by_cases hj2 : j = i
      · rw [if_pos (by omega), hj2, Nat.sub_self, List.getElem?_cons_zero]
      · obtain ⟨m, hm⟩ : ∃ m, j - i = m + 1 := ⟨j - i - 1, by omega⟩
        rw [hm, List.getElem?_cons_succ, List.getElem?_drop, items_getElem?,
          internal_copy_insert_buffer_ne X a i item j hj2]
        have e : i + m = j - 1 := by omega
        rw [e]
        by_cases hj3 : j < a.item_counter + 1
        · rw [if_pos hj3, if_pos (by omega), h4 j (by omega) (by omega)]
        · rw [if_neg hj3, if_neg (by omega)]

theorem insert_spec (X : Traits) (a : vector T) (i : Nat) (item : Option T)
    (h : i < a.item_counter) (hc : a.item_counter + 1 < 2 ^ 64) :
    ∃ r, insert X a i (.external item) = .ok r ∧ r.item_counter = a.item_counter + 1 ∧
      r.buffer_size =
        (if a.item_counter + 1 > a.buffer_size then EXT_VECTOR_SIZE (a.item_counter + 1)
         else a.buffer_size) ∧
      r.items = a.items.take i ++ item :: a.items.drop i := by
  obtain ⟨h1, h2, h3, h4⟩ := insert_reference_spec X a i (.external item) h hc
  have hat : (internal_copy_insert X a i (.external item)).buffer i = item := by
    unfold internal_copy_insert
    simp only []
    rw [construct_at_eq]
    rfl
  rw [hat] at h4
  exact ⟨_, h1, h2, h3, h4⟩

theorem internal_copy_insert_element (X : Traits) (a : vector T) (i k : Nat)
    (h : i < a.item_counter) (hc : a.item_counter + 1 < 2 ^ 64) :
    (a.item_counter + 1 > a.buffer_size →
      (internal_copy_insert X a i (.element k)).buffer i = none) ∧
    (a.item_counter + 1 ≤ a.buffer_size → k < i →
      (internal_copy_insert X a i (.element k)).buffer i = a.buffer k) ∧
    (a.item_counter + 1 ≤ a.buffer_size → i < k → k ≤ a.item_counter →
      (internal_copy_insert X a i (.element k)).buffer i = a.buffer (k - 1)) := by
  obtain ⟨_, _, h3, h4⟩ := internal_shift_right_spec X a i (by omega) hc
  have hw : size_t_wrap (a.item_counter + 1) = a.item_counter + 1 := by
    unfold size_t_wrap
    omega
  have hat : (internal_copy_insert X a i (.element k)).buffer i =
      read_through
        { internal_shift_right X a i with
          buffer := if X.is_trivially_destructible then (internal_shift_right X a i).buffer
            else destroy_at (internal_shift_right X a i).buffer i }
        (reserve_releases a (a.item_counter + 1)) (.element k) := by
    unfold internal_copy_insert
    simp only []
    rw [construct_at_eq, hw]
  have hread : ∀ (hk : k ≠ i), a.item_counter + 1 ≤ a.buffer_size →
      (internal_copy_insert X a i (.element k)).buffer i =
        (internal_shift_right X a i).buffer k := by
    intro hk hle
    have hr : reserve_releases a (a.item_counter + 1) = false := by
      unfold reserve_releases
      exact decide_eq_false (by omega)
    rw [hat, hr]
    show (if X.is_trivially_destructible then (internal_shift_right X a i).buffer
      else destroy_at (internal_shift_right X a i).buffer i) k = _
    split
    · rfl
    · exact destroy_at_ne _ _ _ hk
  refine ⟨fun hgt => ?_, fun hle hk => ?_, fun hle hk hk2 => ?_⟩
  · have hr : reserve_releases a (a.item_counter + 1) = true := by
      unfold reserve_releases
      exact decide_eq_true hgt
    rw [hat, hr]
    rfl
  · rw [hread (by omega) hle, h3 k hk]
  · rw [hread (by omega) hle, h4 k hk hk2]

theorem insert_out_of_range (X : Traits) (a : vector T) (i : Nat) (item : reference T)
    (h : i ≥ a.item_counter) : insert X a i item = .error (.raised .IndexOutOfRange) := by
  unfold insert EXT_VECTOR_ASSERT_INDEX
  rw [if_pos h]

theorem insert_move_out_of_range (X : Traits) (a : vector T) (i : Nat) (item : reference T)
    (h : i ≥ a.item_counter) :
    insert_move X a i item = .error (.raised .IndexOutOfRange) ∧
    emplace X a i item = .error (.raised .IndexOutOfRange) := by
  unfold insert_move emplace EXT_VECTOR_ASSERT_INDEX
  rw [if_pos h, if_pos h]
  exact ⟨rfl, rfl⟩

theorem insert_move_shape (X : Traits) (a : vector T) (i : Nat) (item : reference T)
    (h : i < a.item_counter) :
    (insert_move X a i item = .ok (internal_move_insert X a i item) ∧
      (internal_move_insert X a i item).buffer_size =
        (internal_copy_insert X a i item).buffer_size ∧
      (internal_move_insert X a i item).item_counter =
        (internal_copy_insert X a i item).item_counter) ∧
    (emplace X a i item = .ok (internal_emplace X a i item) ∧
      (internal_emplace X a i item).buffer_size =
        (internal_copy_insert X a i item).buffer_size ∧
      (internal_emplace X a i item).item_counter =
        (internal_copy_insert X a i item).item_counter) := by
  refine ⟨⟨?_, ?_, ?_⟩, ⟨?_, ?_, ?_⟩⟩
  · unfold insert_move EXT_VECTOR_ASSERT_INDEX
    rw [if_neg (by omega)]
  · rw [(internal_move_insert_shape X a i item).1, (internal_copy_insert_shape X a i item).1]
  · rw [(internal_move_insert_shape X a i item).2, (internal_copy_insert_shape X a i item).2]
  · unfold emplace EXT_VECTOR_ASSERT_INDEX
    rw [if_neg (by omega)]
  · rw [(internal_emplace_shape X a i item).1, (internal_copy_insert_shape X a i item).1]
  · rw [(internal_emplace_shape X a i item).2, (internal_copy_insert_shape X a i item).2]

theorem insert_move_external (X : Traits) (a : vector T) (i : Nat) (v : Option T) :
    insert_move X a i (.external v) = insert X a i (.external v) ∧
    emplace X a i (.external v) = insert X a i (.external v) :=
  ⟨rfl, rfl⟩

theorem take_eraseIdx_insert (l : List (Option T)) (i : Nat) (x : Option T)
    (h : l[i]? = some x) :
    (l.eraseIdx i).take i ++ x :: (l.eraseIdx i).drop i = l := by
  apply List.ext_getElem?
  intro j
  have hi : i < l.length := by
    by_contra hge
    rw [List.getElem?_eq_none (by omega)] at h
    cases h
  have hlen : ((l.eraseIdx i).take i).length = i := by
    rw [List.length_take, List.length_eraseIdx_of_lt hi]; omega
  rw [List.getElem?_append, hlen]
  by_cases hji : j < i
  · rw [if_pos hji, List.getElem?_take_of_lt hji, List.getElem?_eraseIdx, if_pos hji]
  · rw [if_neg hji]
    by_cases hj2 : j = i
    · rw [hj2, Nat.sub_self, h, List.getElem?_cons_zero]
    · obtain ⟨m, hm⟩ : ∃ m, j - i = m + 1 := ⟨j - i - 1, by omega⟩
      rw [hm, List.getElem?_cons_succ, List.getElem?_drop, List.getElem?_eraseIdx,
        if_neg (by omega)]
      congr 1
      omega

theorem erase_insert_external (X : Traits) (a : vector T) (i : Nat)
    (h : i + 1 < a.item_counter) (hc : a.item_counter < 2 ^ 64) :
    ∃ r, erase X a i = .ok r ∧ r.item_counter = a.item_counter - 1 ∧
      r.items = a.items.eraseIdx i ∧
      ∃ r2, insert X r i (.external (a.buffer i)) = .ok r2 ∧ r2.items = a.items ∧
        r2.item_counter = a.item_counter := by
  obtain ⟨r, h1, h2, _, h4, _⟩ := erase_spec X a i (by omega)
  obtain ⟨r2, g1, g2, _, g4⟩ := insert_spec X r i (a.buffer i) (by omega) (by omega)
  refine ⟨r, h1, h2, h4, r2, g1, ?_, by omega⟩
  rw [g4, h4]
  apply take_eraseIdx_insert
  rw [items_getElem?, if_pos (by omega)]

end vector

end ext

/-! ## Access, replacement and exchange -/

namespace ext

namespace vector

variable {T : Type}

theorem at_spec (a : vector T) (i : Nat) :
    (at_ a i = .error (.raised .IndexOutOfRange) ↔ i ≥ a.item_counter) ∧
    (∀ v, i < a.item_counter → a.buffer i = some v → at_ a i = .ok v) := by
  unfold at_
  by_cases h : i ≥ a.item_counter
  · rw [if_pos h]
    exact ⟨⟨fun _ => h, fun _ => rfl⟩, fun v hlt _ => absurd h (by omega)⟩
  · rw [if_neg h]
    refine ⟨⟨fun hc => ?_, fun hc => absurd hc h⟩, fun v _ hv => by rw [hv]⟩
    cases hb : a.buffer i with
    | none => rw [hb] at hc; cases hc
    | some v => rw [hb] at hc; cases hc

theorem internal_copy_replace_buffer (X : Traits) (a : vector T) (i : Nat) (item : Option T)
    (j : Nat) :
    (internal_copy_replace X a i (.external item)).buffer j =
      if j = i then item else a.buffer j := by
  unfold internal_copy_replace
  simp only []
  by_cases hj : j = i
  · rw [if_pos hj, hj, construct_at_eq]
    rfl
  · rw [if_neg hj, construct_at_ne _ _ _ _ hj]
    split
    · rfl
    · exact destroy_at_ne _ _ _ hj

theorem internal_move_replace_buffer (X : Traits) (a : vector T) (i : Nat) (item : Option T)
    (j : Nat) :
    (internal_move_replace X a i (.external item)).buffer j =
      if j = i then item else a.buffer j :=
  internal_copy_replace_buffer X a i item j

theorem internal_copy_replace_element (X : Traits) (a : vector T) (i k : Nat) (hk : k ≠ i)
    (j : Nat) :
    (internal_copy_replace X a i (.element k)).buffer j =
      if j = i then a.buffer k else a.buffer j := by
  unfold internal_copy_replace
  simp only []
  by_cases hj : j = i
  · rw [if_pos hj, hj, construct_at_eq]
    show (if X.is_trivially_destructible then a.buffer else destroy_at a.buffer i) k = _
    split
    · rfl
    · exact destroy_at_ne _ _ _ hk
  · rw [if_neg hj, construct_at_ne _ _ _ _ hj]
    split
    · rfl
    · exact destroy_at_ne _ _ _ hj

theorem internal_move_replace_element (X : Traits) (a : vector T) (i k j : Nat) :
    (internal_move_replace X a i (.element k)).buffer j =
      if j = k then none else if j = i then a.buffer k else a.buffer j := by
  show moved_from_at
    (construct_at (if X.is_trivially_destructible then a.buffer else destroy_at a.buffer i) i
      ((if X.is_trivially_destructible then a.buffer else destroy_at a.buffer i) k)) k j = _
  unfold moved_from_at
  by_cases hjk : j = k
  · rw [if_pos hjk, if_pos hjk]
  · rw [if_neg hjk, if_neg hjk]
    by_cases hj : j = i
    · rw [if_pos hj, hj, construct_at_eq]
      have hk : k ≠ i := fun e => hjk (hj.trans e.symm)
      split
      · rfl
      · exact destroy_at_ne _ _ _ hk
    · rw [if_neg hj, construct_at_ne _ _ _ _ hj]
      split
      · rfl
      · exact destroy_at_ne _ _ _ hj

theorem internal_emplace_replace_element (X : Traits) (a : vector T) (i k j : Nat) :
    (internal_emplace_replace X a i (.element k)).buffer j =
      if j = k then none else if j = i then a.buffer k else a.buffer j :=
  internal_move_replace_element X a i k j

theorem replace_spec (X : Traits) (a : vector T) (i : Nat) (item : Option T)
    (h : i < a.item_counter) :
    ∃ r, replace X a i (.external item) = .ok r ∧ r.item_counter = a.item_counter ∧
      r.buffer_size = a.buffer_size ∧ r.buffer i = item ∧
      (∀ j, j ≠ i → r.buffer j = a.buffer j) ∧ r.items = a.items.set i item := by
  refine ⟨internal_copy_replace X a i (.external item), ?_, rfl, rfl, ?_, fun j hj => ?_, ?_⟩
  · unfold replace EXT_VECTOR_ASSERT_INDEX
    rw [if_neg (by omega)]
  · rw [internal_copy_replace_buffer, if_pos rfl]
  · rw [internal_copy_replace_buffer, if_neg hj]
  · apply List.ext_getElem?
    intro j
    have hc : (internal_copy_replace X a i (.external item)).item_counter = a.item_counter :=
      rfl
    rw [items_getElem?, hc, internal_copy_replace_buffer, List.getElem?_set, items_getElem?,
      items_length]
    by_cases hj : j < a.item_counter
    · rw [if_pos hj]
      by_cases hji : j = i
      · rw [if_pos hji, if_pos hji.symm, if_pos (by omega)]
      · rw [if_neg hji, if_neg (fun e => hji e.symm), if_pos hj]
    · rw [if_neg hj, if_neg (by omega), if_neg hj]

theorem replace_out_of_range (X : Traits) (a : vector T) (i : Nat) (item : reference T)
    (h : i ≥ a.item_counter) :
    replace X a i item = .error (.raised .IndexOutOfRange) ∧
    replace_move X a i item = .error (.raised .IndexOutOfRange) ∧
    replace_emplace X a i item = .error (.raised .IndexOutOfRange) := by
  unfold replace replace_move replace_emplace EXT_VECTOR_ASSERT_INDEX
  rw [if_pos h, if_pos h, if_pos h]
  exact ⟨rfl, rfl, rfl⟩

theorem replace_element (X : Traits) (a : vector T) (i k : Nat) (h : i < a.item_counter)
    (hk : k ≠ i) :
    (∃ r, replace X a i (.element k) = .ok r ∧ r.buffer i = a.buffer k ∧
      ∀ j, j ≠ i → r.buffer j = a.buffer j) ∧
    (∃ r, replace_move X a i (.element k) = .ok r ∧ r.buffer i = a.buffer k ∧
      r.buffer k = none ∧ ∀ j, j ≠ i → j ≠ k → r.buffer j = a.buffer j) ∧
    (∃ r, replace_emplace X a i (.element k) = .ok r ∧ r.buffer i = a.buffer k ∧
      r.buffer k = none ∧ ∀ j, j ≠ i → j ≠ k → r.buffer j = a.buffer j) := by
  have hi : i ≠ k := fun e => hk e.symm
  refine ⟨⟨internal_copy_replace X a i (.element k), ?_, ?_, fun j hj => ?_⟩,
    ⟨internal_move_replace X a i (.element k), ?_, ?_, ?_, fun j hj hjk => ?_⟩,
    ⟨internal_emplace_replace X a i (.element k), ?_, ?_, ?_, fun j hj hjk => ?_⟩⟩
  · unfold replace EXT_VECTOR_ASSERT_INDEX
    rw [if_neg (by omega)]
  · rw [internal_copy_replace_element X a i k hk, if_pos rfl]
  · rw [internal_copy_replace_element X a i k hk, if_neg hj]
  · unfold replace_move EXT_VECTOR_ASSERT_INDEX
    rw [if_neg (by omega)]
  · rw [internal_move_replace_element, if_neg hi, if_pos rfl]
  · rw [internal_move_replace_element, if_pos rfl]
  · rw [internal_move_replace_element, if_neg hjk, if_neg hj]
  · unfold replace_emplace EXT_VECTOR_ASSERT_INDEX
    rw [if_neg (by omega)]
  · rw [internal_emplace_replace_element, if_neg hi, if_pos rfl]
  · rw [internal_emplace_replace_element, if_pos rfl]
  · rw [internal_emplace_replace_element, if_neg hjk, if_neg hj]

theorem replace_move_external (X : Traits) (a : vector T) (i : Nat) (v : Option T) :
    replace_move X a i (.external v) = replace X a i (.external v) ∧
    replace_emplace X a i (.external v) = replace X a i (.external v) :=
  ⟨rfl, rfl⟩

theorem internal_swap_items_init_buffer (X : Traits) (v : vector T) (a b j : Nat) :
    (internal_swap_items_init X v a b).buffer j =
      if j = b then v.buffer a else if j = a then v.buffer b else v.buffer j := by
  unfold internal_swap_items_init
  split
  · simp only []
    rw [internal_move_replace_buffer]
    by_cases hjb : j = b
    · rw [if_pos hjb, if_pos hjb]
    · rw [if_neg hjb, if_neg hjb, internal_move_replace_element, if_neg hjb]
      by_cases hja : j = a
      · rw [if_pos hja, if_pos hja]
        have hba : b ≠ a := fun e => hjb (hja.trans e.symm)
        show moved_from_at v.buffer a b = _
        unfold moved_from_at
        rw [if_neg hba]
      · rw [if_neg hja, if_neg hja]
        show moved_from_at v.buffer a j = _
        unfold moved_from_at
        rw [if_neg hja]
  · simp only []
    rw [internal_copy_replace_buffer]
    by_cases hjb : j = b
    · rw [if_pos hjb, if_pos hjb]
    · rw [if_neg hjb, if_neg hjb]
      by_cases hja : j = a
      · have hba : b ≠ a := fun e => hjb (hja.trans e.symm)
        rw [internal_copy_replace_element X v a b hba, if_pos hja]
      · rw [if_neg hja]
        by_cases hba : b = a
        · rw [hba]
          show construct_at _ a _ j = _
          rw [construct_at_ne _ _ _ _ hja]
          split
          · rfl
          · exact destroy_at_ne _ _ _ hja
        · rw [internal_copy_replace_element X v a b hba, if_neg hja]

theorem swap_items_spec (X : Traits) (v : vector T) (a b : Nat)
    (ha : a < v.item_counter) (hb : b < v.item_counter) :
    ∃ r, swap_items X v a b = .ok r ∧ r.item_counter = v.item_counter ∧
      r.buffer_size = v.buffer_size ∧
      ∀ j, r.buffer j = if j = b then v.buffer a else if j = a then v.buffer b else v.buffer j := by
  refine ⟨internal_swap_items_init X v a b, ?_, internal_swap_items_init_count X v a b,
    internal_swap_items_init_capacity X v a b, internal_swap_items_init_buffer X v a b⟩
  unfold swap_items
  rw [if_neg (by omega), if_neg (by omega)]

theorem eq_of_fields (r v : vector T) (h1 : r.buffer_size = v.buffer_size)
    (h2 : r.item_counter = v.item_counter) (h3 : ∀ j, r.buffer j = v.buffer j) : r = v := by
  cases r with
  | mk c1 n1 b1 =>
    cases v with
    | mk c2 n2 b2 =>
      simp only at h1 h2 h3
      have hb : b1 = b2 := funext h3
      rw [h1, h2, hb]

end vector

end ext

/-! ## Appending -/


namespace ext

namespace vector

variable {T : Type}

theorem EXT_VECTOR_SIZE_of_ge (x : Nat) (h : 2 ≤ x) : EXT_VECTOR_SIZE x = x := by
  unfold EXT_VECTOR_SIZE
  rw [if_neg (by omega)]

theorem push_back_all_spec (X : Traits) :
    ∀ (xs : List T) (v : vector T), 2 ≤ v.buffer_size → v.item_counter ≤ v.buffer_size →
      v.buffer_size ≤ 2 * v.item_counter + 2 → v.item_counter + xs.length < 2 ^ 60 →
      (xs.foldl (fun (s : vector T) x => push_back X s (.external (some x))) v).item_counter =
        v.item_counter + xs.length ∧
      (xs.foldl (fun (s : vector T) x => push_back X s (.external (some x))) v).items =
        v.items ++ xs.map some ∧
      v.item_counter + xs.length ≤
        (xs.foldl (fun (s : vector T) x => push_back X s (.external (some x))) v).buffer_size := by
  intro xs
  induction xs with
  | nil =>
    intro v _ hle _ _
    exact ⟨rfl, by simp, hle⟩
  | cons x xs ih =>
    intro v h2 hle hup hlen
    simp only [List.length_cons] at hlen
    obtain ⟨hc, hcap, _, _, hitems⟩ := push_back_spec X v (some x) (by omega)
    have hb := growth_bounds v.buffer_size h2 (by omega)
    have hd := growth_le_double v.buffer_size (by omega)
    have hcap2 : 2 ≤ (push_back X v (.external (some x))).buffer_size ∧
        (push_back X v (.external (some x))).item_counter ≤ (push_back X v (.external (some x))).buffer_size ∧
        (push_back X v (.external (some x))).buffer_size ≤
          2 * (push_back X v (.external (some x))).item_counter + 2 := by
      rw [hcap, hc]
      by_cases hfull : v.item_counter ≥ v.buffer_size
      · rw [if_pos hfull, EXT_VECTOR_SIZE_of_ge _ (by omega)]
        omega
      · rw [if_neg hfull]
        omega
    obtain ⟨r1, r2, r3⟩ := ih (push_back X v (.external (some x))) hcap2.1 hcap2.2.1 hcap2.2.2
      (by rw [hc]; omega)
    simp only [List.foldl_cons, List.length_cons, List.map_cons]
    rw [hc] at r1 r3
    refine ⟨by rw [r1]; omega, ?_, by omega⟩
    rw [r2, hitems, List.append_assoc, List.singleton_append]

theorem push_back_element (X : Traits) (a : vector T) (k : Nat)
    (h : a.item_counter + 1 < 2 ^ 64) :
    (a.item_counter < a.buffer_size →
      (push_back X a (.element k)).items = a.items ++ [a.buffer k]) ∧
    (a.item_counter ≥ a.buffer_size →
      (push_back X a (.element k)).items = a.items ++ [none]) := by
  constructor
  · intro hlt
    have hr : internal_resize_on_demand_releases a = false := by
      unfold internal_resize_on_demand_releases
      exact decide_eq_false (by omega)
    have hs : internal_resize_on_demand X a = a := by
      unfold internal_resize_on_demand
      rw [if_neg (by omega)]
    have e : push_back X a (.element k) = push_back X a (.external (a.buffer k)) := by
      show internal_push_back (internal_resize_on_demand X a)
          (read_through (internal_resize_on_demand X a) (internal_resize_on_demand_releases a)
            (.element k)) =
        internal_push_back (internal_resize_on_demand X a) (a.buffer k)
      rw [hr, hs]
      rfl
    rw [e]
    exact (push_back_spec X a (a.buffer k) h).2.2.2.2
  · intro hge
    have hr : internal_resize_on_demand_releases a = true := by
      unfold internal_resize_on_demand_releases
      exact decide_eq_true hge
    have e : push_back X a (.element k) = push_back X a (.external none) := by
      show internal_push_back (internal_resize_on_demand X a)
          (read_through (internal_resize_on_demand X a) (internal_resize_on_demand_releases a)
            (.element k)) =
        internal_push_back (internal_resize_on_demand X a) none
      rw [hr]
      rfl
    rw [e]
    exact (push_back_spec X a none h).2.2.2.2

end vector

open vector

/-- C14: pushing the elements of a list `xs` (of fewer than `2 ^ 60` elements) in order
with `push_back` onto a default-constructed vector gives count `|xs|`, the elements of `xs`
in order, and a capacity of at least `|xs|`; for `|xs| = 3` the capacity is 3. The
elements of the list are no elements of the vector. -/
theorem push_back_all {T : Type} (X : Traits) (xs : List T) (h : xs.length < 2 ^ 60) :
    (ctor_default : vector T).buffer_size = 2 ∧ (ctor_default : vector T).item_counter = 0 ∧
    (xs.foldl (fun (s : vector T) x => push_back X s (.external (some x)))
      ctor_default).item_counter = xs.length ∧
    (xs.foldl (fun (s : vector T) x => push_back X s (.external (some x)))
      ctor_default).items = xs.map some ∧
    xs.length ≤
      (xs.foldl (fun (s : vector T) x => push_back X s (.external (some x)))
        ctor_default).buffer_size ∧
    (xs.length = 3 →
      (xs.foldl (fun (s : vector T) x => push_back X s (.external (some x)))
        ctor_default).buffer_size = 3) := by
  obtain ⟨h1, h2, h3⟩ := push_back_all_spec X xs (ctor_default : vector T) (Nat.le_refl 2)
    (Nat.zero_le _) (by show 2 ≤ 2 * 0 + 2; omega) (by show 0 + xs.length < 2 ^ 60; omega)
  have hc0 : (ctor_default : vector T).item_counter = 0 := rfl
  have hi0 : (ctor_default : vector T).items = [] := rfl
  rw [hc0, Nat.zero_add] at h1 h3
  rw [hi0, List.nil_append] at h2
  refine ⟨rfl, rfl, h1, h2, h3, fun h3len => ?_⟩
  match xs, h3len with
  | [x, y, z], _ =>
    simp only [List.foldl_cons, List.foldl_nil]
    obtain ⟨c1, k1, _⟩ := push_back_spec X (ctor_default : vector T) (some x)
      (by show 0 + 1 < 2 ^ 64; omega)
    rw [hc0] at c1
    have k1' : (push_back X (ctor_default : vector T) (.external (some x))).buffer_size =
        2 := by
      rw [k1]; rfl
    obtain ⟨c2, k2, _⟩ := push_back_spec X
      (push_back X (ctor_default : vector T) (.external (some x))) (some y)
      (by rw [c1]; omega)
    rw [c1, k1', if_neg (by decide)] at k2
    rw [c1] at c2
    obtain ⟨_, k3, _⟩ := push_back_spec X
      (push_back X (push_back X (ctor_default : vector T) (.external (some x)))
        (.external (some y))) (some z)
      (by rw [c2]; omega)
    rw [c2, k2, if_pos (by decide)] at k3
    rw [k3]
    decide

/-- C14 at work: three `push_back` calls on a default-constructed vector. -/
theorem push_back_all_witness :
    (([7, 8, 9] : List Nat).foldl
      (fun (s : vector Nat) x => push_back Traits.scalar s (.external (some x)))
      ctor_default).item_counter = 3 ∧
    (([7, 8, 9] : List Nat).foldl
      (fun (s : vector Nat) x => push_back Traits.scalar s (.external (some x)))
      ctor_default).items = [some 7, some 8, some 9] ∧
    (([7, 8, 9] : List Nat).foldl
      (fun (s : vector Nat) x => push_back Traits.scalar s (.external (some x)))
      ctor_default).buffer_size = 3 :=
  have h := push_back_all Traits.scalar ([7, 8, 9] : List Nat) (by decide)
  ⟨h.2.2.1, h.2.2.2.1, h.2.2.2.2.2 rfl⟩

end ext

/-! ## Erase, insert, access, replace, swap -/

namespace ext

open vector

/-- C15: `erase(i)` fails with `IndexOutOfRange` when `i >= count`; when `i < count` it
returns the elements with the one at position `i` removed (positions below `i` unchanged,
every later element one position to the left), the count decremented by one and the
capacity unchanged. -/
theorem erase_removes_element {T : Type} (X : Traits) (a : vector T) (i : Nat) :
    (i ≥ a.item_counter → erase X a i = .error (.raised .IndexOutOfRange)) ∧
    (i < a.item_counter →
      ∃ r, erase X a i = .ok r ∧ r.items = a.items.eraseIdx i ∧
        (∀ j, j < i → r.items[j]? = a.items[j]?) ∧
        (∀ j, i ≤ j → r.items[j]? = a.items[j + 1]?) ∧
        r.item_counter = a.item_counter - 1 ∧ r.buffer_size = a.buffer_size) := by
  refine ⟨erase_out_of_range X a i, fun h => ?_⟩
  obtain ⟨r, h1, h2, h3, h4, _⟩ := erase_spec X a i h
  refine ⟨r, h1, h4, fun j hj => ?_, fun j hj => ?_, h2, h3⟩
  · rw [h4, List.getElem?_eraseIdx, if_pos hj]
  · rw [h4, List.getElem?_eraseIdx, if_neg (by omega)]

/-- C15 at work: `erase(1)` on `{1, 2, 3}` leaves `{1, 3}`, `erase(3)` is rejected. -/
theorem erase_removes_element_witness :
    (∃ r, erase Traits.scalar (ctor_list [1, 2, 3] : vector Nat) 1 = .ok r ∧
      r.items = [some 1, some 3] ∧ r.item_counter = 2 ∧ r.buffer_size = 3) ∧
    erase Traits.scalar (ctor_list [1, 2, 3] : vector Nat) 3 =
      .error (.raised .IndexOutOfRange) := by
  have h := erase_removes_element Traits.scalar (ctor_list [1, 2, 3] : vector Nat) 1
  have h3 := erase_removes_element Traits.scalar (ctor_list [1, 2, 3] : vector Nat) 3
  obtain ⟨r, h1, h2, _, _, h5, h6⟩ := h.2 (by decide)
  exact ⟨⟨r, h1, h2, h5, h6⟩, h3.1 (by decide)⟩

/-- C16, evaluated on the code: `insert(size_t, const T &)` reads its reference in the
placement construction, after `internal_shift_right`. On `{1, 2, 3}` with capacity 4 the
call `insert(0, v[2])`, whose argument holds 3, gives `{2, 1, 2, 3}` and not
`{3, 1, 2, 3}`: slot 2 holds the former `v[1]` by then. On `{1, 2, 3}` with capacity 3 the
same call first moves the elements to a new buffer of 4 slots and deletes the old one,
and the reference is read from the deleted buffer: the inserted element has no
determinate value. -/
theorem insert_reads_argument_after_shift :
    ((reserve Traits.scalar (ctor_list [1, 2, 3] : vector Nat) 4).items =
        [some 1, some 2, some 3] ∧
      (reserve Traits.scalar (ctor_list [1, 2, 3] : vector Nat) 4).buffer_size = 4 ∧
      (reserve Traits.scalar (ctor_list [1, 2, 3] : vector Nat) 4).buffer 2 = some 3 ∧
      ∃ r, insert Traits.scalar (reserve Traits.scalar (ctor_list [1, 2, 3] : vector Nat) 4) 0
          (.element 2) = .ok r ∧
        r.items = [some 2, some 1, some 2, some 3] ∧
        r.items ≠ [some 3, some 1, some 2, some 3]) ∧
    ((ctor_list [1, 2, 3] : vector Nat).buffer_size = 3 ∧
      (ctor_list [1, 2, 3] : vector Nat).buffer 2 = some 3 ∧
      ∃ r, insert Traits.scalar (ctor_list [1, 2, 3] : vector Nat) 0 (.element 2) = .ok r ∧
        r.buffer_size = 4 ∧ r.items = [none, some 1, some 2, some 3]) :=
  ⟨⟨rfl, rfl, rfl, _, rfl, rfl, by decide⟩, ⟨rfl, rfl, _, rfl, rfl, rfl⟩⟩

/-- C17, evaluated on the code: on `{5, 7, 5}`, `erase(0)` leaves `{7, 5}`; the erased
element 5 is also the content of `v[1]`, and `insert(0, v[1])` gives `{7, 7, 5}` with
count 3, not the original `{5, 7, 5}`, because `insert` reads its reference after the
shift, when slot 1 holds the former `v[0]`. -/
theorem erase_insert_of_element_differs :
    ∃ r, erase Traits.scalar (ctor_list [5, 7, 5] : vector Nat) 0 = .ok r ∧
      r.items = [some 7, some 5] ∧ r.item_counter = 2 ∧
      r.buffer 1 = (ctor_list [5, 7, 5] : vector Nat).buffer 0 ∧
      ∃ r2, insert Traits.scalar r 0 (.element 1) = .ok r2 ∧ r2.item_counter = 3 ∧
        r2.items = [some 7, some 7, some 5] ∧
        r2.items ≠ (ctor_list [5, 7, 5] : vector Nat).items :=
  ⟨_, rfl, rfl, rfl, rfl, _, rfl, rfl, rfl, by decide⟩

/-- C18: `at(i)` fails with `IndexOutOfRange` exactly when `i >= count`; for `i < count`
it returns the element at position `i` of the range `[begin(), end())`; the vector is an
argument only and is not changed. -/
theorem at_checked {T : Type} (a : vector T) (i : Nat) :
    (vector.at_ a i = .error (.raised .IndexOutOfRange) ↔ i ≥ a.item_counter) ∧
    (∀ v, i < a.item_counter → a.items[i]? = some (some v) → vector.at_ a i = .ok v) := by
  obtain ⟨h1, h2⟩ := at_spec a i
  refine ⟨h1, fun v hlt hv => h2 v hlt ?_⟩
  rw [items_getElem?, if_pos hlt] at hv
  exact Option.some.inj hv

/-- C18 at work on `{1, 2, 3}`: `at(1)` is 2 and `at(3)` is rejected. -/
theorem at_checked_witness :
    vector.at_ (ctor_list [1, 2, 3] : vector Nat) 1 = .ok 2 ∧
    vector.at_ (ctor_list [1, 2, 3] : vector Nat) 3 = .error (.raised .IndexOutOfRange) :=
  ⟨(at_checked (ctor_list [1, 2, 3] : vector Nat) 1).2 2 (by decide) (by decide),
    (at_checked (ctor_list [1, 2, 3] : vector Nat) 3).1.2 (by decide)⟩

/-- C19, evaluated on the code: `replace(size_t, Args &&...)`, the overload a call
`v.replace(1, v[2])` with a non-const vector selects, constructs the new element with
`T(std::move(args)...)` and so moves from its argument. On the strings `{"a", "b", "c"}`
the call puts "c" in position 1 and leaves the element in position 2, which the claim says
is unchanged, moved from, without its value. -/
theorem replace_moves_from_lvalue_argument :
    (ctor_list ["a", "b", "c"] : vector String).items = [some "a", some "b", some "c"] ∧
    ∃ r, replace_emplace
        { is_nothrow_move_constructible := true, is_nothrow_destructible := true,
          is_trivially_destructible := false }
        (ctor_list ["a", "b", "c"] : vector String) 1 (.element 2) = .ok r ∧
      r.item_counter = 3 ∧ r.buffer 0 = some "a" ∧ r.buffer 1 = some "c" ∧
      r.buffer 2 = none ∧ r.buffer 2 ≠ (ctor_list ["a", "b", "c"] : vector String).buffer 2 :=
  ⟨rfl, _, rfl, rfl, rfl, rfl, rfl, fun h => (by cases h)⟩

/-- C20: `swap_items(a, b)` fails with `IndexOutOfRange` when `a >= count` or
`b >= count`; otherwise position `a` holds the former element of `b`, position `b` the
former element of `a`, every other slot, the count and the capacity are unchanged; with
`a = b` the vector is unchanged, and a second `swap_items(a, b)` restores the vector. -/
theorem swap_items_exchanges {T : Type} (X : Traits) (v : vector T) (a b : Nat) :
    (a ≥ v.item_counter ∨ b ≥ v.item_counter →
      swap_items X v a b = .error (.raised .IndexOutOfRange)) ∧
    (a < v.item_counter → b < v.item_counter →
      ∃ r, swap_items X v a b = .ok r ∧ r.buffer a = v.buffer b ∧ r.buffer b = v.buffer a ∧
        (∀ j, j ≠ a → j ≠ b → r.buffer j = v.buffer j) ∧
        r.item_counter = v.item_counter ∧ r.buffer_size = v.buffer_size ∧
        (a = b → r = v) ∧ swap_items X r a b = .ok v) := by
  constructor
  · intro h
    unfold swap_items
    by_cases ha : a ≥ v.item_counter
    · rw [if_pos ha]
    · rw [if_neg ha, if_pos (by omega)]
  · intro ha hb
    obtain ⟨r, h1, h2, h3, h4⟩ := swap_items_spec X v a b ha hb
    obtain ⟨r2, g1, g2, g3, g4⟩ := swap_items_spec X r a b (by omega) (by omega)
    have hra : r.buffer a = v.buffer b := by
      rw [h4 a]
      by_cases hab : a = b
      · rw [if_pos hab, hab]
      · rw [if_neg hab, if_pos rfl]
    have hrb : r.buffer b = v.buffer a := by rw [h4 b, if_pos rfl]
    refine ⟨r, h1, hra, hrb, fun j hja hjb => by rw [h4 j, if_neg hjb, if_neg hja], h2, h3,
      fun hab => ?_, ?_⟩
    · apply eq_of_fields r v h3 h2
      intro j
      rw [h4 j]
      by_cases hjb : j = b
      · rw [if_pos hjb, hjb, hab]
      · rw [if_neg hjb, if_neg (by omega)]
    · rw [g1]
      congr 1
      apply eq_of_fields r2 v (by omega) (by omega)
      intro j
      rw [g4 j, hra, hrb]
      by_cases hjb : j = b
      · rw [if_pos hjb, hjb]
      · rw [if_neg hjb]
        by_cases hja : j = a
        · rw [if_pos hja, hja]
        · rw [if_neg hja, h4 j, if_neg hjb, if_neg hja]

/-- C20 at work: `swap_items(0, 2)` on `{1, 2, 3}` gives `{3, 2, 1}`, `swap_items(0, 3)`
is rejected. -/
theorem swap_items_exchanges_witness :
    (∃ r, swap_items Traits.scalar (ctor_list [1, 2, 3] : vector Nat) 0 2 = .ok r ∧
      r.buffer 0 = some 3 ∧ r.buffer 2 = some 1 ∧ r.item_counter = 3 ∧
      swap_items Traits.scalar r 0 2 = .ok (ctor_list [1, 2, 3])) ∧
    swap_items Traits.scalar (ctor_list [1, 2, 3] : vector Nat) 0 3 =
      .error (.raised .IndexOutOfRange) := by
  have h := swap_items_exchanges Traits.scalar (ctor_list [1, 2, 3] : vector Nat) 0 2
  have h3 := swap_items_exchanges Traits.scalar (ctor_list [1, 2, 3] : vector Nat) 0 3
  obtain ⟨r, h1, h2, h4, _, h5, _, _, h8⟩ := h.2 (by decide) (by decide)
  exact ⟨⟨r, h1, h2, h4, h5, h8⟩, h3.1 (Or.inr (by decide))⟩

end ext

/-! ## Capacity management, assignment and moves of `ext::vector` -/

namespace ext

namespace vector

variable {T : Type}

theorem items_take_of_buffer (r v : vector T) (n : Nat) (hr : r.item_counter = n)
    (hn : n ≤ v.item_counter) (hb : ∀ j, j < n → r.buffer j = v.buffer j) :
    r.items = v.items.take n := by
  apply List.ext_getElem?
  intro j
  rw [items_getElem?, List.getElem?_take, items_getElem?, hr]
  by_cases hj : j < n
  · rw [if_pos hj, if_pos hj, if_pos (by omega), hb j hj]
  · rw [if_neg hj, if_neg hj]

theorem items_eq_of_buffer (r v : vector T) (hr : r.item_counter = v.item_counter)
    (hb : ∀ j, j < v.item_counter → r.buffer j = v.buffer j) : r.items = v.items := by
  rw [items_take_of_buffer r v v.item_counter hr (Nat.le_refl _) hb]
  exact List.take_of_length_le (by rw [items_length])

theorem internal_pop_back_buffer (X : Traits) (s : vector T) (j : Nat)
    (hj : j ≠ size_t_decr s.item_counter) : (internal_pop_back X s).buffer j = s.buffer j := by
  unfold internal_pop_back
  dsimp only
  split
  · rfl
  · show destroy_at s.buffer (size_t_decr s.item_counter) j = _
    exact destroy_at_ne _ _ _ hj

theorem internal_pop_back_capacity (X : Traits) (s : vector T) :
    (internal_pop_back X s).buffer_size = s.buffer_size := by
  unfold internal_pop_back
  dsimp only
  split <;> rfl

theorem resize_spec (X : Traits) (a : vector T) (n : Nat) :
    (resize X a n).item_counter = min a.item_counter n ∧
    (resize X a n).buffer_size = a.buffer_size ∧
    (∀ j, j < min a.item_counter n → (resize X a n).buffer j = a.buffer j) ∧
    (resize X a n).items = a.items.take (min a.item_counter n) := by
  have key := forDown_inv (fun _ (s : vector T) => internal_pop_back X s)
    (fun i (s : vector T) => s.item_counter = i ∧ s.buffer_size = a.buffer_size ∧
      ∀ j, j < min a.item_counter n → s.buffer j = a.buffer j)
    (a.item_counter - n) a.item_counter a (Nat.sub_le _ _) ⟨rfl, rfl, fun _ _ => rfl⟩
    (fun i s hlo hhi hP => by
      obtain ⟨h1, h2, h3⟩ := hP
      have hdecr : size_t_decr s.item_counter = i - 1 := by
        unfold size_t_decr
        rw [if_neg (by omega), h1]
      refine ⟨by rw [internal_pop_back_count, hdecr],
        by rw [internal_pop_back_capacity, h2], fun j hj => ?_⟩
      rw [internal_pop_back_buffer X s j (by rw [hdecr]; omega)]
      exact h3 j hj)
  have hmin : a.item_counter - (a.item_counter - n) = min a.item_counter n := by omega
  rw [hmin] at key
  obtain ⟨h1, h2, h3⟩ := key
  have h1' : (resize X a n).item_counter = min a.item_counter n := h1
  exact ⟨h1', h2, h3,
    items_take_of_buffer (resize X a n) a (min a.item_counter n) h1' (Nat.min_le_left _ _) h3⟩

theorem resize_of_ge (X : Traits) (a : vector T) (n : Nat) (h : n ≥ a.item_counter) :
    resize X a n = a := by
  unfold resize
  rw [Nat.sub_eq_zero_of_le h]
  rfl

theorem shrink_to_fit_spec (X : Traits) (a : vector T) (h : a.item_counter < 2 ^ 64) :
    (shrink_to_fit X a).item_counter = a.item_counter ∧
    (shrink_to_fit X a).buffer_size = max 2 a.item_counter ∧
    (∀ j, (shrink_to_fit X a).buffer j = if j < a.item_counter then a.buffer j else none) ∧
    (shrink_to_fit X a).items = a.items := by
  obtain ⟨h1, h2, h3⟩ := internal_simple_copy_spec X a
    (ctor_size (EXT_VECTOR_SIZE a.item_counter))
    (by show 0 + a.item_counter < 2 ^ 64; omega)
  have hc : (shrink_to_fit X a).item_counter = a.item_counter := by
    show (internal_simple_copy X a (ctor_size (EXT_VECTOR_SIZE a.item_counter))).2.item_counter = _
    rw [h1]
    show 0 + a.item_counter = _
    omega
  have hb : ∀ j, (shrink_to_fit X a).buffer j = if j < a.item_counter then a.buffer j else none := by
    intro j
    show (internal_simple_copy X a (ctor_size (EXT_VECTOR_SIZE a.item_counter))).2.buffer j = _
    rw [h3 j]
    show (if 0 ≤ j ∧ j < 0 + a.item_counter then a.buffer (j - 0) else none) = _
    by_cases hj : j < a.item_counter
    · rw [if_pos ⟨Nat.zero_le _, by omega⟩, if_pos hj, Nat.sub_zero]
    · rw [if_neg (by omega), if_neg hj]
  refine ⟨hc, ?_, hb, items_eq_of_buffer _ a hc (fun j hj => by rw [hb j, if_pos hj])⟩
  rw [shrink_to_fit_capacity]
  unfold EXT_VECTOR_SIZE
  split_ifs <;> omega

theorem ctor_copy_spec (X : Traits) (vec : vector T)
    (h : vec.item_counter ≤ vec.buffer_size) (hb : vec.buffer_size < 2 ^ 62) :
    (ctor_copy X vec).item_counter = vec.item_counter ∧
    (ctor_copy X vec).buffer_size = vec.buffer_size ∧
    (∀ j, j < vec.item_counter → (ctor_copy X vec).buffer j = vec.buffer j) ∧
    (ctor_copy X vec).items = vec.items := by
  have key := forUp_inv (fun i (self : vector T) => push_back X self (.external (vec.buffer i)))
    (fun i (s : vector T) => (i ≤ vec.item_counter → s.item_counter = i ∧
      s.buffer_size = vec.buffer_size ∧ ∀ j, j < i → s.buffer j = vec.buffer j))
    vec.item_counter 0
    { buffer_size := vec.buffer_size, item_counter := 0,
      buffer := EXT_VECTOR_BUFFER_INIT vec.buffer_size }
    (fun _ => ⟨rfl, rfl, fun j hj => absurd hj (Nat.not_lt_zero j)⟩)
    (fun i s _ hhi hP hi => by
      obtain ⟨h1, h2, h3⟩ := hP (by omega)
      obtain ⟨g1, g2, g3, g4, _⟩ := push_back_spec X s (vec.buffer i) (by omega)
      refine ⟨by rw [g1, h1], ?_, fun j hj => ?_⟩
      · rw [g2, if_neg (by omega), h2]
      · by_cases hji : j = i
        · rw [hji]
          rw [h1] at g3
          exact g3
        · rw [g4 j (by omega)]
          exact h3 j (by omega))
  rw [Nat.zero_add] at key
  obtain ⟨h1, h2, h3⟩ := key (Nat.le_refl _)
  exact ⟨h1, h2, h3, items_eq_of_buffer _ vec h1 h3⟩

theorem internal_copy_assign_reuse (X : Traits) (self vec : vector T)
    (hX : X.is_nothrow_destructible = true) (hle : self.buffer_size ≤ vec.item_counter)
    (hc : vec.item_counter < 2 ^ 64) :
    (internal_copy_assign X self vec).item_counter = vec.item_counter ∧
    (internal_copy_assign X self vec).buffer_size = self.buffer_size ∧
    (∀ j, j < vec.item_counter → (internal_copy_assign X self vec).buffer j = vec.buffer j) ∧
    (internal_copy_assign X self vec).items = vec.items := by
  have key := forUp_inv (fun i (s : vector T) => internal_push_back s (vec.buffer i))
    (fun i (s : vector T) => (i ≤ vec.item_counter → s.item_counter = i ∧
      s.buffer_size = self.buffer_size ∧ ∀ j, j < i → s.buffer j = vec.buffer j))
    vec.item_counter 0 (internal_clear_items X self)
    (fun _ => ⟨internal_clear_items_count X self, internal_clear_items_capacity X self,
      fun j hj => absurd hj (Nat.not_lt_zero j)⟩)
    (fun i s _ hhi hP hi => by
      obtain ⟨h1, h2, h3⟩ := hP (by omega)
      refine ⟨?_, h2, fun j hj => ?_⟩
      · show size_t_wrap (s.item_counter + 1) = i + 1
        unfold size_t_wrap
        rw [h1]
        omega
      · show construct_at s.buffer s.item_counter (vec.buffer i) j = _
        rw [h1]
        by_cases hji : j = i
        · rw [hji, construct_at_eq]
        · rw [construct_at_ne _ _ _ _ hji]
          exact h3 j (by omega))
  rw [Nat.zero_add] at key
  have hdef : internal_copy_assign X self vec =
      forUp (fun i (s : vector T) => internal_push_back s (vec.buffer i)) vec.item_counter 0
        (internal_clear_items X self) := by
    unfold internal_copy_assign
    rw [if_pos hX, if_pos hle]
  rw [hdef]
  obtain ⟨h1, h2, h3⟩ := key (Nat.le_refl _)
  exact ⟨h1, h2, h3, items_eq_of_buffer _ vec h1 h3⟩

theorem internal_copy_assign_fresh (X : Traits) (self vec : vector T)
    (h : X.is_nothrow_destructible = false ∨ vec.item_counter < self.buffer_size) :
    internal_copy_assign X self vec = ctor_copy X vec := by
  unfold internal_copy_assign
  by_cases hX : X.is_nothrow_destructible = true
  · rw [if_pos hX]
    rcases h with h | h
    · rw [h] at hX
      cases hX
    · rw [if_neg (by omega)]
      rfl
  · rw [if_neg hX]
    rfl

end vector

open vector

/-- C21: `resize(n)` leaves the first `min(count, n)` elements, the count `min(count, n)`
and the capacity it found; with `n >= count` the vector is unchanged. -/
theorem resize_only_shrinks {T : Type} (X : Traits) (a : vector T) (n : Nat) :
    (resize X a n).items = a.items.take (min a.item_counter n) ∧
    (resize X a n).item_counter = min a.item_counter n ∧
    (resize X a n).buffer_size = a.buffer_size ∧
    (n ≥ a.item_counter → resize X a n = a) := by
  obtain ⟨h1, h2, _, h4⟩ := resize_spec X a n
  exact ⟨h4, h1, h2, resize_of_ge X a n⟩

/-- C21 at work on `{1, 2, 3}`: `resize(1)` leaves `{1}` in a buffer of 3 slots, `resize(5)`
changes nothing. -/
theorem resize_only_shrinks_witness :
    (resize Traits.scalar (ctor_list [1, 2, 3] : vector Nat) 1).items = [some 1] ∧
    (resize Traits.scalar (ctor_list [1, 2, 3] : vector Nat) 1).item_counter = 1 ∧
    (resize Traits.scalar (ctor_list [1, 2, 3] : vector Nat) 1).buffer_size = 3 ∧
    resize Traits.scalar (ctor_list [1, 2, 3] : vector Nat) 5 = ctor_list [1, 2, 3] :=
  have h := resize_only_shrinks Traits.scalar (ctor_list [1, 2, 3] : vector Nat) 1
  have h5 := resize_only_shrinks Traits.scalar (ctor_list [1, 2, 3] : vector Nat) 5
  ⟨h.1, h.2.1, h.2.2.1, h5.2.2.2 (by decide)⟩

/-- C22: on a vector whose count is a `size_t` value, `reserve(n)` with `n <= capacity`
changes nothing; with `n > capacity` the capacity becomes `max(2, n)`, which is at least
`n`, while the count and the elements, in order, stay as they were. -/
theorem reserve_grows_to_request {T : Type} (X : Traits) (a : vector T) (n : Nat)
    (h : a.item_counter < 2 ^ 64) :
    (n ≤ a.buffer_size → reserve X a n = a) ∧
    (n > a.buffer_size →
      n ≤ (reserve X a n).buffer_size ∧ (reserve X a n).buffer_size = max 2 n ∧
      (reserve X a n).item_counter = a.item_counter ∧ (reserve X a n).items = a.items) := by
  obtain ⟨h1, h2, h3⟩ := reserve_spec X a n h
  refine ⟨fun hle => ?_, fun hgt => ?_⟩
  · unfold reserve
    rw [if_neg (by omega)]
  · rw [if_pos hgt] at h2
    have hmax : EXT_VECTOR_SIZE n = max 2 n := by
      unfold EXT_VECTOR_SIZE
      split_ifs <;> omega
    rw [hmax] at h2
    exact ⟨by rw [h2]; omega, h2, h1, items_eq_of_buffer _ a h1 h3⟩

/-- C22 at work on `{1, 2, 3}` (capacity 3): `reserve(2)` changes nothing, `reserve(10)`
gives capacity 10 with the same three elements. -/
theorem reserve_grows_to_request_witness :
    reserve Traits.scalar (ctor_list [1, 2, 3] : vector Nat) 2 = ctor_list [1, 2, 3] ∧
    (reserve Traits.scalar (ctor_list [1, 2, 3] : vector Nat) 10).buffer_size = 10 ∧
    (reserve Traits.scalar (ctor_list [1, 2, 3] : vector Nat) 10).item_counter = 3 ∧
    (reserve Traits.scalar (ctor_list [1, 2, 3] : vector Nat) 10).items =
      [some 1, some 2, some 3] :=
  have h2 := reserve_grows_to_request Traits.scalar (ctor_list [1, 2, 3] : vector Nat) 2
    (by decide)
  have h10 := reserve_grows_to_request Traits.scalar (ctor_list [1, 2, 3] : vector Nat) 10
    (by decide)
  ⟨h2.1 (by decide), (h10.2 (by decide)).2.1, (h10.2 (by decide)).2.2.1,
    (h10.2 (by decide)).2.2.2⟩

/-- C23: on a vector whose count is a `size_t` value, `shrink_to_fit()` leaves the
capacity `max(2, count)` and the count and the elements, in order, as they were. -/
theorem shrink_to_fit_minimal {T : Type} (X : Traits) (a : vector T)
    (h : a.item_counter < 2 ^ 64) :
    (shrink_to_fit X a).buffer_size = max 2 a.item_counter ∧
    (shrink_to_fit X a).item_counter = a.item_counter ∧
    (shrink_to_fit X a).items = a.items := by
  obtain ⟨h1, h2, _, h4⟩ := shrink_to_fit_spec X a h
  exact ⟨h2, h1, h4⟩

/-- C23 at work: `{1, 2, 3}` after `reserve(10)` shrinks to capacity 3, a vector with the
single element 1 in 10 slots shrinks to capacity 2. -/
theorem shrink_to_fit_minimal_witness :
    (shrink_to_fit Traits.scalar
      (reserve Traits.scalar (ctor_list [1, 2, 3] : vector Nat) 10)).buffer_size = 3 ∧
    (shrink_to_fit Traits.scalar
      (reserve Traits.scalar (ctor_list [1, 2, 3] : vector Nat) 10)).items =
        [some 1, some 2, some 3] ∧
    (shrink_to_fit Traits.scalar
      (reserve Traits.scalar (ctor_list [1] : vector Nat) 10)).buffer_size = 2 :=
  have h := shrink_to_fit_minimal Traits.scalar
    (reserve Traits.scalar (ctor_list [1, 2, 3] : vector Nat) 10) (by decide)
  have h1 := shrink_to_fit_minimal Traits.scalar
    (reserve Traits.scalar (ctor_list [1] : vector Nat) 10) (by decide)
  ⟨h.1, h.2.2, h1.1⟩

/-- C24, evaluated on the code: for a nothrow-destructible element type
`internal_copy_assign` keeps the buffer of `this` when `buffer_size <= vec.item_counter`
and builds a copy in a new buffer otherwise, the reverse of the claim. A default-constructed
`a` (capacity 2) assigned from `b = {1, 2, 3}` keeps its 2 slots and ends with count 3
above its capacity 2; an empty `a` with 8 slots assigned from `b = {1}` does not keep its
buffer, it ends as the copy of `b` with capacity 2. -/
theorem assign_copy_reuse_test_inverted :
    ((ctor_default : vector Nat).buffer_size < (ctor_list [1, 2, 3] : vector Nat).item_counter ∧
      (assign_copy Traits.scalar (ctor_default : vector Nat) (ctor_list [1, 2, 3])).buffer_size =
        (ctor_default : vector Nat).buffer_size ∧
      (assign_copy Traits.scalar (ctor_default : vector Nat) (ctor_list [1, 2, 3])).items =
        [some 1, some 2, some 3] ∧
      ¬ (assign_copy Traits.scalar (ctor_default : vector Nat) (ctor_list [1, 2, 3])).item_counter ≤
        (assign_copy Traits.scalar (ctor_default : vector Nat)
          (ctor_list [1, 2, 3])).buffer_size) ∧
    ((ctor_list [1] : vector Nat).item_counter ≤ (ctor_size 8 : vector Nat).buffer_size ∧
      assign_copy Traits.scalar (ctor_size 8 : vector Nat) (ctor_list [1]) =
        ctor_copy Traits.scalar (ctor_list [1]) ∧
      (assign_copy Traits.scalar (ctor_size 8 : vector Nat) (ctor_list [1])).buffer_size = 2 ∧
      (assign_copy Traits.scalar (ctor_size 8 : vector Nat) (ctor_list [1])).items =
        [some 1]) :=
  ⟨⟨by decide, rfl, rfl, by decide⟩, ⟨by decide, rfl, rfl, rfl⟩⟩

/-- C25: move construction gives the new vector the state of its source (count, capacity
and elements) and leaves the source with count 0, capacity 0 and no buffer; move assignment
of `a` to a distinct `b` exchanges the two states. -/
theorem move_transfers_state {T : Type} (a b : vector T) :
    (ctor_move a).1 = a ∧
    (ctor_move a).1.item_counter = a.item_counter ∧
    (ctor_move a).1.buffer_size = a.buffer_size ∧
    (ctor_move a).1.items = a.items ∧
    (ctor_move a).2.item_counter = 0 ∧ (ctor_move a).2.buffer_size = 0 ∧
    (ctor_move a).2.items = [] ∧
    (assign_move b a).1 = a ∧ (assign_move b a).2 = b :=
  ⟨rfl, rfl, rfl, rfl, rfl, rfl, rfl, rfl, rfl⟩

end ext

/-! ## Construction from a source and injectivity of the flattening -/

namespace ext

theorem forUp_store {T : Type} (body : Nat → (Nat → Option T) → Nat → Option T)
    (v : Nat → Option T) (h : ∀ i b j, body i b j = if j = i then v i else b j) :
    ∀ (fuel lo : Nat) (b : Nat → Option T) (j : Nat),
      forUp body fuel lo b j = if lo ≤ j ∧ j < lo + fuel then v j else b j := by
  intro fuel
  induction fuel with
  | zero =>
    intro lo b j
    have : ¬ (lo ≤ j ∧ j < lo + 0) := by omega
    simp only [forUp, this, if_false]
  | succ k ih =>
    intro lo b j
    show forUp body k (lo + 1) (body lo b) j = _
    rw [ih (lo + 1) (body lo b) j, h lo b j]
    by_cases h1 : lo + 1 ≤ j ∧ j < lo + 1 + k
    · rw [if_pos h1, if_pos (by omega)]
    · rw [if_neg h1]
      by_cases h2 : j = lo
      · rw [if_pos h2, if_pos (by omega), h2]
      · rw [if_neg h2, if_neg (by omega)]

theorem row_major_offset_inj :
    ∀ (dims is js : List Nat), (∀ m ∈ dims, 1 ≤ m) →
      is.length = dims.length → js.length = dims.length →
      (∀ p ∈ is.zip dims, p.1 < p.2) → (∀ p ∈ js.zip dims, p.1 < p.2) →
      row_major_offset dims is = row_major_offset dims js → is = js := by
  intro dims
  induction dims with
  | nil =>
    intro is js _ hi hj _ _ _
    rw [List.length_eq_zero.mp hi, List.length_eq_zero.mp hj]
  | cons n ns ih =>
    intro is js hpos hi hj hiv hjv heq
    cases is with
    | nil => simp at hi
    | cons i is =>
      cases js with
      | nil => simp at hj
      | cons j js =>
        simp only [List.length_cons, Nat.add_right_cancel_iff] at hi hj
        have hpos2 : ∀ m ∈ ns, 1 ≤ m := fun m hm => hpos m (List.mem_cons_of_mem _ hm)
        have hiv2 : ∀ p ∈ is.zip ns, p.1 < p.2 :=
          fun p hp => hiv p (by rw [List.zip_cons_cons]; exact List.mem_cons_of_mem _ hp)
        have hjv2 : ∀ p ∈ js.zip ns, p.1 < p.2 :=
          fun p hp => hjv p (by rw [List.zip_cons_cons]; exact List.mem_cons_of_mem _ hp)
        have h1 := dynamic_array.row_major_offset_lt ns is hpos2 hiv2 (by omega)
        have h2 := dynamic_array.row_major_offset_lt ns js hpos2 hjv2 (by omega)
        simp only [row_major_offset] at heq
        generalize hr1 : row_major_offset ns is = r1 at h1 heq
        generalize hr2 : row_major_offset ns js = r2 at h2 heq
        have hij : i = j := by
          rcases Nat.lt_trichotomy i j with h | h | h
          · have := Nat.mul_le_mul_right ns.prod (Nat.succ_le_of_lt h)
            rw [Nat.succ_mul] at this
            omega
          · exact h
          · have := Nat.mul_le_mul_right ns.prod (Nat.succ_le_of_lt h)
            rw [Nat.succ_mul] at this
            omega
        rw [hij] at heq
        have hr : r1 = r2 := by omega
        rw [hij]
        congr 1
        apply ih is js hpos2 hi hj hiv2 hjv2
        rw [hr1, hr2, hr]

namespace dynamic_array

variable {T : Type}

theorem assign_from_pointer_buffer (X : Traits) (a : dynamic_array T) (data : Nat → Option T)
    (len j : Nat) :
    (_internal_assign_from_pointer X a data len).buffer j =
      if j < len then data j else a.buffer j := by
  show forUp (fun i b =>
      construct_at (if X.is_trivially_destructible then b else destroy_at b i) i (data i))
    len 0 a.buffer j = _
  rw [forUp_store
    (fun i b => construct_at (if X.is_trivially_destructible then b else destroy_at b i) i
      (data i)) data (fun i b j => clear_body_eq X (data i) i b j)]
  by_cases hj : j < len
  · rw [if_pos hj, if_pos (by omega)]
  · rw [if_neg hj, if_neg (by omega)]

theorem ctor_pointer_eq [Inhabited T] (X : Traits) (data : Nat → Option T) (len d : Nat)
    (n : Int) (ns : List Int) (a : dynamic_array T) (h : ctor d n ns = .ok a) :
    ctor_pointer X data len d n ns =
      if len > a._size then .error (.raised .TooManyInitialElements)
      else .ok (_internal_assign_from_pointer X a data len) := by
  have h2 : _internal_constructor_work d n ns = .ok a := h
  unfold ctor_pointer
  rw [h2]

theorem calculate_index_rest_defined (_n : List Nat) :
    ∀ (fuel index count : Nat), count + fuel ≤ _n.length →
      ∃ r, _internal_calculate_index_rest _n fuel index count = .ok r := by
  intro fuel
  induction fuel with
  | zero => intro index count _; exact ⟨index, rfl⟩
  | succ k ih =>
    intro index count h
    have hlt : count < _n.length := by omega
    unfold _internal_calculate_index_rest
    rw [List.getElem?_eq_getElem hlt]
    exact ih _ (count + 1) (by omega)

theorem calculate_index_loop_defined (_n : List Nat) :
    ∀ (is : List Nat) (index count : Nat), count + is.length ≤ _n.length →
      _internal_calculate_index_loop _n is index false count ≠ .error .undefined := by
  intro is
  induction is with
  | nil =>
    intro index count _ h
    simp [_internal_calculate_index_loop] at h
  | cons i rest ih =>
    intro index count hlen
    simp only [List.length_cons] at hlen
    have hlt : count < _n.length := by omega
    unfold _internal_calculate_index_loop
    rw [List.getElem?_eq_getElem hlt]
    dsimp only
    by_cases hi : i ≥ _n[count]
    · rw [if_pos hi]
      intro h
      cases h
    · rw [if_neg hi]
      simp only [Bool.not_false, if_true]
      exact ih _ (count + 1) (by omega)

theorem calculate_index_defined (a : dynamic_array T) (indices : List Nat)
    (hd : a._n.length = a._d) (h2 : 2 ≤ a._d) (hk : indices.length ≤ a._d) :
    a._internal_calculate_index indices ≠ .error .undefined := by
  unfold _internal_calculate_index
  cases indices with
  | nil =>
    simp only [_internal_calculate_index_loop]
    obtain ⟨r, hr⟩ := calculate_index_rest_defined a._n (a._d - 1) 0 1 (by omega)
    rw [hr]
    intro h
    cases h
  | cons i rest =>
    simp only [List.length_cons] at hk
    have hlt : 1 < a._n.length := by omega
    unfold _internal_calculate_index_loop
    rw [List.getElem?_eq_getElem hlt]
    dsimp only
    by_cases hi : i ≥ a._n[1]
    · rw [if_pos hi]
      intro h
      cases h
    · rw [if_neg hi]
      simp only [Bool.not_true, Bool.false_eq_true, if_false]
      have hloop := calculate_index_loop_defined a._n rest (size_t_wrap (0 + i)) 1 (by omega)
      cases hres : _internal_calculate_index_loop a._n rest (size_t_wrap (0 + i)) false 1 with
      | error e =>
        intro h
        rw [hres] at hloop
        cases h
        exact hloop rfl
      | ok p =>
        obtain ⟨v, c⟩ := p
        obtain ⟨hc, _⟩ := calculate_index_loop_count rest a._n _ 1 v c hres
        obtain ⟨r, hr⟩ := calculate_index_rest_defined a._n (a._d - c) v c (by omega)
        show _internal_calculate_index_rest a._n (a._d - c) v c ≠ _
        rw [hr]
        intro h
        cases h

theorem calculate_index_one_dimension (a : dynamic_array T) (i : Nat) (rest : List Nat)
    (h : a._n.length ≤ 1) : a._internal_calculate_index (i :: rest) = .error .undefined := by
  unfold _internal_calculate_index _internal_calculate_index_loop
  rw [List.getElem?_eq_none h]

end dynamic_array

open dynamic_array

/-- C26: when the dimensions are valid, so that the plain constructor gives an array `a`,
the constructor from `data` and `len` fails with `TooManyInitialElements` exactly when
`len > total_size`; otherwise it gives an array of the same dimensions in which slot `j`
holds `data[j]` for `j < len` and the default value for `len <= j < total_size`. -/
theorem ctor_pointer_copies_source {T : Type} [Inhabited T] (X : Traits)
    (data : Nat → Option T) (len d : Nat) (n : Int) (ns : List Int) (a : dynamic_array T)
    (hctor : ctor d n ns = .ok a) :
    (ctor_pointer X data len d n ns = .error (.raised .TooManyInitialElements) ↔
      len > a._size) ∧
    (len ≤ a._size →
      ∃ r, ctor_pointer X data len d n ns = .ok r ∧ r._n = a._n ∧ r._d = a._d ∧
        r._size = a._size ∧ (∀ j, j < len → r.buffer j = data j) ∧
        (∀ j, len ≤ j → j < a._size → r.buffer j = some default)) := by
  have heq := ctor_pointer_eq X data len d n ns a hctor
  refine ⟨⟨fun h => ?_, fun h => by rw [heq, if_pos h]⟩, fun hle => ?_⟩
  · by_contra hn
    rw [heq, if_neg hn] at h
    cases h
  · refine ⟨_internal_assign_from_pointer X a data len, by rw [heq, if_neg (by omega)],
      rfl, rfl, rfl, fun j hj => ?_, fun j h1 h2 => ?_⟩
    · rw [assign_from_pointer_buffer, if_pos hj]
    · rw [assign_from_pointer_buffer, if_neg (by omega), ctor_ok_buffer d n ns a hctor j,
        if_pos h2]

/-- C26 at work on the dimensions `(2, 2)`, 4 slots, with the source `10, 11, ...`: two
elements give the slots `10, 11, 0, 0`, five elements are rejected. -/
theorem ctor_pointer_copies_source_witness :
    (∃ r : dynamic_array Nat,
      ctor_pointer Traits.scalar (fun j => some (j + 10)) 2 2 2 [2] = .ok r ∧
      r._size = 4 ∧ r.buffer 0 = some 10 ∧ r.buffer 1 = some 11 ∧ r.buffer 2 = some 0 ∧
      r.buffer 3 = some 0) ∧
    (ctor_pointer Traits.scalar (fun j => some (j + 10)) 5 2 2 [2] :
      Except Fault (dynamic_array Nat)) = .error (.raised .TooManyInitialElements) := by
  have h2 := ctor_pointer_copies_source (T := Nat) Traits.scalar (fun j => some (j + 10)) 2
    2 2 [2] _ rfl
  have h5 := ctor_pointer_copies_source (T := Nat) Traits.scalar (fun j => some (j + 10)) 5
    2 2 [2] _ rfl
  obtain ⟨r, hr, _, _, hs, hlo, hhi⟩ := h2.2 (by decide)
  exact ⟨⟨r, hr, hs, hlo 0 (by decide), hlo 1 (by decide), hhi 2 (by decide) (by decide),
    hhi 3 (by decide) (by decide)⟩, h5.1.2 (by decide)⟩

/-- C29 as stated fails: on the dimensions `(2 ^ 33, 2 ^ 33)`, all at least 1, the two
distinct in-range tuples `(0, 0)` and `(2 ^ 31, 0)` are both given the offset 0. -/
theorem flattening_aliases_when_product_wraps :
    ∃ a : dynamic_array Nat, ctor 2 (2 ^ 33) [] = .ok a ∧ a._n = [2 ^ 33, 2 ^ 33] ∧
      (∀ m ∈ a._n, 1 ≤ m) ∧
      (∀ p ∈ ([0, 0] : List Nat).zip a._n, p.1 < p.2) ∧
      (∀ p ∈ ([2 ^ 31, 0] : List Nat).zip a._n, p.1 < p.2) ∧
      ([0, 0] : List Nat) ≠ [2 ^ 31, 0] ∧
      a._internal_calculate_index [0, 0] = .ok 0 ∧
      a._internal_calculate_index [2 ^ 31, 0] = .ok 0 :=
  ⟨_, rfl, by decide, by decide, by decide, by decide, by decide, rfl, rfl⟩

/-- C29, amended: on an array with `D` dimension sizes, each at least 1, whose product is
below `2 ^ 64`, two distinct tuples of `D` in-range indices for which the index calculation
returns a value are given different offsets. -/
theorem flattening_injective {T : Type} (a : dynamic_array T) (is js : List Nat) (v w : Nat)
    (hd : a._n.length = a._d) (hpos : ∀ m ∈ a._n, 1 ≤ m) (hprod : a._n.prod < 2 ^ 64)
    (hi : is.length = a._d) (hj : js.length = a._d)
    (hiv : ∀ p ∈ is.zip a._n, p.1 < p.2) (hjv : ∀ p ∈ js.zip a._n, p.1 < p.2)
    (h1 : a._internal_calculate_index is = .ok v)
    (h2 : a._internal_calculate_index js = .ok w) (hne : is ≠ js) : v ≠ w := by
  have hv := calculate_index_value a is v hd h1
  have hw := calculate_index_value a js w hd h2
  have hlt1 := row_major_offset_lt a._n is hpos hiv (by omega)
  have hlt2 := row_major_offset_lt a._n js hpos hjv (by omega)
  rw [Nat.mod_eq_of_lt (Nat.lt_trans hlt1 hprod)] at hv
  rw [Nat.mod_eq_of_lt (Nat.lt_trans hlt2 hprod)] at hw
  intro hvw
  apply hne
  apply row_major_offset_inj a._n is js hpos (by omega) (by omega) hiv hjv
  rw [← hv, ← hw, hvw]

/-- C29, amended, at work: on the dimensions `(4, 2, 2)` the tuples `(1, 0, 1)` and
`(1, 1, 0)` are given the offsets 5 and 6. -/
theorem flattening_injective_witness :
    ∃ a : dynamic_array Nat, ctor 3 4 [2, 2] = .ok a ∧
      a._internal_calculate_index [1, 0, 1] = .ok 5 ∧
      a._internal_calculate_index [1, 1, 0] = .ok 6 ∧
      ∀ v w, a._internal_calculate_index [1, 0, 1] = .ok v →
        a._internal_calculate_index [1, 1, 0] = .ok w → v ≠ w := by
  refine ⟨_, rfl, rfl, rfl, ?_⟩
  intro v w h1 h2
  refine flattening_injective (T := Nat) _ [1, 0, 1] [1, 1, 0] v w ?_ ?_ ?_ ?_ ?_ ?_ ?_ h1 h2 ?_
  · rfl
  · decide
  · decide
  · rfl
  · rfl
  · decide
  · decide
  · decide

/-- C30, evaluated on the code: the bounds check of the first index reads `_n[1]`. On a
one-dimensional array, whose block of sizes has the single position 0, the calculation for
one index therefore reads position 1, past the block: `at(0)` and `operator[](0)` on the
array of 5 elements have no defined result. -/
theorem calculate_index_reads_past_sizes :
    ∃ a : dynamic_array Nat, ctor 1 5 [] = .ok a ∧ a._d = 1 ∧ a._n = [5] ∧
      ([0] : List Nat).length ≤ a._d ∧ a._n[1]? = none ∧
      a._internal_calculate_index [0] = .error .undefined ∧
      a.at_ [0] = .error .undefined ∧ a.operator_index [0] = .error .undefined :=
  ⟨_, rfl, rfl, rfl, by decide, rfl, rfl, rfl, rfl⟩

end ext

/-! ## Lifetimes of the objects during `insert` -/

namespace ext

namespace vector

namespace lifetimes

theorem construct_at_live (s : lifetimes) (i j : Nat) :
    (construct_at s i).live j = if j = i then true else s.live j := rfl

theorem destroy_at_of_live (s : lifetimes) (i : Nat) (h : s.live i = true) :
    destroy_at s i = { s with live := fun j => if j = i then false else s.live j } := by
  unfold destroy_at
  rw [if_pos h]

theorem destroy_at_of_dead (s : lifetimes) (i : Nat) (h : s.live i = false) :
    destroy_at s i = { s with destroyed_dead := s.destroyed_dead ++ [i] } := by
  unfold destroy_at
  rw [if_neg (by rw [h]; exact Bool.false_ne_true)]

theorem internal_simple_copy_lifetimes (self dst : lifetimes)
    (h : dst.item_counter + self.item_counter < 2 ^ 64) :
    (internal_simple_copy self dst).item_counter = dst.item_counter + self.item_counter ∧
    (internal_simple_copy self dst).buffer_size = dst.buffer_size ∧
    (internal_simple_copy self dst).destroyed_dead = dst.destroyed_dead ∧
    ∀ j, (internal_simple_copy self dst).live j =
      if dst.item_counter ≤ j ∧ j < dst.item_counter + self.item_counter then true
      else dst.live j := by
  have key := forUp_inv (fun _ (d : lifetimes) => internal_move_back d)
    (fun i (d : lifetimes) => d.item_counter = dst.item_counter + i ∧
      d.buffer_size = dst.buffer_size ∧ d.destroyed_dead = dst.destroyed_dead ∧
      ∀ j, d.live j = if dst.item_counter ≤ j ∧ j < dst.item_counter + i then true
        else dst.live j)
    self.item_counter 0 dst
    ⟨rfl, rfl, rfl, fun j => by rw [if_neg (by omega)]⟩
    (fun i d _ hhi hP => by
      obtain ⟨h1, h2, h3, h4⟩ := hP
      refine ⟨?_, h2, h3, fun j => ?_⟩
      · show size_t_wrap (d.item_counter + 1) = _
        unfold size_t_wrap
        rw [h1]
        omega
      · show (if j = d.item_counter then true else d.live j) = _
        rw [h1, h4 j]
        by_cases hj : j = dst.item_counter + i
        · rw [if_pos hj, if_pos (by omega)]
        · rw [if_neg hj]
          by_cases hj2 : dst.item_counter ≤ j ∧ j < dst.item_counter + i
          · rw [if_pos hj2, if_pos (by omega)]
          · rw [if_neg hj2, if_neg (by omega)])
  rw [Nat.zero_add] at key
  exact key

theorem internal_clear_items_spec (self : lifetimes)
    (h : ∀ j, j < self.item_counter → self.live j = true) :
    (internal_clear_items self).destroyed_dead = self.destroyed_dead := by
  have key := forUp_inv (fun i (s : lifetimes) => destroy_at s i)
    (fun i (s : lifetimes) => s.destroyed_dead = self.destroyed_dead ∧
      ∀ j, i ≤ j → s.live j = self.live j)
    self.item_counter 0 self ⟨rfl, fun _ _ => rfl⟩
    (fun i s _ hhi hP => by
      obtain ⟨h1, h2⟩ := hP
      have hl : s.live i = true := by rw [h2 i (Nat.le_refl _)]; exact h i (by omega)
      dsimp only
      rw [destroy_at_of_live s i hl]
      refine ⟨h1, fun j hj => ?_⟩
      show (if j = i then false else s.live j) = _
      rw [if_neg (by omega)]
      exact h2 j (by omega))
  exact key.1

theorem internal_resize_lifetimes (self : lifetimes) (newSize : Nat)
    (hc : self.item_counter < 2 ^ 64)
    (hl : ∀ j, self.live j = true ↔ j < self.item_counter) :
    (internal_resize self newSize).item_counter = self.item_counter ∧
    (internal_resize self newSize).buffer_size = EXT_VECTOR_SIZE newSize ∧
    (internal_resize self newSize).destroyed_dead = self.destroyed_dead ∧
    ∀ j, (internal_resize self newSize).live j = true ↔ j < self.item_counter := by
  obtain ⟨h1, h2, _, h4⟩ := internal_simple_copy_lifetimes self (ctor_size newSize)
    (by show 0 + self.item_counter < 2 ^ 64; omega)
  refine ⟨?_, h2, internal_clear_items_spec self (fun j hj => (hl j).2 hj), fun j => ?_⟩
  · show (internal_simple_copy self (ctor_size newSize)).item_counter = _
    rw [h1]
    show 0 + self.item_counter = _
    omega
  · show (internal_simple_copy self (ctor_size newSize)).live j = true ↔ _
    rw [h4 j]
    show (if 0 ≤ j ∧ j < 0 + self.item_counter then true else false) = true ↔ _
    by_cases hj : j < self.item_counter
    · rw [if_pos ⟨Nat.zero_le _, by omega⟩]
      exact ⟨fun _ => hj, fun _ => rfl⟩
    · rw [if_neg (by omega)]
      exact ⟨fun h => (by cases h), fun h => absurd h hj⟩

theorem reserve_lifetimes (self : lifetimes) (newSize : Nat) (hc : self.item_counter < 2 ^ 64)
    (hl : ∀ j, self.live j = true ↔ j < self.item_counter) :
    (reserve self newSize).item_counter = self.item_counter ∧
    (reserve self newSize).buffer_size =
      (if newSize > self.buffer_size then EXT_VECTOR_SIZE newSize else self.buffer_size) ∧
    (reserve self newSize).destroyed_dead = self.destroyed_dead ∧
    ∀ j, (reserve self newSize).live j = true ↔ j < self.item_counter := by
  unfold reserve
  by_cases hn : newSize > self.buffer_size
  · rw [if_pos hn, if_pos hn]
    exact internal_resize_lifetimes self newSize hc hl
  · rw [if_neg hn, if_neg hn]
    exact ⟨rfl, rfl, rfl, hl⟩

theorem internal_shift_right_lifetimes (self : lifetimes) (index : Nat)
    (hi : index < self.item_counter) (hc : self.item_counter + 1 < 2 ^ 64)
    (hl : ∀ j, self.live j = true ↔ j < self.item_counter) :
    (internal_shift_right self index).item_counter = self.item_counter ∧
    (internal_shift_right self index).buffer_size =
      (if self.item_counter + 1 > self.buffer_size then EXT_VECTOR_SIZE (self.item_counter + 1)
       else self.buffer_size) ∧
    (internal_shift_right self index).destroyed_dead = self.destroyed_dead ∧
    ∀ j, (internal_shift_right self index).live j = true ↔
      j ≤ self.item_counter ∧ j ≠ index := by
  have hw : size_t_wrap (self.item_counter + 1) = self.item_counter + 1 := by
    unfold size_t_wrap
    omega
  obtain ⟨r1, r2, r3, r4⟩ := reserve_lifetimes self (self.item_counter + 1) (by omega) hl
  have key := forDown_inv
    (fun i (s : lifetimes) => destroy_at (internal_move_or_copy s (i - 1) i) (i - 1))
    (fun k (s : lifetimes) => s.item_counter = self.item_counter ∧
      s.buffer_size = (reserve self (self.item_counter + 1)).buffer_size ∧
      s.destroyed_dead = self.destroyed_dead ∧
      ∀ j, s.live j = true ↔ j ≤ self.item_counter ∧ j ≠ k)
    (self.item_counter - index) self.item_counter (reserve self (self.item_counter + 1))
    (Nat.sub_le _ _)
    ⟨r1, rfl, r3, fun j => by rw [r4 j]; omega⟩
    (fun k s hlo hhi hP => by
      obtain ⟨h1, h2, h3, h4⟩ := hP
      have hlive : (internal_move_or_copy s (k - 1) k).live (k - 1) = true := by
        show (if k - 1 = k then true else s.live (k - 1)) = true
        rw [if_neg (by omega)]
        exact (h4 (k - 1)).2 (by omega)
      dsimp only
      rw [destroy_at_of_live _ _ hlive]
      refine ⟨h1, h2, h3, fun j => ?_⟩
      show (if j = k - 1 then false else if j = k then true else s.live j) = true ↔ _
      by_cases hj1 : j = k - 1
      · rw [if_pos hj1]
        exact ⟨fun h => (by cases h), fun h => absurd hj1 h.2⟩
      · rw [if_neg hj1]
        by_cases hj2 : j = k
        · rw [if_pos hj2]
          exact ⟨fun _ => ⟨by omega, hj1⟩, fun _ => rfl⟩
        · rw [if_neg hj2, h4 j]
          exact ⟨fun h => ⟨h.1, hj1⟩, fun h => ⟨h.1, hj2⟩⟩)
  have hsub : self.item_counter - (self.item_counter - index) = index := by omega
  rw [hsub] at key
  obtain ⟨k1, k2, k3, k4⟩ := key
  have hdef : internal_shift_right self index =
      forDown (fun i (s : lifetimes) => destroy_at (internal_move_or_copy s (i - 1) i) (i - 1))
        (self.item_counter - index) self.item_counter (reserve self (self.item_counter + 1)) := by
    unfold internal_shift_right
    rw [hw]
    dsimp only
    rw [r1]
  rw [hdef]
  exact ⟨k1, by rw [k2, r2], k3, k4⟩

theorem insert_lifetimes (self : lifetimes) (i : Nat)
    (hi : i < self.item_counter) (hc : self.item_counter + 1 < 2 ^ 64)
    (hl : ∀ j, self.live j = true ↔ j < self.item_counter) :
    ∃ r, insert self i = .ok r ∧ r.item_counter = self.item_counter + 1 ∧
      r.destroyed_dead = self.destroyed_dead ++ [i] ∧
      ∀ j, r.live j = true ↔ j < self.item_counter + 1 := by
  obtain ⟨s1, _, s3, s4⟩ := internal_shift_right_lifetimes self i hi hc hl
  have hdead : (internal_shift_right self i).live i = false := by
    cases hb : (internal_shift_right self i).live i with
    | false => rfl
    | true => exact absurd rfl ((s4 i).1 hb).2
  refine ⟨internal_copy_insert self i, ?_, ?_, ?_, fun j => ?_⟩
  · unfold insert
    rw [if_neg (by omega)]
  · show size_t_wrap ((construct_at (destroy_at (internal_shift_right self i) i) i).item_counter
      + 1) = _
    rw [destroy_at_of_dead _ _ hdead]
    show size_t_wrap ((internal_shift_right self i).item_counter + 1) = _
    rw [s1]
    unfold size_t_wrap
    omega
  · show (construct_at (destroy_at (internal_shift_right self i) i) i).destroyed_dead = _
    rw [destroy_at_of_dead _ _ hdead]
    show (internal_shift_right self i).destroyed_dead ++ [i] = _
    rw [s3]
  · show (construct_at (destroy_at (internal_shift_right self i) i) i).live j = true ↔ _
    rw [destroy_at_of_dead _ _ hdead]
    show (if j = i then true else (internal_shift_right self i).live j) = true ↔ _
    by_cases hj : j = i
    · rw [if_pos hj]
      exact ⟨fun _ => (by omega), fun _ => rfl⟩
    · rw [if_neg hj, s4 j]
      exact ⟨fun h => (by omega), fun h => ⟨by omega, hj⟩⟩

end lifetimes

end vector

/-- C28, evaluated on the code: `internal_shift_right` ends its loop with the destructor
call on `buffer[index]`, and `internal_copy_insert` (like `internal_move_insert` and
`internal_emplace`) calls the destructor on `buffer[index]` again before it constructs the
new element there. For `insert(0, item)` on a vector of two elements the record of
destructor calls on dead slots is `[0]`, while the slots alive afterwards are exactly
`0, 1, 2`. -/
theorem insert_destroys_dead_slot :
    (vector.lifetimes.ctor_list 2).item_counter = 2 ∧
    (vector.lifetimes.ctor_list 2).destroyed_dead = [] ∧
    (∀ j, j < 4 → (vector.lifetimes.ctor_list 2).live j = decide (j < 2)) ∧
    (vector.lifetimes.internal_shift_right (vector.lifetimes.ctor_list 2) 0).live 0 = false ∧
    (vector.lifetimes.internal_shift_right (vector.lifetimes.ctor_list 2) 0).destroyed_dead
      = [] ∧
    ∃ r, vector.lifetimes.insert (vector.lifetimes.ctor_list 2) 0 = .ok r ∧
      r.destroyed_dead = [0] ∧ r.item_counter = 3 ∧
      (∀ j, j < 5 → r.live j = decide (j < 3)) ∧
      vector.lifetimes.insert_move (vector.lifetimes.ctor_list 2) 0 = .ok r ∧
      vector.lifetimes.emplace (vector.lifetimes.ctor_list 2) 0 = .ok r :=
  ⟨rfl, rfl, by decide, rfl, rfl, _, rfl, rfl, rfl, by decide, rfl, rfl⟩

end ext

/-! ## The overloads selected on the element type agree -/

namespace ext

namespace vector

variable {T : Type}

theorem map_observe_ok {α : Type} (f : vector T → α) (x y : Except Fault (vector T))
    (r s : vector T) (hx : x = .ok r) (hy : y = .ok s) (h : f r = f s) :
    x.map f = y.map f := by
  rw [hx, hy]
  show Except.ok (f r) = Except.ok (f s)
  rw [h]

theorem items_of_count_zero (v : vector T) (h : v.item_counter = 0) : v.items = [] := by
  apply List.eq_nil_of_length_eq_zero
  rw [items_length, h]

theorem erase_agree (X Y : Traits) (a : vector T) (i : Nat) :
    (erase X a i).map (fun v => (v.item_counter, v.items)) =
      (erase Y a i).map (fun v => (v.item_counter, v.items)) := by
  by_cases h : i < a.item_counter
  · obtain ⟨r, h1, h2, _, h4, _⟩ := erase_spec X a i h
    obtain ⟨s, g1, g2, _, g4, _⟩ := erase_spec Y a i h
    exact map_observe_ok _ _ _ r s h1 g1 (by rw [h2, g2, h4, g4])
  · rw [erase_out_of_range X a i (by omega), erase_out_of_range Y a i (by omega)]

theorem insert_agree (X Y : Traits) (a : vector T) (i : Nat) (item : Option T)
    (hc : a.item_counter + 1 < 2 ^ 64) :
    (insert X a i (.external item)).map (fun v => (v.item_counter, v.items)) =
      (insert Y a i (.external item)).map (fun v => (v.item_counter, v.items)) := by
  by_cases h : i < a.item_counter
  · obtain ⟨r, h1, h2, _, h4⟩ := insert_spec X a i item h hc
    obtain ⟨s, g1, g2, _, g4⟩ := insert_spec Y a i item h hc
    exact map_observe_ok _ _ _ r s h1 g1 (by rw [h2, g2, h4, g4])
  · rw [insert_out_of_range X a i _ (by omega), insert_out_of_range Y a i _ (by omega)]

theorem replace_agree (X Y : Traits) (a : vector T) (i : Nat) (item : Option T) :
    (replace X a i (.external item)).map (fun v => (v.item_counter, v.items)) =
      (replace Y a i (.external item)).map (fun v => (v.item_counter, v.items)) := by
  by_cases h : i < a.item_counter
  · obtain ⟨r, h1, h2, _, _, _, h6⟩ := replace_spec X a i item h
    obtain ⟨s, g1, g2, _, _, _, g6⟩ := replace_spec Y a i item h
    exact map_observe_ok _ _ _ r s h1 g1 (by rw [h2, g2, h6, g6])
  · rw [(replace_out_of_range X a i _ (by omega)).1, (replace_out_of_range Y a i _ (by omega)).1]

theorem swap_items_agree (X Y : Traits) (v : vector T) (a b : Nat) :
    (swap_items X v a b).map (fun v => (v.item_counter, v.items)) =
      (swap_items Y v a b).map (fun v => (v.item_counter, v.items)) := by
  by_cases h : a < v.item_counter ∧ b < v.item_counter
  · obtain ⟨r, h1, h2, _, h4⟩ := swap_items_spec X v a b h.1 h.2
    obtain ⟨s, g1, g2, _, g4⟩ := swap_items_spec Y v a b h.1 h.2
    refine map_observe_ok _ _ _ r s h1 g1 ?_
    have hi : r.items = s.items :=
      items_eq_of_buffer r s (by rw [h2, g2]) (fun j _ => by rw [h4 j, g4 j])
    show (r.item_counter, r.items) = (s.item_counter, s.items)
    rw [h2, g2, hi]
  · have hX : ∀ Z : Traits, swap_items Z v a b = .error (.raised .IndexOutOfRange) := by
      intro Z
      unfold swap_items
      by_cases ha : a ≥ v.item_counter
      · rw [if_pos ha]
      · rw [if_neg ha, if_pos (by omega)]
    rw [hX X, hX Y]

theorem pop_back_agree (X Y : Traits) (a : vector T) :
    (pop_back X a).item_counter = (pop_back Y a).item_counter ∧
    (pop_back X a).items = (pop_back Y a).items := by
  have hc : ∀ Z : Traits, (pop_back Z a).item_counter = size_t_decr a.item_counter :=
    fun Z => internal_pop_back_count Z a
  have hb : ∀ (Z : Traits) (j : Nat), j < size_t_decr a.item_counter →
      (pop_back Z a).buffer j = a.buffer j :=
    fun Z j hj => internal_pop_back_buffer Z a j (by omega)
  refine ⟨by rw [hc X, hc Y], ?_⟩
  apply items_eq_of_buffer _ _ (by rw [hc X, hc Y])
  intro j hj
  rw [hc Y] at hj
  rw [hb X j hj, hb Y j hj]

theorem clear_agree (X Y : Traits) (a : vector T) :
    (clear X a).item_counter = (clear Y a).item_counter ∧
    (clear X a).items = (clear Y a).items := by
  have hc : ∀ Z : Traits, (clear Z a).item_counter = 0 := fun Z => internal_clear_items_count Z a
  exact ⟨by rw [hc X, hc Y],
    by rw [items_of_count_zero _ (hc X), items_of_count_zero _ (hc Y)]⟩

end vector

open vector

/-- For any two selections `X` and `Y` of the overloads, `erase`, `insert` (by copy, by
move, `emplace`), `replace` (by copy, by move, from constructor arguments), `pop_back`,
`clear` and `swap_items` on the same vector (count below `SIZE_MAX`) fail alike or succeed
alike and leave the same count and the same elements at the same positions, provided the
argument of `insert` and `replace` is no element of the vector. -/
theorem variants_agree_on_external_arguments {T : Type} (X Y : Traits) (a : vector T)
    (i j : Nat) (item : Option T) (hc : a.item_counter + 1 < 2 ^ 64) :
    (erase X a i).map (fun v => (v.item_counter, v.items)) =
      (erase Y a i).map (fun v => (v.item_counter, v.items)) ∧
    (insert X a i (.external item)).map (fun v => (v.item_counter, v.items)) =
      (insert Y a i (.external item)).map (fun v => (v.item_counter, v.items)) ∧
    (insert_move X a i (.external item)).map (fun v => (v.item_counter, v.items)) =
      (insert_move Y a i (.external item)).map (fun v => (v.item_counter, v.items)) ∧
    (emplace X a i (.external item)).map (fun v => (v.item_counter, v.items)) =
      (emplace Y a i (.external item)).map (fun v => (v.item_counter, v.items)) ∧
    (replace X a i (.external item)).map (fun v => (v.item_counter, v.items)) =
      (replace Y a i (.external item)).map (fun v => (v.item_counter, v.items)) ∧
    (replace_move X a i (.external item)).map (fun v => (v.item_counter, v.items)) =
      (replace_move Y a i (.external item)).map (fun v => (v.item_counter, v.items)) ∧
    (replace_emplace X a i (.external item)).map (fun v => (v.item_counter, v.items)) =
      (replace_emplace Y a i (.external item)).map (fun v => (v.item_counter, v.items)) ∧
    ((pop_back X a).item_counter = (pop_back Y a).item_counter ∧
      (pop_back X a).items = (pop_back Y a).items) ∧
    ((clear X a).item_counter = (clear Y a).item_counter ∧
      (clear X a).items = (clear Y a).items) ∧
    (swap_items X a i j).map (fun v => (v.item_counter, v.items)) =
      (swap_items Y a i j).map (fun v => (v.item_counter, v.items)) :=
  ⟨erase_agree X Y a i, insert_agree X Y a i item hc, insert_agree X Y a i item hc,
    insert_agree X Y a i item hc, replace_agree X Y a i item, replace_agree X Y a i item,
    replace_agree X Y a i item, pop_back_agree X Y a, clear_agree X Y a,
    swap_items_agree X Y a i j⟩

/-- C27, evaluated on the code: `insert` reads its reference after the relocation of the
elements, which the two overloads of `internal_move_or_copy` do differently. For a
trivially destructible element type, `insert(0, v[0])` on `{1, 2}` with capacity 3 gives
`{1, 1, 2}` with the copying overload, which leaves slot 0 intact, while with the moving
overload slot 0 is moved from when it is read and the first element has no determinate
value. -/
theorem dispatch_variants_differ_on_element_argument :
    (reserve Traits.scalar (ctor_list [1, 2] : vector Nat) 3).items = [some 1, some 2] ∧
    (reserve Traits.scalar (ctor_list [1, 2] : vector Nat) 3).buffer_size = 3 ∧
    reserve
      { is_nothrow_move_constructible := false, is_nothrow_destructible := true,
        is_trivially_destructible := true }
      (ctor_list [1, 2] : vector Nat) 3 =
      reserve Traits.scalar (ctor_list [1, 2] : vector Nat) 3 ∧
    (insert Traits.scalar (reserve Traits.scalar (ctor_list [1, 2] : vector Nat) 3) 0
        (.element 0)).map (fun v => (v.item_counter, v.items)) =
      .ok (3, [none, some 1, some 2]) ∧
    (insert
        { is_nothrow_move_constructible := false, is_nothrow_destructible := true,
          is_trivially_destructible := true }
        (reserve Traits.scalar (ctor_list [1, 2] : vector Nat) 3) 0
        (.element 0)).map (fun v => (v.item_counter, v.items)) =
      .ok (3, [some 1, some 1, some 2]) :=
  ⟨rfl, rfl, rfl, rfl, rfl⟩

end ext

/-! ## Capacity after `insert` -/

namespace ext

namespace vector

variable {T : Type}

theorem insert_capacity_of (X : Traits) (a : vector T) (i : Nat) (item : reference T)
    (h : i < a.item_counter) (hc : a.item_counter + 1 < 2 ^ 64) (r : vector T)
    (hr : r.buffer_size = (internal_copy_insert X a i item).buffer_size) :
    (a.item_counter = a.buffer_size →
      r.buffer_size = a.item_counter + 1 ∧ r.buffer_size = a.buffer_size + 1) ∧
    (a.item_counter < a.buffer_size → r.buffer_size = a.buffer_size) := by
  obtain ⟨_, _, h3, _⟩ := insert_reference_spec X a i item h hc
  rw [hr, h3]
  refine ⟨fun heq => ?_, fun hlt => by rw [if_neg (by omega)]⟩
  rw [if_pos (by omega), EXT_VECTOR_SIZE_of_ge _ (by omega)]
  exact ⟨rfl, by omega⟩

end vector

open vector

/-- C31: an `insert(i, item)` (by copy, by move, or `emplace`), whatever its argument
refers to, succeeds exactly for `i < count` and asks `reserve` for `count + 1` slots: when
it finds `count = capacity` the capacity becomes `count + 1`, the old capacity plus one,
and when it finds `count < capacity` the capacity is unchanged (counts below `SIZE_MAX`).
With an argument that is no element of the vector the three members give the same
result. -/
theorem insert_grows_by_one {T : Type} (X : Traits) (a : vector T) (i : Nat)
    (item : reference T) (hc : a.item_counter + 1 < 2 ^ 64) :
    (i < a.item_counter → ∃ r, insert X a i item = .ok r) ∧
    (∀ r, insert X a i item = .ok r →
      i < a.item_counter ∧
      (a.item_counter = a.buffer_size →
        r.buffer_size = a.item_counter + 1 ∧ r.buffer_size = a.buffer_size + 1) ∧
      (a.item_counter < a.buffer_size → r.buffer_size = a.buffer_size)) ∧
    (i < a.item_counter →
      (∃ r, insert_move X a i item = .ok r) ∧ ∃ r, emplace X a i item = .ok r) ∧
    (∀ r, insert_move X a i item = .ok r →
      i < a.item_counter ∧
      (a.item_counter = a.buffer_size →
        r.buffer_size = a.item_counter + 1 ∧ r.buffer_size = a.buffer_size + 1) ∧
      (a.item_counter < a.buffer_size → r.buffer_size = a.buffer_size)) ∧
    (∀ r, emplace X a i item = .ok r →
      i < a.item_counter ∧
      (a.item_counter = a.buffer_size →
        r.buffer_size = a.item_counter + 1 ∧ r.buffer_size = a.buffer_size + 1) ∧
      (a.item_counter < a.buffer_size → r.buffer_size = a.buffer_size)) ∧
    (∀ v, item = .external v →
      insert_move X a i item = insert X a i item ∧ emplace X a i item = insert X a i item) := by
  refine ⟨fun h => ⟨_, (insert_reference_spec X a i item h hc).1⟩, fun r hr => ?_,
    fun h => ⟨⟨_, (insert_move_shape X a i item h).1.1⟩, ⟨_, (insert_move_shape X a i item h).2.1⟩⟩,
    fun r hr => ?_, fun r hr => ?_, fun v hv => by rw [hv]; exact ⟨rfl, rfl⟩⟩
  · by_cases h : i < a.item_counter
    · rw [(insert_reference_spec X a i item h hc).1] at hr
      cases hr
      exact ⟨h, insert_capacity_of X a i item h hc _ rfl⟩
    · rw [insert_out_of_range X a i item (by omega)] at hr
      cases hr
  · by_cases h : i < a.item_counter
    · rw [(insert_move_shape X a i item h).1.1] at hr
      cases hr
      exact ⟨h, insert_capacity_of X a i item h hc _ (insert_move_shape X a i item h).1.2.1⟩
    · rw [(insert_move_out_of_range X a i item (by omega)).1] at hr
      cases hr
  · by_cases h : i < a.item_counter
    · rw [(insert_move_shape X a i item h).2.1] at hr
      cases hr
      exact ⟨h, insert_capacity_of X a i item h hc _ (insert_move_shape X a i item h).2.2.1⟩
    · rw [(insert_move_out_of_range X a i item (by omega)).2] at hr
      cases hr

/-- C31 at work: `{1, 2, 3, 4, 5}` has count 5 and capacity 5; `insert(0, 9)` gives capacity
6, where `push_back(9)` gives capacity 8, and so does `insert(0, v[4])`; after
`reserve(10)` the same insert leaves the capacity 10. -/
theorem insert_grows_by_one_witness :
    (∃ r, insert Traits.scalar (ctor_list [1, 2, 3, 4, 5] : vector Nat) 0
        (.external (some 9)) = .ok r ∧ r.buffer_size = 6) ∧
    (∃ r, insert Traits.scalar (ctor_list [1, 2, 3, 4, 5] : vector Nat) 0 (.element 4) =
        .ok r ∧ r.buffer_size = 6) ∧
    (push_back Traits.scalar (ctor_list [1, 2, 3, 4, 5] : vector Nat)
      (.external (some 9))).buffer_size = 8 ∧
    (∃ r, insert Traits.scalar
        (reserve Traits.scalar (ctor_list [1, 2, 3, 4, 5] : vector Nat) 10) 0
        (.external (some 9)) = .ok r ∧ r.buffer_size = 10) := by
  have h := insert_grows_by_one Traits.scalar (ctor_list [1, 2, 3, 4, 5] : vector Nat) 0
    (.external (some 9)) (by decide)
  have h4 := insert_grows_by_one Traits.scalar (ctor_list [1, 2, 3, 4, 5] : vector Nat) 0
    (.element 4) (by decide)
  have h10 := insert_grows_by_one Traits.scalar
    (reserve Traits.scalar (ctor_list [1, 2, 3, 4, 5] : vector Nat) 10) 0
    (.external (some 9)) (by decide)
  obtain ⟨r, hr⟩ := h.1 (by decide)
  obtain ⟨r4, hr4⟩ := h4.1 (by decide)
  obtain ⟨s, hs⟩ := h10.1 (by decide)
  exact ⟨⟨r, hr, ((h.2.1 r hr).2.1 (by decide)).1⟩,
    ⟨r4, hr4, ((h4.2.1 r4 hr4).2.1 (by decide)).1⟩, by decide,
    ⟨s, hs, (h10.2.1 s hs).2.2 (by decide)⟩⟩

end ext
